import Mathlib

/-!
# ydhost: map descriptor and configuration loader

A shallow embedding of `src/map.cpp` and `src/config.cpp` of the ydhost
Warcraft III LAN host, with the properties of the map descriptor, the decimal
byte-array parser and the configuration file reader proved over it.

Conventions of the embedding:

* a `std::string` is a list of characters (`Str`);
* unsigned machine integers are natural numbers, reduced modulo `2 ^ w` only
  where the source can wrap;
* an input stream (`std::stringstream`, `std::ifstream`) is the list of its
  unread characters together with its `eofbit` and `failbit`;
* a `std::map<std::string, std::string>` is an association list with unique
  keys, assignment replacing the value in place;
* constants declared in headers that are not part of the sources at hand
  (`map.h`, `gameslot.h`, `util.h`) are fields of the parameter record
  `Header`.
-/

namespace YDHost

/-- A `std::string`: its characters in order. -/
abbrev Str := List Char

/-! ## Declarations of `map.h` and `gameslot.h` -/

/-- Modelled from the spec: the enumeration `MAPSPEED` of `map.h` (the header
is not among the sources); its enumerators are the three named by `map.cpp`
and by the spec's game-flags paragraph. -/
inductive MAPSPEED where
  | SLOW
  | NORMAL
  | FAST
  deriving DecidableEq, Repr

/-- Modelled from the spec: the enumeration `MAPVIS` of `map.h` (the header is
not among the sources); its enumerators are the four named by `map.cpp` and by
the spec's game-flags paragraph. -/
inductive MAPVIS where
  | HIDETERRAIN
  | EXPLORED
  | ALWAYSVISIBLE
  | DEFAULT
  deriving DecidableEq, Repr

/-- Modelled from the spec: the enumeration `MAPOBS` of `map.h` (the header is
not among the sources); its enumerators are the four named by `map.cpp` and by
the spec's game-flags paragraph. -/
inductive MAPOBS where
  | NONE
  | ONDEFEAT
  | ALLOWED
  | REFEREES
  deriving DecidableEq, Repr

/-- Modelled from the spec: the slot record `CGameSlot` of `gameslot.h` (the
header is not among the sources), nine bytes in the order of the spec's data
model, which is also the order of the nine constructor arguments in
`CMap::Load`. -/
structure CGameSlot where
  m_PID : Nat
  m_DownloadStatus : Nat
  m_SlotStatus : Nat
  m_Computer : Nat
  m_Team : Nat
  m_Colour : Nat
  m_Race : Nat
  m_ComputerType : Nat
  m_Handicap : Nat
  deriving DecidableEq, Repr

/-- Modelled from the spec: `CGameSlot::SetTeam` of `gameslot.h`. -/
def CGameSlot.SetTeam (s : CGameSlot) (nTeam : Nat) : CGameSlot :=
  { s with m_Team := nTeam }

/-- Modelled from the spec: `CGameSlot::SetRace` of `gameslot.h`. -/
def CGameSlot.SetRace (s : CGameSlot) (nRace : Nat) : CGameSlot :=
  { s with m_Race := nRace }

/-- Modelled from the spec: `CGameSlot::GetRace` of `gameslot.h`. -/
def CGameSlot.GetRace (s : CGameSlot) : Nat :=
  s.m_Race

/-- The values that `map.cpp` takes from headers outside the sources at hand.
Nothing is assumed about them beyond their types: the bit masks of `MAPOPT`
and `MAPFLAG`, the slot constants of `gameslot.h`, the two trailing default
arguments of the seven-argument `CGameSlot` constructor, and the two
conversions of `util.h` that `CMap::Load` composes for its numeric fields
(the decimal byte list of a configuration value read as a little-endian
integer). -/
structure Header where
  MAPOPT_MELEE : Nat
  MAPOPT_FIXEDPLAYERSETTINGS : Nat
  MAPOPT_CUSTOMFORCES : Nat
  MAPFLAG_TEAMSTOGETHER : Nat
  MAPFLAG_FIXEDTEAMS : Nat
  MAPFLAG_UNITSHARE : Nat
  MAPFLAG_RANDOMHERO : Nat
  MAPFLAG_RANDOMRACES : Nat
  SLOTSTATUS_OPEN : Nat
  SLOTRACE_RANDOM : Nat
  SLOTRACE_SELECTABLE : Nat
  defaultComputerType : Nat
  defaultHandicap : Nat
  bytesToUInt32 : Str → Nat
  bytesToUInt16 : Str → Nat

/-- The state of a `CMap` object: the data members that `map.cpp` reads and
writes. -/
structure CMap where
  m_Valid : Bool
  m_MapPath : Str
  m_MapSize : Nat
  m_MapInfo : Nat
  m_MapCRC : Nat
  m_MapSHA1 : List Nat
  m_MapOptions : Nat
  m_MapWidth : Nat
  m_MapHeight : Nat
  m_MapNumPlayers : Nat
  m_Slots : List CGameSlot
  m_MapSpeed : MAPSPEED
  m_MapVisibility : MAPVIS
  m_MapObservers : MAPOBS
  m_MapFlags : Nat
  m_MapData : Str

/-! ## `CMap::GetMapGameFlags` and `CMap::GetMapLayoutStyle` -/

/-- The method `CMap::GetMapGameFlags` (map.cpp, lines 58-109): the local
`GameFlags` is threaded through the four groups of tests in source order. A
mask test `m_MapFlags & X` is true when the conjunction is not zero. -/
def CMap.GetMapGameFlags (h : Header) (self : CMap) : Nat :=
  -- speed
  let GameFlags : Nat :=
    if self.m_MapSpeed = MAPSPEED.SLOW then 0x00000000
    else if self.m_MapSpeed = MAPSPEED.NORMAL then 0x00000001
    else 0x00000002
  -- visibility
  let GameFlags : Nat :=
    if self.m_MapVisibility = MAPVIS.HIDETERRAIN then GameFlags ||| 0x00000100
    else if self.m_MapVisibility = MAPVIS.EXPLORED then GameFlags ||| 0x00000200
    else if self.m_MapVisibility = MAPVIS.ALWAYSVISIBLE then GameFlags ||| 0x00000400
    else GameFlags ||| 0x00000800
  -- observers
  let GameFlags : Nat :=
    if self.m_MapObservers = MAPOBS.ONDEFEAT then GameFlags ||| 0x00002000
    else if self.m_MapObservers = MAPOBS.ALLOWED then GameFlags ||| 0x00003000
    else if self.m_MapObservers = MAPOBS.REFEREES then GameFlags ||| 0x40000000
    else GameFlags
  -- teams/units/hero/race
  let GameFlags : Nat :=
    if self.m_MapFlags &&& h.MAPFLAG_TEAMSTOGETHER ≠ 0 then GameFlags ||| 0x00004000
    else GameFlags
  let GameFlags : Nat :=
    if self.m_MapFlags &&& h.MAPFLAG_FIXEDTEAMS ≠ 0 then GameFlags ||| 0x00060000
    else GameFlags
  let GameFlags : Nat :=
    if self.m_MapFlags &&& h.MAPFLAG_UNITSHARE ≠ 0 then GameFlags ||| 0x01000000
    else GameFlags
  let GameFlags : Nat :=
    if self.m_MapFlags &&& h.MAPFLAG_RANDOMHERO ≠ 0 then GameFlags ||| 0x02000000
    else GameFlags
  let GameFlags : Nat :=
    if self.m_MapFlags &&& h.MAPFLAG_RANDOMRACES ≠ 0 then GameFlags ||| 0x04000000
    else GameFlags
  GameFlags

/-- The method `CMap::GetMapLayoutStyle` (map.cpp, lines 111-125). -/
def CMap.GetMapLayoutStyle (h : Header) (self : CMap) : Nat :=
  if ¬ (self.m_MapOptions &&& h.MAPOPT_CUSTOMFORCES ≠ 0) then 0
  else if ¬ (self.m_MapOptions &&& h.MAPOPT_FIXEDPLAYERSETTINGS ≠ 0) then 1
  else 3

/-! ### The game-flag mask as the spec words it -/

/-- The speed component of the spec's game-flags paragraph. -/
def specSpeedBits : MAPSPEED → Nat
  | .SLOW => 0
  | .NORMAL => 1
  | .FAST => 2

/-- The visibility component of the spec's game-flags paragraph. -/
def specVisibilityBits : MAPVIS → Nat
  | .HIDETERRAIN => 0x100
  | .EXPLORED => 0x200
  | .ALWAYSVISIBLE => 0x400
  | .DEFAULT => 0x800

/-- The observer component of the spec's game-flags paragraph. -/
def specObserverBits : MAPOBS → Nat
  | .NONE => 0
  | .ONDEFEAT => 0x2000
  | .ALLOWED => 0x3000
  | .REFEREES => 0x40000000

/-- The contribution of one boolean setting: `bits` when the mask `flag` is
set in `flags`, nothing otherwise. -/
def specFlagBits (flags flag bits : Nat) : Nat :=
  if flags &&& flag = 0 then 0 else bits

/-- The game-flag mask of the spec: the bitwise OR of the eight components. -/
def specGameFlags (h : Header) (speed : MAPSPEED) (vis : MAPVIS) (obs : MAPOBS)
    (flags : Nat) : Nat :=
  specSpeedBits speed ||| specVisibilityBits vis ||| specObserverBits obs
    ||| specFlagBits flags h.MAPFLAG_TEAMSTOGETHER 0x4000
    ||| specFlagBits flags h.MAPFLAG_FIXEDTEAMS 0x60000
    ||| specFlagBits flags h.MAPFLAG_UNITSHARE 0x1000000
    ||| specFlagBits flags h.MAPFLAG_RANDOMHERO 0x2000000
    ||| specFlagBits flags h.MAPFLAG_RANDOMRACES 0x4000000

/-! ## Formatted input: `std::stringstream` and `operator>>` -/

/-- An input stream being read: the characters not yet extracted and the two
state flags the sources test or depend on. `good()` is both flags clear. -/
structure IStream where
  buf : Str
  eofbit : Bool
  failbit : Bool
  deriving DecidableEq, Repr

/-- The classification `isspace` of the "C" locale: space, `\t`, `\n`, `\v`,
`\f` and `\r`. -/
def isspace (c : Char) : Bool :=
  c = ' ' || c = '\t' || c = '\n' || c = '\x0b' || c = '\x0c' || c = '\r'

/-- The decimal digits `0` .. `9`. -/
def isdigit (c : Char) : Bool :=
  48 ≤ c.toNat && c.toNat ≤ 57

/-- The value of a run of decimal digits, most significant first. -/
def digitsValue (ds : Str) : Nat :=
  ds.foldl (fun acc c => acc * 10 + (c.toNat - 48)) 0

/-- The largest `uint32_t`. -/
def UINT32_MAX : Nat := 2 ^ 32 - 1

/-- What `std::num_get` delivers for an `unsigned int`: the value stored, whether
`failbit` is raised, and the characters left unread. -/
structure NumGet where
  value : Nat
  fail : Bool
  rest : Str
  deriving DecidableEq, Repr

/-- The conversion `std::num_get<char>::get` for an `unsigned int` in base 10
(the stream's `basefield` is `dec`), entered at a character that is not
whitespace: an optional sign, then the longest run of digits. With no digit
the value is 0 and `failbit` is raised; a digit run above `UINT32_MAX` stores
`UINT32_MAX` and raises `failbit`; a minus sign negates the value modulo
`2 ^ 32`. -/
def num_get (s : Str) : NumGet :=
  let negative : Bool := s.head? = some '-'
  let body : Str := if s.head? = some '-' ∨ s.head? = some '+' then s.tail else s
  let ds : Str := body.takeWhile isdigit
  let rest : Str := body.dropWhile isdigit
  if ds = [] then ⟨0, true, rest⟩
  else if UINT32_MAX < digitsValue ds then ⟨UINT32_MAX, true, rest⟩
  else ⟨if negative then (2 ^ 32 - digitsValue ds) % 2 ^ 32 else digitsValue ds, false, rest⟩

/-- The extraction `SS >> c` for a `uint32_t c`, as a function of the stream and
of the value `c` holds before. The sentry fails on a stream that is not good:
`failbit` is raised and `c` keeps its value. Otherwise leading whitespace is
skipped; if that exhausts the stream, `eofbit` and `failbit` are raised and `c`
keeps its value. Otherwise `num_get` converts, and `eofbit` is raised exactly
when the conversion stopped at the end of the stream. -/
def IStream.extractUInt32 (SS : IStream) (c : Nat) : IStream × Nat :=
  if SS.eofbit || SS.failbit then
    ({ SS with failbit := true }, c)
  else
    let s := SS.buf.dropWhile isspace
    if s = [] then
      (⟨[], true, true⟩, c)
    else
      let r := num_get s
      (⟨r.rest, r.rest.isEmpty, r.fail⟩, r.value)

/-- The loop of `ExtractNumbers` from index `i` on, `k` iterations remaining
(`k = N - i`): the stream, the local `c` and the array are threaded through;
`w` is the bit width of the element type `T`, the cast `(T)c` keeping the low
`w` bits. -/
def ExtractNumbers.loop (w : Nat) : Nat → Nat → IStream → Nat → List Nat → Bool × List Nat
  | 0, _, _, _, result => (true, result)
  | k + 1, i, SS, c, result =>
    if SS.eofbit then
      (false, result)
    else
      let (SS1, c1) := SS.extractUInt32 c
      ExtractNumbers.loop w k (i + 1) SS1 c1 (result.set i (c1 % 2 ^ w))

/-- The function template `ExtractNumbers<T, N>` (map.cpp, lines 28-42) for an
unsigned element type `T` of `w` bits. `c0` is the indeterminate value of the
uninitialised local `c`, `result` the array as the caller passes it; the
function returns its boolean together with the array as it leaves it. The
string stream starts good and holds the characters of `s`. -/
def ExtractNumbers (w N : Nat) (s : Str) (c0 : Nat) (result : List Nat) : Bool × List Nat :=
  ExtractNumbers.loop w N 0 ⟨s, false, false⟩ c0 result

/-! ## `std::string` and `std::map` operations used by `config.cpp` -/

/-- The constant `std::string::npos`, the largest `size_type` (64 bits). -/
def npos : Nat := 2 ^ 64 - 1

/-- The index of the first character that satisfies `p`, if there is one. -/
def firstIndex (p : Char → Bool) : Str → Option Nat
  | [] => none
  | c :: cs => if p c then some 0 else (firstIndex p cs).map (fun i => i + 1)

/-- The member `std::string::find` for a one-character needle: the first index
at or after `pos` that holds `ch`, or `npos`. -/
def string_find (s : Str) (ch : Char) (pos : Nat) : Nat :=
  match firstIndex (fun c => c = ch) (s.drop pos) with
  | some i => pos + i
  | none => npos

/-- The member `std::string::find_first_not_of` for a one-character set: the
first index at or after `pos` that does not hold `ch`, or `npos`. -/
def string_find_first_not_of (s : Str) (ch : Char) (pos : Nat) : Nat :=
  match firstIndex (fun c => c ≠ ch) (s.drop pos) with
  | some i => pos + i
  | none => npos

/-- The member `std::string::substr`: `none` stands for the exception
`std::out_of_range`, thrown when `pos` exceeds the size; otherwise at most
`count` characters from `pos` on. -/
def string_substr (s : Str) (pos count : Nat) : Option Str :=
  if s.length < pos then none else some ((s.drop pos).take count)

/-- The difference of two `size_type` values, modulo `2 ^ 64`. -/
def size_sub (a b : Nat) : Nat :=
  (a + 2 ^ 64 - b % 2 ^ 64) % 2 ^ 64

/-- The member `std::map::find`, reduced to what the sources use: the value
stored under the key, `none` for `end()`. -/
def map_find : List (Str × Str) → Str → Option Str
  | [], _ => none
  | (k, v) :: m, key => if k = key then some v else map_find m key

/-- The assignment `m[key] = value`: the value under an existing key is
replaced, a new key is added. -/
def map_assign : List (Str × Str) → Str → Str → List (Str × Str)
  | [], key, value => [(key, value)]
  | (k, v) :: m, key, value =>
    if k = key then (k, value) :: m else (k, v) :: map_assign m key value

/-- The read access `m[key]` of a non-const `std::map`: the value stored, and
the map afterwards, which has gained an empty string under the key when the key
was absent. -/
def map_index : List (Str × Str) → Str → Str × List (Str × Str)
  | [], key => ([], [(key, [])])
  | (k, v) :: m, key =>
    if k = key then (v, (k, v) :: m)
    else ((map_index m key).1, (k, v) :: (map_index m key).2)

/-! ## `config.cpp` -/

/-- The state of a `CConfig` object: its map from keys to values. -/
structure CConfig where
  m_CFG : List (Str × Str)
  deriving DecidableEq, Repr

/-- The ways the model of the constructor can end without a configuration. -/
inductive LoadError where
  /-- An exception `std::out_of_range` left `std::string::substr`. -/
  | out_of_range
  /-- The iteration bound of the model was used up. -/
  | out_of_fuel
  deriving DecidableEq, Repr

deriving instance DecidableEq for Except

/-- The call `std::getline(in, Line)`. On a stream that is not good the sentry
fails: `failbit` is raised and `Line` keeps its value. Otherwise `Line` becomes
the characters up to the next `\n`, which is extracted and dropped; when the
stream ends first, `eofbit` is raised, and `failbit` too if no character was
extracted. -/
def getline (fin : IStream) (Line : Str) : IStream × Str :=
  if fin.eofbit || fin.failbit then
    ({ fin with failbit := true }, Line)
  else
    match fin.buf.dropWhile (fun c => c ≠ '\n') with
    | [] => (⟨[], true, fin.buf.isEmpty⟩, fin.buf.takeWhile (fun c => c ≠ '\n'))
    | _ :: rest => (⟨rest, false, false⟩, fin.buf.takeWhile (fun c => c ≠ '\n'))

/-- The body of the reading loop of `CConfig::CConfig` (config.cpp, lines
41-54) for one value of `Line`: the value `Line` has afterwards and the map
afterwards, or the exception that leaves `substr`. -/
def CConfig.processLine (Line : Str) (m_CFG : List (Str × Str)) :
    Except LoadError (Str × List (Str × Str)) :=
  if Line = [] ∨ Line.head? = some '#' ∨ Line = ['\n'] then
    .ok (Line, m_CFG)
  else
    let Line := Line.filter (fun c => c ≠ '\r')
    let Line := Line.filter (fun c => c ≠ '\n')
    let Split := string_find Line '=' 0
    if Split = npos then
      .ok (Line, m_CFG)
    else
      let KeyStart := string_find_first_not_of Line ' ' 0
      let KeyEnd := string_find Line ' ' KeyStart
      let ValueStart := string_find_first_not_of Line ' ' (Split + 1)
      let ValueEnd := Line.length
      if ValueStart ≠ npos then
        match string_substr Line KeyStart (size_sub KeyEnd KeyStart),
            string_substr Line ValueStart (size_sub ValueEnd ValueStart) with
        | some key, some value => .ok (Line, map_assign m_CFG key value)
        | _, _ => .error .out_of_range
      else
        .ok (Line, m_CFG)

/-- The loop `while (!in.eof())` of `CConfig::CConfig` (config.cpp, lines
38-55) with an iteration bound. -/
def CConfig.loadLoop : Nat → IStream → Str → List (Str × Str) →
    Except LoadError (List (Str × Str))
  | 0, _, _, _ => .error .out_of_fuel
  | fuel + 1, fin, Line, m_CFG =>
    if fin.eofbit then
      .ok m_CFG
    else
      match CConfig.processLine (getline fin Line).2 m_CFG with
      | .error e => .error e
      | .ok (Line1, m1) => CConfig.loadLoop fuel (getline fin Line).1 Line1 m1

/-- The constructor `CConfig::CConfig` (config.cpp, lines 29-58). The file is
given by its content, `none` when it cannot be opened, in which case the map
stays empty. Every iteration extracts a character or raises `eofbit`, so two
more iterations than the file has characters are never used up. -/
def CConfig.new (file : Option Str) : Except LoadError CConfig :=
  match file with
  | none => .ok ⟨[]⟩
  | some content =>
    match CConfig.loadLoop (content.length + 2) ⟨content, false, false⟩ [] [] with
    | .error e => .error e
    | .ok m => .ok ⟨m⟩

/-- The limits of a 32-bit `int`, and the conversion of a `long` to it, which
keeps the low 32 bits. -/
def toInt32 (z : Int) : Int :=
  (z + 2 ^ 31) % 2 ^ 32 - 2 ^ 31

/-- The C library function `atoi`, which is `(int) strtol(s, NULL, 10)`:
leading whitespace is skipped, an optional sign is read, then the longest run
of digits, whose value is 0 when the run is empty. `strtol` keeps a value
within the range of a 64-bit `long`; the conversion to `int` then keeps the low
32 bits (the C standard leaves a value out of the range of `int` undefined). -/
def atoi (s : Str) : Int :=
  let s1 := s.dropWhile isspace
  let negative : Bool := s1.head? = some '-'
  let body : Str := if s1.head? = some '-' ∨ s1.head? = some '+' then s1.tail else s1
  let v : Int := (digitsValue (body.takeWhile isdigit) : Nat)
  let l : Int := if negative then max (-v) (-(2 ^ 63)) else min v (2 ^ 63 - 1)
  toInt32 l

/-- The method `CConfig::GetInt` (config.cpp, lines 64-69): the value returned
and the object afterwards. -/
def CConfig.GetInt (self : CConfig) (key : Str) (def_ : Int) : Int × CConfig :=
  if map_find self.m_CFG key = none then
    (def_, self)
  else
    (atoi (map_index self.m_CFG key).1, ⟨(map_index self.m_CFG key).2⟩)

/-- The method `CConfig::GetString` (config.cpp, lines 71-76): the value
returned and the object afterwards. -/
def CConfig.GetString (self : CConfig) (key : Str) (def_ : Str) : Str × CConfig :=
  if map_find self.m_CFG key = none then
    (def_, self)
  else
    ((map_index self.m_CFG key).1, ⟨(map_index self.m_CFG key).2⟩)

/-! ## `CMap::Load` and `CMap::CheckValid` -/

/-- The values that C++ leaves indeterminate and `CMap::Load` can read: the
uninitialised local `c` of each call of `ExtractNumbers` (call 0 is the one for
`map_sha1`, call `k` the one for `map_slot<k>`), the uninitialised array
`SlotData` of each iteration, and the byte array `m_MapSHA1` of an object under
construction. -/
structure Indeterminate where
  c : Nat → Nat
  SlotData : Nat → Nat → Nat
  sha1 : Nat → Nat

/-- The seven-argument call `CGameSlot(0, 255, SLOTSTATUS_OPEN, 0, 12, 12,
SLOTRACE_RANDOM)` of `CMap::Load`, the two trailing arguments taking the
defaults of `gameslot.h`. -/
def observerSlot (h : Header) : CGameSlot :=
  ⟨0, 255, h.SLOTSTATUS_OPEN, 0, 12, 12, h.SLOTRACE_RANDOM, h.defaultComputerType,
    h.defaultHandicap⟩

/-- The conversion of the `int32_t` that `GetInt` returns to the `uint32_t`
member that receives it. -/
def toUInt32 (z : Int) : Nat :=
  (z % 2 ^ 32).toNat

/-- The call `CGameSlot(SlotData[0], SlotData[1], ..., SlotData[8])` of
`CMap::Load` on the nine-element array `SlotData`. -/
def CGameSlot.ofSlotData (SlotData : List Nat) : CGameSlot :=
  ⟨SlotData.getD 0 0, SlotData.getD 1 0, SlotData.getD 2 0, SlotData.getD 3 0,
    SlotData.getD 4 0, SlotData.getD 5 0, SlotData.getD 6 0, SlotData.getD 7 0,
    SlotData.getD 8 0⟩

/-- The key `"map_slot" + std::to_string(Slot)`. -/
def slotKey (Slot : Nat) : Str :=
  "map_slot".toList ++ Nat.toDigits 10 Slot

/-- The loop over `Slot` of `CMap::Load` (map.cpp, lines 158-169), `k`
iterations remaining: the slot vector is returned as it stands at the `break`
or at the end. The lookups use `.1`, the string returned: `GetString` leaves
the configuration as it is. -/
def CMap.readSlots (u : Indeterminate) (MAP : CConfig) :
    Nat → Nat → List CGameSlot → List CGameSlot
  | 0, _, m_Slots => m_Slots
  | k + 1, Slot, m_Slots =>
    let SlotString := (MAP.GetString (slotKey Slot) []).1
    if SlotString = [] then
      m_Slots
    else
      let r := ExtractNumbers 8 9 SlotString (u.c Slot) ((List.range 9).map (u.SlotData Slot))
      if ¬ r.1 then
        m_Slots
      else
        let SlotData := r.2
        CMap.readSlots u MAP k (Slot + 1) (m_Slots ++ [CGameSlot.ofSlotData SlotData])

/-- The melee loop of `CMap::Load` (map.cpp, lines 179-184): the `uint8_t`
counter `Team` is handed to `SetTeam` and incremented, then the race is set to
random. -/
def CMap.meleeSlots (h : Header) : List CGameSlot → Nat → List CGameSlot
  | [], _ => []
  | Slot :: rest, Team =>
    (Slot.SetTeam Team).SetRace h.SLOTRACE_RANDOM :: CMap.meleeSlots h rest ((Team + 1) % 256)

/-- The loop `while (m_Slots.size() < 12)` of `CMap::Load` (map.cpp, lines
212-213) with an iteration bound. -/
def CMap.addObserverSlots (h : Header) : Nat → List CGameSlot → List CGameSlot
  | 0, m_Slots => m_Slots
  | k + 1, m_Slots =>
    if m_Slots.length < 12 then CMap.addObserverSlots h k (m_Slots ++ [observerSlot h])
    else m_Slots

/-- The method `CMap::CheckValid` (map.cpp, lines 219-250): the only member it
assigns is `m_Valid`, a local here, rebound by each of the four tests in source
order. The warning about forward slashes changes nothing. -/
def CMap.CheckValid (self : CMap) : CMap :=
  let m_Valid := self.m_Valid
  let m_Valid :=
    if self.m_MapPath = [] ∨ 53 < self.m_MapPath.length then false else m_Valid
  let m_Valid :=
    if self.m_MapData ≠ [] ∧ self.m_MapData.length ≠ self.m_MapSize then false else m_Valid
  let m_Valid :=
    if self.m_MapNumPlayers = 0 ∨ 12 < self.m_MapNumPlayers then false else m_Valid
  let m_Valid :=
    if self.m_Slots = [] ∨ 12 < self.m_Slots.length then false else m_Valid
  { self with m_Valid := m_Valid }

set_option linter.unusedVariables false in
/-- The method `CMap::Load` (map.cpp, lines 127-217), as a function from the
object before the call to the object after it. Every data member the method
assigns is a local of the same name here, rebound at each assignment in source
order; the object is put together where the method returns. Calls of `Print`
are left out. The masks and slot constants of `Header` are byte or word values
and are stored as they are. -/
def CMap.Load (h : Header) (u : Indeterminate) (self : CMap) (MapPath : Str)
    (MAP : CConfig) : CMap :=
  let m_MapPath := MapPath
  let m_MapSize := h.bytesToUInt32 (MAP.GetString "map_size".toList []).1
  let m_MapInfo := h.bytesToUInt32 (MAP.GetString "map_info".toList []).1
  let m_MapCRC := h.bytesToUInt32 (MAP.GetString "map_crc".toList []).1
  let sha1_str := (MAP.GetString "map_sha1".toList []).1
  let r := ExtractNumbers 8 20 sha1_str (u.c 0) self.m_MapSHA1
  let m_MapSHA1 := r.2
  if ¬ r.1 then
    { self with
      m_Valid := false, m_MapPath := m_MapPath, m_MapSize := m_MapSize,
      m_MapInfo := m_MapInfo, m_MapCRC := m_MapCRC, m_MapSHA1 := m_MapSHA1 }
  else
    let m_MapOptions := toUInt32 (MAP.GetInt "map_options".toList 0).1
    let m_MapWidth := h.bytesToUInt16 (MAP.GetString "map_width".toList []).1
    let m_MapHeight := h.bytesToUInt16 (MAP.GetString "map_height".toList []).1
    let m_MapNumPlayers := toUInt32 (MAP.GetInt "map_numplayers".toList 0).1
    let m_Slots : List CGameSlot := []
    let m_Slots := CMap.readSlots u MAP 12 1 m_Slots
    let m_MapNumPlayers := m_Slots.length
    let m_MapSpeed := MAPSPEED.FAST
    let m_MapVisibility := MAPVIS.DEFAULT
    let m_MapObservers := MAPOBS.NONE
    let m_MapFlags := h.MAPFLAG_TEAMSTOGETHER ||| h.MAPFLAG_FIXEDTEAMS
    -- the block `if (m_MapOptions & MAPOPT::MELEE)`: the slot loop, then the observers
    let m_Slots :=
      if m_MapOptions &&& h.MAPOPT_MELEE ≠ 0 then CMap.meleeSlots h m_Slots 0 else m_Slots
    let m_MapObservers :=
      if m_MapOptions &&& h.MAPOPT_MELEE ≠ 0 then
        -- force melee maps to have observer slots enabled by default
        (if m_MapObservers = MAPOBS.NONE then MAPOBS.ALLOWED else m_MapObservers)
      else m_MapObservers
    let m_Slots :=
      if ¬ (m_MapOptions &&& h.MAPOPT_FIXEDPLAYERSETTINGS ≠ 0) then
        m_Slots.map (fun Slot => Slot.SetRace (Slot.GetRace ||| h.SLOTRACE_SELECTABLE))
      else m_Slots
    -- if random races is set force every slot's race to random
    let m_Slots :=
      if m_MapFlags &&& h.MAPFLAG_RANDOMRACES ≠ 0 then
        m_Slots.map (fun slot => slot.SetRace h.SLOTRACE_RANDOM)
      else m_Slots
    -- add observer slots
    let m_Slots :=
      if m_MapObservers = MAPOBS.ALLOWED ∨ m_MapObservers = MAPOBS.REFEREES then
        CMap.addObserverSlots h 12 m_Slots
      else m_Slots
    CMap.CheckValid
      { m_Valid := true, m_MapPath := m_MapPath, m_MapSize := m_MapSize,
        m_MapInfo := m_MapInfo, m_MapCRC := m_MapCRC, m_MapSHA1 := m_MapSHA1,
        m_MapOptions := m_MapOptions, m_MapWidth := m_MapWidth, m_MapHeight := m_MapHeight,
        m_MapNumPlayers := m_MapNumPlayers, m_Slots := m_Slots, m_MapSpeed := m_MapSpeed,
        m_MapVisibility := m_MapVisibility, m_MapObservers := m_MapObservers,
        m_MapFlags := m_MapFlags, m_MapData := self.m_MapData }

/-- The constructor `CMap::CMap` (map.cpp, lines 48-51): `Load` on an object
whose strings and vector are empty and whose other members are indeterminate;
`init` supplies the latter. -/
def CMap.new (h : Header) (u : Indeterminate) (init : CMap) (MapPath : Str)
    (MAP : CConfig) : CMap :=
  CMap.Load h u
    { init with m_MapPath := [], m_Slots := [], m_MapData := [],
                m_MapSHA1 := (List.range 20).map u.sha1 }
    MapPath MAP

/-- The members of a slot that `CMap::Load` never rewrites after it has built
the slot: all but the team and the race. -/
def CGameSlot.configured (s : CGameSlot) : Nat × Nat × Nat × Nat × Nat × Nat × Nat :=
  (s.m_PID, s.m_DownloadStatus, s.m_SlotStatus, s.m_Computer, s.m_Colour, s.m_ComputerType,
    s.m_Handicap)

/-- Whether `ExtractNumbers` accepts the `map_sha1` value of a configuration
as 20 bytes, when called on an object in state `self`. -/
def sha1Parses (u : Indeterminate) (self : CMap) (MAP : CConfig) : Bool :=
  (ExtractNumbers 8 20 (MAP.GetString "map_sha1".toList []).1 (u.c 0) self.m_MapSHA1).1

/-- The constants of the GHost++ headers this code was ported from, used for
concrete evaluations: `MAPOPT` melee 4, fixed player settings 32, custom forces
64; `MAPFLAG` 1, 2, 4, 8, 16; open slot 0; random race 32, selectable 64;
default computer type 1 and handicap 100. The numeric conversions of `util.h`
play no part in the evaluations and are constant here. -/
def ghostHeader : Header :=
  { MAPOPT_MELEE := 4, MAPOPT_FIXEDPLAYERSETTINGS := 32, MAPOPT_CUSTOMFORCES := 64,
    MAPFLAG_TEAMSTOGETHER := 1, MAPFLAG_FIXEDTEAMS := 2, MAPFLAG_UNITSHARE := 4,
    MAPFLAG_RANDOMHERO := 8, MAPFLAG_RANDOMRACES := 16,
    SLOTSTATUS_OPEN := 0, SLOTRACE_RANDOM := 32, SLOTRACE_SELECTABLE := 64,
    defaultComputerType := 1, defaultHandicap := 100,
    bytesToUInt32 := fun _ => 0, bytesToUInt16 := fun _ => 0 }

/-- Indeterminate values chosen for concrete evaluations. -/
def someIndeterminate : Indeterminate :=
  { c := fun _ => 7, SlotData := fun _ _ => 9, sha1 := fun _ => 0 }

/-- An object state chosen for concrete evaluations. -/
def someCMap : CMap :=
  { m_Valid := false, m_MapPath := [], m_MapSize := 0, m_MapInfo := 0, m_MapCRC := 0,
    m_MapSHA1 := List.replicate 20 0, m_MapOptions := 0, m_MapWidth := 0, m_MapHeight := 0,
    m_MapNumPlayers := 5, m_Slots := [], m_MapSpeed := MAPSPEED.SLOW,
    m_MapVisibility := MAPVIS.HIDETERRAIN, m_MapObservers := MAPOBS.REFEREES, m_MapFlags := 0,
    m_MapData := [] }

/-- A map configuration with a 20-byte `map_sha1`, the melee option and two
slots. -/
def meleeConfig : CConfig :=
  ⟨[("map_sha1".toList, "1 2 3 4 5 6 7 8 9 10 11 12 13 14 15 16 17 18 19 20".toList),
    ("map_options".toList, "4".toList),
    ("map_slot1".toList, "0 255 0 0 0 1 4 1 100".toList),
    ("map_slot2".toList, "0 255 0 0 1 2 8 1 100".toList)]⟩

/-- A map configuration with a 20-byte `map_sha1`, custom forces with fixed
player settings, and two slots. -/
def customConfig : CConfig :=
  ⟨[("map_sha1".toList, "1 2 3 4 5 6 7 8 9 10 11 12 13 14 15 16 17 18 19 20".toList),
    ("map_options".toList, "96".toList),
    ("map_slot1".toList, "0 255 0 0 0 1 4 1 100".toList),
    ("map_slot2".toList, "0 255 0 0 1 2 8 1 100".toList)]⟩

/-! ### Decimal tokens -/

/-- A stretch of text cannot continue a decimal token: it is empty or starts
with a character that is not a digit. -/
def EndsToken (more : Str) : Prop :=
  ∀ c, more.head? = some c → isdigit c = false

/-- The decimal representations of the numbers of a list, separated by single
spaces, with nothing before the first and nothing after the last. -/
def spaced : List Nat → Str
  | [] => []
  | [x] => Nat.toDigits 10 x
  | x :: y :: ys => Nat.toDigits 10 x ++ ' ' :: spaced (y :: ys)

/-! ### Files as lists of lines -/

/-- The content of a text file whose lines are `ls`: consecutive lines are
separated by one `\n`; a file that ends in `\n` has the empty string as its
last line. -/
def joinLines (ls : List Str) : Str :=
  ['\n'].intercalate ls

/-- The loop body applied to the lines of a list in order, from the map `m`
on. -/
def runLines : List Str → List (Str × Str) → Except LoadError (List (Str × Str))
  | [], m => .ok m
  | l :: ls, m =>
    match CConfig.processLine l m with
    | .error e => .error e
    | .ok (_, m1) => runLines ls m1

/-- A line that the spec says contributes nothing: an empty line, a lone
carriage return, a line whose first character is `#`, a line without `=`. -/
def SkippedLine (l : Str) : Prop :=
  l = [] ∨ l = ['\r'] ∨ l.head? = some '#' ∨ '=' ∉ l

/-- A well-formed key: not empty, no space, `=`, CR or LF, and not starting
with `#`. -/
def KeyOK (k : Str) : Prop :=
  k ≠ [] ∧ (∀ c ∈ k, c ≠ ' ' ∧ c ≠ '=' ∧ c ≠ '\r' ∧ c ≠ '\n') ∧ k.head? ≠ some '#'

/-- A value the parser stores as it stands: not empty, no CR or LF, and not
starting with a space. -/
def ValueOK (v : Str) : Prop :=
  v ≠ [] ∧ (∀ c ∈ v, c ≠ '\r' ∧ c ≠ '\n') ∧ v.head? ≠ some ' '

/-! ## `gameprotocol.h` -/

/-- The macro `W3GS_HEADER_CONSTANT` (gameprotocol.h, line 32). -/
def W3GS_HEADER_CONSTANT : Nat := 247

/-- The macro `REJECTJOIN_FULL` (gameprotocol.h, line 45). -/
def REJECTJOIN_FULL : Nat := 9

/-- The macro `REJECTJOIN_STARTED` (gameprotocol.h, line 46). -/
def REJECTJOIN_STARTED : Nat := 10

/-- The macro `REJECTJOIN_WRONGPASSWORD` (gameprotocol.h, line 47). -/
def REJECTJOIN_WRONGPASSWORD : Nat := 27

/-- The enumerators of `CGameProtocol::Protocol` (gameprotocol.h, lines
58-96), in the order of the header. -/
inductive CGameProtocol.Protocol where
  | W3GS_PING_FROM_HOST
  | W3GS_SLOTINFOJOIN
  | W3GS_REJECTJOIN
  | W3GS_PLAYERINFO
  | W3GS_PLAYERLEAVE_OTHERS
  | W3GS_GAMELOADED_OTHERS
  | W3GS_SLOTINFO
  | W3GS_COUNTDOWN_START
  | W3GS_COUNTDOWN_END
  | W3GS_INCOMING_ACTION
  | W3GS_CHAT_FROM_HOST
  | W3GS_START_LAG
  | W3GS_STOP_LAG
  | W3GS_HOST_KICK_PLAYER
  | W3GS_REQJOIN
  | W3GS_LEAVEGAME
  | W3GS_GAMELOADED_SELF
  | W3GS_OUTGOING_ACTION
  | W3GS_OUTGOING_KEEPALIVE
  | W3GS_CHAT_TO_HOST
  | W3GS_DROPREQ
  | W3GS_SEARCHGAME
  | W3GS_GAMEINFO
  | W3GS_CREATEGAME
  | W3GS_REFRESHGAME
  | W3GS_DECREATEGAME
  | W3GS_CHAT_OTHERS
  | W3GS_PING_FROM_OTHERS
  | W3GS_PONG_TO_OTHERS
  | W3GS_MAPCHECK
  | W3GS_STARTDOWNLOAD
  | W3GS_MAPSIZE
  | W3GS_MAPPART
  | W3GS_MAPPARTNOTOK
  | W3GS_PONG_TO_HOST
  | W3GS_INCOMING_ACTION2
  deriving DecidableEq, Repr

/-- The value the header gives each enumerator of `CGameProtocol::Protocol`. -/
def CGameProtocol.Protocol.value : CGameProtocol.Protocol → Nat
  | .W3GS_PING_FROM_HOST => 1
  | .W3GS_SLOTINFOJOIN => 4
  | .W3GS_REJECTJOIN => 5
  | .W3GS_PLAYERINFO => 6
  | .W3GS_PLAYERLEAVE_OTHERS => 7
  | .W3GS_GAMELOADED_OTHERS => 8
  | .W3GS_SLOTINFO => 9
  | .W3GS_COUNTDOWN_START => 10
  | .W3GS_COUNTDOWN_END => 11
  | .W3GS_INCOMING_ACTION => 12
  | .W3GS_CHAT_FROM_HOST => 15
  | .W3GS_START_LAG => 16
  | .W3GS_STOP_LAG => 17
  | .W3GS_HOST_KICK_PLAYER => 28
  | .W3GS_REQJOIN => 30
  | .W3GS_LEAVEGAME => 33
  | .W3GS_GAMELOADED_SELF => 35
  | .W3GS_OUTGOING_ACTION => 38
  | .W3GS_OUTGOING_KEEPALIVE => 39
  | .W3GS_CHAT_TO_HOST => 40
  | .W3GS_DROPREQ => 41
  | .W3GS_SEARCHGAME => 47
  | .W3GS_GAMEINFO => 48
  | .W3GS_CREATEGAME => 49
  | .W3GS_REFRESHGAME => 50
  | .W3GS_DECREATEGAME => 51
  | .W3GS_CHAT_OTHERS => 52
  | .W3GS_PING_FROM_OTHERS => 53
  | .W3GS_PONG_TO_OTHERS => 54
  | .W3GS_MAPCHECK => 61
  | .W3GS_STARTDOWNLOAD => 63
  | .W3GS_MAPSIZE => 66
  | .W3GS_MAPPART => 67
  | .W3GS_MAPPARTNOTOK => 69
  | .W3GS_PONG_TO_HOST => 70
  | .W3GS_INCOMING_ACTION2 => 72

/-- The type bytes of the spec's receive and send tables (sections 4.3 and 6)
and of its UDP paragraph, each with the packet name the spec gives it. -/
def specPacketTypes : List (CGameProtocol.Protocol × Nat) :=
  [(.W3GS_PING_FROM_HOST, 0x01), (.W3GS_SLOTINFOJOIN, 0x04), (.W3GS_REJECTJOIN, 0x05),
    (.W3GS_PLAYERINFO, 0x06), (.W3GS_PLAYERLEAVE_OTHERS, 0x07),
    (.W3GS_GAMELOADED_OTHERS, 0x08), (.W3GS_SLOTINFO, 0x09), (.W3GS_COUNTDOWN_START, 0x0A),
    (.W3GS_COUNTDOWN_END, 0x0B), (.W3GS_INCOMING_ACTION, 0x0C), (.W3GS_CHAT_FROM_HOST, 0x0F),
    (.W3GS_START_LAG, 0x10), (.W3GS_STOP_LAG, 0x11), (.W3GS_REQJOIN, 0x1E),
    (.W3GS_LEAVEGAME, 0x21), (.W3GS_GAMELOADED_SELF, 0x23), (.W3GS_OUTGOING_ACTION, 0x26),
    (.W3GS_OUTGOING_KEEPALIVE, 0x27), (.W3GS_CHAT_TO_HOST, 0x28), (.W3GS_SEARCHGAME, 0x2F),
    (.W3GS_GAMEINFO, 0x30), (.W3GS_CREATEGAME, 0x31), (.W3GS_REFRESHGAME, 0x32),
    (.W3GS_DECREATEGAME, 0x33), (.W3GS_MAPCHECK, 0x3D), (.W3GS_MAPSIZE, 0x42),
    (.W3GS_PONG_TO_HOST, 0x46), (.W3GS_INCOMING_ACTION2, 0x48)]

/-- The reason codes the spec's send table allows in a `REJECTJOIN` packet
(`reason u32 (9/10/27)`). -/
def specRejectReasons : List Nat := [9, 10, 27]

/-- The data members of `CIncomingAction` (gameprotocol.h, lines 169-184); a
`BYTEARRAY` is the list of its bytes. -/
structure CIncomingAction where
  m_CRC : List Nat
  m_Action : List Nat
  m_PID : Nat
  deriving DecidableEq, Repr

/-- The method `CIncomingAction::GetLength` (gameprotocol.h, line 183): the
`size_t` sum `m_Action.size() + 3` returned as a `uint32_t`. -/
def CIncomingAction.GetLength (self : CIncomingAction) : Nat :=
  (self.m_Action.length + 3) % 2 ^ 32

/-! ## `game.h`: `CTimer` -/

/-- The state of a `CTimer` (game.h, lines 44-68): its `uint32_t` member. -/
structure CTimer where
  m_Ticks : Nat
  deriving DecidableEq, Repr

/-- The method `CTimer::reset` (game.h, lines 61-64). -/
def CTimer.reset (_self : CTimer) (CurTicks : Nat) : CTimer :=
  ⟨CurTicks⟩

/-- The method `CTimer::update` (game.h, lines 51-59): the value returned and
the timer afterwards. In `m_Ticks + Timeout` the `int32_t` operand is converted
to `uint32_t` and the sum is taken modulo `2 ^ 32`; the comparison is
unsigned. -/
def CTimer.update (self : CTimer) (CurTicks : Nat) (Timeout : Int) : Bool × CTimer :=
  if CurTicks < (self.m_Ticks + toUInt32 Timeout) % 2 ^ 32 then
    (false, self)
  else
    (true, self.reset ((self.m_Ticks + toUInt32 Timeout) % 2 ^ 32))

/-- The scenario of repeated calls `update(CurTicks, Timeout)` with the same
arguments until one returns false, at most `fuel` calls: the number of calls
that returned true and the timer after the call that returned false, or `none`
when `fuel` calls all returned true. -/
def CTimer.updateUntilFalse : Nat → CTimer → Nat → Int → Option (Nat × CTimer)
  | 0, _, _, _ => none
  | fuel + 1, self, CurTicks, Timeout =>
    if (self.update CurTicks Timeout).1 then
      (CTimer.updateUntilFalse fuel (self.update CurTicks Timeout).2 CurTicks Timeout).map
        (fun r => (r.1 + 1, r.2))
    else
      some (0, (self.update CurTicks Timeout).2)

/-! ### The `map_slot` entries as the spec words them -/

/-- Whether the entry `map_slot<Slot>` is present, not empty and accepted by
`ExtractNumbers` as 9 numbers. -/
def slotEntryAccepted (u : Indeterminate) (MAP : CConfig) (Slot : Nat) : Bool :=
  match map_find MAP.m_CFG (slotKey Slot) with
  | none => false
  | some v =>
    decide (v ≠ []) &&
      (ExtractNumbers 8 9 v (u.c Slot) ((List.range 9).map (u.SlotData Slot))).1

/-- The 9 numbers `ExtractNumbers` delivers for the entry `map_slot<Slot>`. -/
def slotEntryNumbers (u : Indeterminate) (MAP : CConfig) (Slot : Nat) : List Nat :=
  (ExtractNumbers 8 9 ((map_find MAP.m_CFG (slotKey Slot)).getD []) (u.c Slot)
    ((List.range 9).map (u.SlotData Slot))).2

/-- The slot built from the 9 numbers of the entry `map_slot<Slot>` in the
order pid, download status, status, computer, team, colour, race, computer
type, handicap. -/
def slotOfEntry (u : Indeterminate) (MAP : CConfig) (Slot : Nat) : CGameSlot :=
  { m_PID := (slotEntryNumbers u MAP Slot).getD 0 0,
    m_DownloadStatus := (slotEntryNumbers u MAP Slot).getD 1 0,
    m_SlotStatus := (slotEntryNumbers u MAP Slot).getD 2 0,
    m_Computer := (slotEntryNumbers u MAP Slot).getD 3 0,
    m_Team := (slotEntryNumbers u MAP Slot).getD 4 0,
    m_Colour := (slotEntryNumbers u MAP Slot).getD 5 0,
    m_Race := (slotEntryNumbers u MAP Slot).getD 6 0,
    m_ComputerType := (slotEntryNumbers u MAP Slot).getD 7 0,
    m_Handicap := (slotEntryNumbers u MAP Slot).getD 8 0 }

/-- The length of the longest run `Slot, Slot + 1, ...` of at most `k` numbers
that all satisfy `ok`. -/
def acceptedRun (ok : Nat → Bool) : Nat → Nat → Nat
  | 0, _ => 0
  | k + 1, Slot => if ok Slot then acceptedRun ok k (Slot + 1) + 1 else 0

/-- A map configuration with a 20-byte `map_sha1`, custom forces with fixed
player settings, and one slot, whose team and colour are 12. -/
def observerTeamConfig : CConfig :=
  ⟨[("map_sha1".toList, "1 2 3 4 5 6 7 8 9 10 11 12 13 14 15 16 17 18 19 20".toList),
    ("map_options".toList, "96".toList),
    ("map_slot1".toList, "0 255 0 0 12 12 96 1 100".toList)]⟩

/-! ### Conditions on the header constants -/

/-- The five `MAPFLAG` masks are flags in the usual sense: none is zero and no
two share a bit. -/
def Header.MapFlagsDistinct (h : Header) : Prop :=
  h.MAPFLAG_TEAMSTOGETHER ≠ 0 ∧ h.MAPFLAG_FIXEDTEAMS ≠ 0 ∧ h.MAPFLAG_UNITSHARE ≠ 0 ∧
  h.MAPFLAG_RANDOMHERO ≠ 0 ∧ h.MAPFLAG_RANDOMRACES ≠ 0 ∧
  h.MAPFLAG_TEAMSTOGETHER &&& h.MAPFLAG_FIXEDTEAMS = 0 ∧
  h.MAPFLAG_TEAMSTOGETHER &&& h.MAPFLAG_UNITSHARE = 0 ∧
  h.MAPFLAG_TEAMSTOGETHER &&& h.MAPFLAG_RANDOMHERO = 0 ∧
  h.MAPFLAG_TEAMSTOGETHER &&& h.MAPFLAG_RANDOMRACES = 0 ∧
  h.MAPFLAG_FIXEDTEAMS &&& h.MAPFLAG_UNITSHARE = 0 ∧
  h.MAPFLAG_FIXEDTEAMS &&& h.MAPFLAG_RANDOMHERO = 0 ∧
  h.MAPFLAG_FIXEDTEAMS &&& h.MAPFLAG_RANDOMRACES = 0 ∧
  h.MAPFLAG_UNITSHARE &&& h.MAPFLAG_RANDOMHERO = 0 ∧
  h.MAPFLAG_UNITSHARE &&& h.MAPFLAG_RANDOMRACES = 0 ∧
  h.MAPFLAG_RANDOMHERO &&& h.MAPFLAG_RANDOMRACES = 0

/-! ### Two maps with the same settings and different map flags -/

/-- A map with the teams-together and fixed-teams masks of `ghostHeader`. -/
def flagsMapA : CMap := { someCMap with m_MapFlags := 3 }

/-- The map `flagsMapA` with one more bit, which no mask of `ghostHeader`
tests. -/
def flagsMapB : CMap := { someCMap with m_MapFlags := 35 }

/-! ### Melee maps -/

/-- The two `SLOTRACE` constants are flags in the usual sense: the selectable
bit is not zero and is not part of the random race. -/
def Header.SlotRaceFlags (h : Header) : Prop :=
  h.SLOTRACE_SELECTABLE ≠ 0 ∧ h.SLOTRACE_RANDOM &&& h.SLOTRACE_SELECTABLE = 0

/-- A melee map configuration whose two slots are both written with team 5,
one with race 1 and one with race 2. -/
def meleeSameTeamConfig : CConfig :=
  ⟨[("map_sha1".toList, "1 2 3 4 5 6 7 8 9 10 11 12 13 14 15 16 17 18 19 20".toList),
    ("map_options".toList, "4".toList),
    ("map_slot1".toList, "0 255 0 0 5 1 1 1 100".toList),
    ("map_slot2".toList, "0 255 0 0 5 2 2 1 100".toList)]⟩

/-! ### Stored configuration entries -/

/-- A key as the parser stores it: not empty, and free of spaces, CR and
LF. -/
def StoredKeyOK (k : Str) : Prop :=
  k ≠ [] ∧ ∀ c ∈ k, c ≠ ' ' ∧ c ≠ '\r' ∧ c ≠ '\n'

/-- Every entry of the map has a key and a value of the stored form. -/
def EntriesOK (m : List (Str × Str)) : Prop :=
  ∀ e ∈ m, StoredKeyOK e.1 ∧ ValueOK e.2

/-! ### The first word of a line -/

/-- The first word of a line: with CR and LF left out, the text from the first
character that is not a space up to the next space or the end of the line. -/
def firstWord (l : Str) : Str :=
  (((l.filter (fun c => c ≠ '\r')).filter (fun c => c ≠ '\n')).dropWhile
    (fun c => c = ' ')).takeWhile (fun c => c ≠ ' ')

/-! ## Theorems -/

/-- C1: for every options bitmask `CMap::GetMapLayoutStyle` returns 0 when
CUSTOMFORCES is not set, 1 when CUSTOMFORCES is set and FIXEDPLAYERSETTINGS is
not, 3 when both are set, and therefore never 2. -/
theorem C1_layout_style (h : Header) (self : CMap) :
    (self.m_MapOptions &&& h.MAPOPT_CUSTOMFORCES = 0 →
        self.GetMapLayoutStyle h = 0) ∧
    (self.m_MapOptions &&& h.MAPOPT_CUSTOMFORCES ≠ 0 →
      self.m_MapOptions &&& h.MAPOPT_FIXEDPLAYERSETTINGS = 0 →
        self.GetMapLayoutStyle h = 1) ∧
    (self.m_MapOptions &&& h.MAPOPT_CUSTOMFORCES ≠ 0 →
      self.m_MapOptions &&& h.MAPOPT_FIXEDPLAYERSETTINGS ≠ 0 →
        self.GetMapLayoutStyle h = 3) ∧
    self.GetMapLayoutStyle h ≠ 2 := by
  unfold CMap.GetMapLayoutStyle
  refine ⟨?_, ?_, ?_, ?_⟩
  · intro h0
    simp [h0]
  · intro h0 h1
    simp [h0, h1]
  · intro h0 h1
    simp [h0, h1]
  · split_ifs <;> decide

/-- C2: for every speed, visibility, observer mode and map-flags value,
`CMap::GetMapGameFlags` is the bitwise OR of the speed value, the visibility
bit, the observer bits and the bits of the five boolean settings that are set
in the map flags, with the values the spec lists. -/
theorem C2_game_flags (h : Header) (self : CMap) :
    self.GetMapGameFlags h =
      specGameFlags h self.m_MapSpeed self.m_MapVisibility self.m_MapObservers
        self.m_MapFlags := by
  have flag : ∀ g p b : Nat,
      (if p ≠ 0 then g ||| b else g) = g ||| (if p = 0 then 0 else b) := by
    intro g p b
    by_cases hp : p = 0 <;> simp [hp]
  unfold CMap.GetMapGameFlags specGameFlags specFlagBits
  simp only [flag]
  cases self.m_MapSpeed <;> cases self.m_MapVisibility <;> cases self.m_MapObservers <;>
    simp [specSpeedBits, specVisibilityBits, specObserverBits]

/-! ### Decimal tokens and `ExtractNumbers` -/

theorem digitChar_spec :
    ∀ k, k < 10 → isdigit (Nat.digitChar k) = true ∧ (Nat.digitChar k).toNat - 48 = k := by
  decide

theorem digitsValue_append_singleton (t : Str) (d : Char) :
    digitsValue (t ++ [d]) = digitsValue t * 10 + (d.toNat - 48) := by
  simp [digitsValue, List.foldl_append]

/-- The digits `Nat.toDigitsCore` puts in front of its accumulator: a non-empty
run of decimal digits whose value is the number converted. -/
theorem toDigitsCore_spec (fuel : Nat) : ∀ n, n < fuel →
    ∃ t : Str, t ≠ [] ∧ (∀ c ∈ t, isdigit c = true) ∧ digitsValue t = n ∧
      ∀ ds, Nat.toDigitsCore 10 fuel n ds = t ++ ds := by
  induction fuel with
  | zero => intro n hn; omega
  | succ f ih =>
    intro n hn
    obtain ⟨hd, hv⟩ := digitChar_spec (n % 10) (Nat.mod_lt _ (by decide))
    by_cases h0 : n / 10 = 0
    · refine ⟨[Nat.digitChar (n % 10)], by simp, ?_, ?_, ?_⟩
      · intro c hc
        rw [List.mem_singleton] at hc
        rw [hc]; exact hd
      · have : digitsValue [Nat.digitChar (n % 10)] = (Nat.digitChar (n % 10)).toNat - 48 := by
          simp [digitsValue]
        rw [this, hv]; omega
      · intro ds
        simp [Nat.toDigitsCore, h0]
    · obtain ⟨t, _, htd, htv, hts⟩ := ih (n / 10) (by omega)
      refine ⟨t ++ [Nat.digitChar (n % 10)], by simp, ?_, ?_, ?_⟩
      · intro c hc
        rcases List.mem_append.mp hc with hc | hc
        · exact htd c hc
        · rw [List.mem_singleton] at hc
          rw [hc]; exact hd
      · rw [digitsValue_append_singleton, htv, hv]; omega
      · intro ds
        simp [Nat.toDigitsCore, h0, hts]

/-- The decimal representation `Nat.toDigits 10 n` is a non-empty run of digits
of value `n`. -/
theorem toDigits_spec (n : Nat) :
    Nat.toDigits 10 n ≠ [] ∧ (∀ c ∈ Nat.toDigits 10 n, isdigit c = true) ∧
      digitsValue (Nat.toDigits 10 n) = n := by
  obtain ⟨t, hne, hd, hv, hs⟩ := toDigitsCore_spec (n + 1) n (Nat.lt_succ_self n)
  have : Nat.toDigits 10 n = t := by
    simp [Nat.toDigits, hs]
  rw [this]
  exact ⟨hne, hd, hv⟩

theorem isdigit_not_special (c : Char) (h : isdigit c = true) :
    isspace c = false ∧ c ≠ '-' ∧ c ≠ '+' := by
  have key : ∀ d : Char, d.toNat < 48 → c ≠ d := by
    intro d hd hcd
    subst hcd
    simp [isdigit] at h
    omega
  have h1 := key ' ' (by decide)
  have h2 := key '\t' (by decide)
  have h3 := key '\n' (by decide)
  have h4 := key '\x0b' (by decide)
  have h5 := key '\x0c' (by decide)
  have h6 := key '\r' (by decide)
  exact ⟨by simp [isspace, h1, h2, h3, h4, h5, h6], key '-' (by decide), key '+' (by decide)⟩

theorem takeWhile_token (t more : Str) (ht : ∀ c ∈ t, isdigit c = true)
    (hm : EndsToken more) :
    (t ++ more).takeWhile isdigit = t ∧ (t ++ more).dropWhile isdigit = more := by
  induction t with
  | nil =>
    cases more with
    | nil => simp
    | cons c cs =>
      have := hm c rfl
      simp [List.takeWhile, List.dropWhile, this]
  | cons a t ih =>
    have ha := ht a (List.mem_cons_self a t)
    have := ih (fun c hc => ht c (List.mem_cons_of_mem a hc))
    simp [List.takeWhile, List.dropWhile, ha, this]

/-- The conversion of a decimal token that fits in 32 bits and is followed by
something that is not a digit: the value of the token, no failure, and the text
after the token left unread. -/
theorem num_get_token (t more : Str) (hne : t ≠ []) (ht : ∀ c ∈ t, isdigit c = true)
    (hv : digitsValue t ≤ UINT32_MAX) (hm : EndsToken more) :
    num_get (t ++ more) = ⟨digitsValue t, false, more⟩ := by
  obtain ⟨a, t1, rfl⟩ := List.exists_cons_of_ne_nil hne
  obtain ⟨_, hminus, hplus⟩ := isdigit_not_special a (ht a (List.mem_cons_self a t1))
  obtain ⟨htake, hdrop⟩ := takeWhile_token (a :: t1) more ht hm
  have hnot : ¬ UINT32_MAX < digitsValue (a :: t1) := by omega
  unfold num_get
  simp only [List.cons_append, List.head?_cons, Option.some.injEq, hminus, hplus, or_self,
    if_false, decide_False]
  rw [← List.cons_append, htake, hdrop]
  simp [hnot]

theorem dropWhile_isspace_token (ws t : Str) (hws : ∀ c ∈ ws, isspace c = true)
    (hne : t ≠ []) (ht : ∀ c ∈ t, isdigit c = true) (more : Str) :
    (ws ++ (t ++ more)).dropWhile isspace = t ++ more := by
  induction ws with
  | nil =>
    obtain ⟨a, t1, rfl⟩ := List.exists_cons_of_ne_nil hne
    obtain ⟨hsp, _, _⟩ := isdigit_not_special a (ht a (List.mem_cons_self a t1))
    simp [List.dropWhile, hsp]
  | cons b ws ih =>
    have hb := hws b (List.mem_cons_self b ws)
    have := ih (fun c hc => hws c (List.mem_cons_of_mem b hc))
    simp [List.dropWhile, hb, this]

/-- Extraction from a good stream that holds whitespace and then such a
token. -/
theorem extractUInt32_token (ws t more : Str) (c : Nat)
    (hws : ∀ c ∈ ws, isspace c = true) (hne : t ≠ [])
    (ht : ∀ c ∈ t, isdigit c = true) (hv : digitsValue t ≤ UINT32_MAX)
    (hm : EndsToken more) :
    IStream.extractUInt32 ⟨ws ++ (t ++ more), false, false⟩ c =
      (⟨more, more.isEmpty, false⟩, digitsValue t) := by
  have hne2 : t ++ more ≠ [] := by simp [hne]
  unfold IStream.extractUInt32
  simp only [Bool.or_self, Bool.false_eq_true, if_false]
  rw [dropWhile_isspace_token ws t hws hne ht more, num_get_token t more hne ht hv hm]
  simp [hne2]

theorem spaced_eq_intercalate (xs : List Nat) :
    [' '].intercalate (xs.map (Nat.toDigits 10)) = spaced xs := by
  induction xs with
  | nil => rfl
  | cons x rest ih =>
    cases rest with
    | nil => simp [spaced, List.intercalate]
    | cons y ys =>
      simp only [List.intercalate, List.map_cons, List.intersperse, List.flatten_cons] at ih ⊢
      simp [spaced, ← ih]

theorem ExtractNumbers.loop_succ (w k i : Nat) (SS : IStream) (c : Nat) (result : List Nat) :
    ExtractNumbers.loop w (k + 1) i SS c result =
      if SS.eofbit then (false, result)
      else ExtractNumbers.loop w k (i + 1) (SS.extractUInt32 c).1 (SS.extractUInt32 c).2
        (result.set i ((SS.extractUInt32 c).2 % 2 ^ w)) := by
  simp [ExtractNumbers.loop]

/-- The loop of `ExtractNumbers` over a stream that holds, after optional
whitespace, the spaced decimal representations of `xs`: it runs to the end,
returns true and has stored the numbers, each reduced to `w` bits. -/
theorem loop_spaced (w : Nat) : ∀ xs : List Nat, xs ≠ [] → (∀ x ∈ xs, x ≤ UINT32_MAX) →
    ∀ (ws : Str), (∀ c ∈ ws, isspace c = true) →
    ∀ (c : Nat) (pre slots : List Nat), xs.length ≤ slots.length →
      ExtractNumbers.loop w xs.length pre.length ⟨ws ++ spaced xs, false, false⟩ c
          (pre ++ slots)
        = (true, pre ++ xs.map (fun x => x % 2 ^ w) ++ slots.drop xs.length) := by
  intro xs
  induction xs with
  | nil => intro h; exact absurd rfl h
  | cons x rest ih =>
    intro _ hb ws hws c pre slots hlen
    obtain ⟨tne, td, tv⟩ := toDigits_spec x
    have hx : digitsValue (Nat.toDigits 10 x) ≤ UINT32_MAX := by
      rw [tv]; exact hb x (List.mem_cons_self x rest)
    obtain ⟨s0, slots1, rfl⟩ : ∃ a l, slots = a :: l := by
      cases slots with
      | nil => simp at hlen
      | cons a l => exact ⟨a, l, rfl⟩
    have hset : (pre ++ s0 :: slots1).set pre.length (x % 2 ^ w)
        = (pre ++ [x % 2 ^ w]) ++ slots1 := by
      simp
    cases rest with
    | nil =>
      have hext := extractUInt32_token ws (Nat.toDigits 10 x) [] c hws tne td hx
        (by intro c hc; simp at hc)
      rw [List.append_nil] at hext
      simp [ExtractNumbers.loop, spaced, hext, tv]
    | cons y ys =>
      have hext := extractUInt32_token ws (Nat.toDigits 10 x) (' ' :: spaced (y :: ys)) c hws
        tne td hx (by intro c hc; simp at hc; subst hc; decide)
      have hrec := ih (by simp) (fun z hz => hb z (List.mem_cons_of_mem x hz)) [' ']
        (by intro c hc; simp at hc; subst hc; decide) x (pre ++ [x % 2 ^ w]) slots1
        (by simpa using hlen)
      have hlen1 : (pre ++ [x % 2 ^ w]).length = pre.length + 1 := by simp
      rw [hlen1] at hrec
      have hisE : (' ' :: spaced (y :: ys)).isEmpty = false := rfl
      rw [List.length_cons, ExtractNumbers.loop_succ]
      simp only [spaced, Bool.false_eq_true, if_false, hext, tv, hset, hisE]
      simp only [List.singleton_append] at hrec
      rw [hrec]
      simp

/-- C3: for every list of integers in 0..255, the string of their decimal
representations separated by single spaces makes `ExtractNumbers<uint8_t, n>`
(n the length of the list) return true with the array holding exactly these
integers, whatever the array and the local `c` held before. -/
theorem C3_extract_numbers_bytes (xs : List Nat) (c0 : Nat) (result : List Nat)
    (hbyte : ∀ x ∈ xs, x ≤ 255) (hlen : result.length = xs.length) :
    ExtractNumbers 8 xs.length ([' '].intercalate (xs.map (Nat.toDigits 10))) c0 result
      = (true, xs) := by
  rw [spaced_eq_intercalate]
  cases hxs : xs with
  | nil =>
    subst hxs
    have : result = [] := List.length_eq_zero.mp hlen
    simp [ExtractNumbers, ExtractNumbers.loop, this]
  | cons x rest =>
    rw [← hxs]
    have hne : xs ≠ [] := by simp [hxs]
    have hb : ∀ x ∈ xs, x ≤ UINT32_MAX := fun x hx =>
      Nat.le_trans (hbyte x hx) (by decide)
    have h := loop_spaced 8 xs hne hb [] (by simp) c0 [] result (by omega)
    have hmap : ∀ l : List Nat, (∀ x ∈ l, x ≤ 255) → l.map (fun x => x % 2 ^ 8) = l := by
      intro l
      induction l with
      | nil => intro _; rfl
      | cons a l ihl =>
        intro hl
        have ha := hl a (List.mem_cons_self a l)
        have hmod : a % 2 ^ 8 = a := Nat.mod_eq_of_lt (by omega)
        rw [List.map_cons, hmod, ihl (fun z hz => hl z (List.mem_cons_of_mem a hz))]
    have hdrop : result.drop xs.length = [] := by
      rw [← hlen]; simp
    rw [hmap xs hbyte, hdrop] at h
    simpa [ExtractNumbers] using h

/-- C3 at the spec's seed scenario: the twenty tokens `1 2 ... 20` of a
`map_sha1` value give the byte array 1..20. -/
theorem C3_extract_numbers_bytes_witness :
    ExtractNumbers 8 20 "1 2 3 4 5 6 7 8 9 10 11 12 13 14 15 16 17 18 19 20".toList 0
        (List.replicate 20 0)
      = (true, [1, 2, 3, 4, 5, 6, 7, 8, 9, 10, 11, 12, 13, 14, 15, 16, 17, 18, 19, 20]) :=
  C3_extract_numbers_bytes
    [1, 2, 3, 4, 5, 6, 7, 8, 9, 10, 11, 12, 13, 14, 15, 16, 17, 18, 19, 20] 0
    (List.replicate 20 0) (by decide) (by decide)

/-- Once an extraction has failed without reaching the end of the stream, the
loop of `ExtractNumbers` runs through all remaining indices and returns
true. -/
theorem loop_after_failure (w : Nat) : ∀ (k i : Nat) (buf : Str) (c : Nat) (result : List Nat),
    (ExtractNumbers.loop w k i ⟨buf, false, true⟩ c result).1 = true := by
  intro k
  induction k with
  | zero => intro i buf c result; rfl
  | succ k ih =>
    intro i buf c result
    rw [ExtractNumbers.loop_succ]
    simp only [Bool.false_eq_true, if_false, IStream.extractUInt32, Bool.or_true, if_true]
    exact ih (i + 1) buf c _

/-- C4, evaluated where the code departs from it: `ExtractNumbers` returns
true on the empty string for `n = 1`, on the single token `x`, which is not a
number, for `n = 20` (storing twenty zeros) and indeed for every `n`, and on
nineteen tokens followed by a space for `n = 20` (storing the nineteenth number
twice). Each input has fewer than `n` decimal tokens. -/
theorem C4_short_input_accepted :
    (ExtractNumbers 8 1 [] 7 [0]).1 = true ∧
    ExtractNumbers 8 20 "x".toList 7 (List.replicate 20 9) = (true, List.replicate 20 0) ∧
    ExtractNumbers 8 20 "1 2 3 4 5 6 7 8 9 10 11 12 13 14 15 16 17 18 19 ".toList 7
        (List.replicate 20 0)
      = (true, [1, 2, 3, 4, 5, 6, 7, 8, 9, 10, 11, 12, 13, 14, 15, 16, 17, 18, 19, 19]) ∧
    ∀ (n c0 : Nat) (result : List Nat), (ExtractNumbers 8 (n + 1) "x".toList c0 result).1 = true := by
  refine ⟨by decide, by decide, by decide, ?_⟩
  intro n c0 result
  unfold ExtractNumbers
  rw [ExtractNumbers.loop_succ]
  have hx : IStream.extractUInt32 ⟨"x".toList, false, false⟩ c0
      = (⟨"x".toList, false, true⟩, 0) := rfl
  simp only [Bool.false_eq_true, if_false, hx]
  exact loop_after_failure 8 n 1 _ 0 _

/-! ### Searching in strings -/

theorem firstIndex_append_of_none (p : Char → Bool) (xs ys : Str)
    (h : ∀ c ∈ xs, p c = false) :
    firstIndex p (xs ++ ys) = (firstIndex p ys).map (fun i => xs.length + i) := by
  induction xs with
  | nil => simp
  | cons a xs ih =>
    have ha := h a (List.mem_cons_self a xs)
    have := ih (fun c hc => h c (List.mem_cons_of_mem a hc))
    have e : firstIndex p (a :: (xs ++ ys))
        = (firstIndex p (xs ++ ys)).map (fun i => i + 1) := by
      simp [firstIndex, ha]
    rw [List.cons_append, e, this, Option.map_map]
    cases firstIndex p ys with
    | none => rfl
    | some i =>
      simp only [Option.map_some', Function.comp, List.length_cons, Option.some.injEq]
      omega

theorem firstIndex_eq_none (p : Char → Bool) (xs : Str) (h : ∀ c ∈ xs, p c = false) :
    firstIndex p xs = none := by
  have := firstIndex_append_of_none p xs [] h
  simpa [firstIndex] using this

theorem firstIndex_lt (p : Char → Bool) : ∀ (xs : Str) (i : Nat),
    firstIndex p xs = some i → i < xs.length ∧ (∀ c ∈ xs.take i, p c = false) := by
  intro xs
  induction xs with
  | nil => intro i h; simp [firstIndex] at h
  | cons a xs ih =>
    intro i h
    by_cases ha : p a = true
    · simp [firstIndex, ha] at h
      subst h
      simp
    · simp only [firstIndex, ha, if_false] at h
      cases hq : firstIndex p xs with
      | none => simp [hq] at h
      | some j =>
        simp [hq] at h
        subst h
        obtain ⟨h1, h2⟩ := ih j hq
        refine ⟨by simp; omega, ?_⟩
        intro c hc
        simp only [List.take_succ_cons, List.mem_cons] at hc
        rcases hc with hc | hc
        · subst hc; simpa using ha
        · exact h2 c hc

/-- The search `find` started at the end of `xs` in `xs ++ zs ++ ch :: ws`, where
`zs` is free of `ch`, stops after `zs`. -/
theorem string_find_at (xs zs ws : Str) (ch : Char) (hz : ∀ c ∈ zs, c ≠ ch) :
    string_find (xs ++ (zs ++ ch :: ws)) ch xs.length = xs.length + zs.length := by
  unfold string_find
  rw [List.drop_left, firstIndex_append_of_none _ zs _ (by simpa using hz)]
  simp [firstIndex]

/-- The search `find_first_not_of` started at the end of `xs` in
`xs ++ zs ++ c0 :: ws`, where `zs` consists of `ch` and `c0` differs from `ch`,
stops after `zs`. -/
theorem string_find_first_not_of_at (xs zs ws : Str) (ch c0 : Char)
    (hz : ∀ c ∈ zs, c = ch) (h0 : c0 ≠ ch) :
    string_find_first_not_of (xs ++ (zs ++ c0 :: ws)) ch xs.length
      = xs.length + zs.length := by
  unfold string_find_first_not_of
  rw [List.drop_left, firstIndex_append_of_none _ zs _ (by simpa using hz)]
  simp [firstIndex, h0]

theorem string_find_none (s : Str) (ch : Char) (h : ch ∉ s) :
    string_find s ch 0 = npos := by
  unfold string_find
  rw [List.drop_zero, firstIndex_eq_none]
  intro c hc
  simp only [decide_eq_false_iff_not]
  intro hcc
  exact h (hcc ▸ hc)

theorem size_sub_eq (a b : Nat) (hba : b ≤ a) (ha : a < 2 ^ 64) : size_sub a b = a - b := by
  unfold size_sub
  have hb : b % 2 ^ 64 = b := Nat.mod_eq_of_lt (by omega)
  rw [hb]
  have : a + 2 ^ 64 - b = (a - b) + 2 ^ 64 := by omega
  rw [this, Nat.add_mod_right]
  exact Nat.mod_eq_of_lt (by omega)

theorem string_substr_mid (xs ys zs : Str) :
    string_substr (xs ++ (ys ++ zs)) xs.length ys.length = some ys := by
  unfold string_substr
  simp

/-! ### One line of the configuration file -/

/-- The line made of `a` spaces, the key, `b + 1` spaces, `=`, `c` spaces and
the value. -/
theorem entryLine_assoc (a b c : Nat) (k v : Str) :
    List.replicate a ' ' ++ k ++ List.replicate (b + 1) ' ' ++ '=' :: List.replicate c ' ' ++ v
      = List.replicate a ' ' ++ (k ++ (List.replicate (b + 1) ' '
          ++ '=' :: (List.replicate c ' ' ++ v))) := by
  simp

/-- The loop body on a line `key = value` with any number of spaces before the
key, at least one between the key and `=`, and any number after `=`: the value
is stored under the key, everything after the value's first character
included. -/
theorem processLine_entry (a b c : Nat) (k v : Str) (m : List (Str × Str))
    (hk : KeyOK k) (hv : ValueOK v)
    (hlen : a + k.length + b + c + v.length + 2 < 2 ^ 64) :
    CConfig.processLine
        (List.replicate a ' ' ++ (k ++ (List.replicate (b + 1) ' '
          ++ '=' :: (List.replicate c ' ' ++ v)))) m
      = .ok (List.replicate a ' ' ++ (k ++ (List.replicate (b + 1) ' '
          ++ '=' :: (List.replicate c ' ' ++ v))), map_assign m k v) := by
  obtain ⟨hkne, hkc, hkh⟩ := hk
  obtain ⟨hvne, hvc, hvh⟩ := hv
  obtain ⟨k0, k1, rfl⟩ := List.exists_cons_of_ne_nil hkne
  obtain ⟨v0, v1, rfl⟩ := List.exists_cons_of_ne_nil hvne
  have hk0 := hkc k0 (List.mem_cons_self k0 k1)
  have hk0h : k0 ≠ '#' := by simpa using hkh
  have hv0 : v0 ≠ ' ' := by simpa using hvh
  obtain ⟨Line, hLine⟩ : ∃ L : Str, L = List.replicate a ' ' ++ ((k0 :: k1) ++
      (List.replicate (b + 1) ' ' ++ '=' :: (List.replicate c ' ' ++ (v0 :: v1)))) :=
    ⟨_, rfl⟩
  rw [← hLine]
  have hA : ∀ n : Nat, ∀ x ∈ List.replicate n ' ', x = ' ' := fun n x hx =>
    (List.mem_replicate.mp hx).2
  -- the characters of the line
  have happ : ∀ (P : Char → Prop) (xs ys : Str), (∀ x ∈ xs, P x) → (∀ x ∈ ys, P x) →
      ∀ x ∈ xs ++ ys, P x :=
    fun P xs ys h1 h2 x hx => (List.mem_append.mp hx).elim (h1 x) (h2 x)
  have hcons : ∀ (P : Char → Prop) (y : Char) (ys : Str), P y → (∀ x ∈ ys, P x) →
      ∀ x ∈ y :: ys, P x :=
    fun P y ys h1 h2 x hx => (List.mem_cons.mp hx).elim (fun e => e ▸ h1) (h2 x)
  have hchars : ∀ x ∈ Line, x ≠ '\r' ∧ x ≠ '\n' := by
    rw [hLine]
    refine happ _ _ _ (fun x hx => by rw [hA a x hx]; decide) ?_
    refine happ _ _ _ (fun x hx => ⟨(hkc x hx).2.2.1, (hkc x hx).2.2.2⟩) ?_
    refine happ _ _ _ (fun x hx => by rw [hA (b + 1) x hx]; decide) ?_
    refine hcons _ _ _ (by decide) ?_
    exact happ _ _ _ (fun x hx => by rw [hA c x hx]; decide) hvc
  have hf1 : Line.filter (fun c => c ≠ '\r') = Line :=
    List.filter_eq_self.mpr (fun x hx => by simpa using (hchars x hx).1)
  have hf2 : Line.filter (fun c => c ≠ '\n') = Line :=
    List.filter_eq_self.mpr (fun x hx => by simpa using (hchars x hx).2)
  -- the first test of the body
  have hhead : ¬ (Line = [] ∨ Line.head? = some '#' ∨ Line = ['\n']) := by
    cases a with
    | zero =>
      rw [hLine]
      simp [hk0h, hk0.2.2.2]
    | succ n =>
      rw [hLine]
      simp [List.replicate_succ]
  -- the positions
  have hSplit : string_find Line '=' 0 = a + (k1.length + 1) + (b + 1) := by
    have h := string_find_at [] (List.replicate a ' ' ++ (k0 :: k1) ++ List.replicate (b + 1) ' ')
      (List.replicate c ' ' ++ (v0 :: v1)) '=' (by
        refine happ _ _ _ (happ _ _ _ (fun x hx => by rw [hA a x hx]; decide)
          (fun x hx => (hkc x hx).2.1)) (fun x hx => by rw [hA (b + 1) x hx]; decide))
    have e : ([] : Str) ++ (List.replicate a ' ' ++ (k0 :: k1) ++ List.replicate (b + 1) ' '
        ++ '=' :: (List.replicate c ' ' ++ (v0 :: v1))) = Line := by
      rw [hLine]; simp
    rw [e] at h
    simp only [List.length_nil, List.length_append, List.length_replicate,
      List.length_cons] at h
    rw [h]; omega
  have hKeyStart : string_find_first_not_of Line ' ' 0 = a := by
    have h := string_find_first_not_of_at [] (List.replicate a ' ')
      (k1 ++ (List.replicate (b + 1) ' ' ++ '=' :: (List.replicate c ' ' ++ (v0 :: v1))))
      ' ' k0 (hA a) hk0.1
    have e : ([] : Str) ++ (List.replicate a ' ' ++ k0 :: (k1 ++ (List.replicate (b + 1) ' '
        ++ '=' :: (List.replicate c ' ' ++ (v0 :: v1))))) = Line := by
      rw [hLine]; simp
    rw [e] at h
    simp only [List.length_nil, List.length_append, List.length_replicate,
      List.length_cons] at h
    rw [h]; omega
  have hKeyEnd : string_find Line ' ' a = a + (k1.length + 1) := by
    have h := string_find_at (List.replicate a ' ') (k0 :: k1)
      (List.replicate b ' ' ++ '=' :: (List.replicate c ' ' ++ (v0 :: v1))) ' ' (by
        intro x hx
        exact (hkc x hx).1)
    have e : List.replicate a ' ' ++ ((k0 :: k1) ++ ' ' :: (List.replicate b ' '
        ++ '=' :: (List.replicate c ' ' ++ (v0 :: v1)))) = Line := by
      rw [hLine]; simp [List.replicate_succ]
    rw [e] at h
    simp only [List.length_nil, List.length_append, List.length_replicate,
      List.length_cons] at h
    rw [h]
  have hValueStart : string_find_first_not_of Line ' ' (a + (k1.length + 1) + (b + 1) + 1)
      = a + (k1.length + 1) + (b + 1) + 1 + c := by
    have h := string_find_first_not_of_at
      (List.replicate a ' ' ++ (k0 :: k1) ++ List.replicate (b + 1) ' ' ++ ['='])
      (List.replicate c ' ') v1 ' ' v0 (hA c) hv0
    have e : List.replicate a ' ' ++ (k0 :: k1) ++ List.replicate (b + 1) ' ' ++ ['=']
        ++ (List.replicate c ' ' ++ v0 :: v1) = Line := by
      rw [hLine]; simp
    rw [e] at h
    simp only [List.length_nil, List.length_append, List.length_replicate,
      List.length_cons] at h
    have e2 : a + (k1.length + 1) + (b + 1) + 1 = a + (k1.length + 1) + (b + 1) + (0 + 1) := by
      omega
    rw [e2, h]
  have hLineLen : Line.length = a + (k1.length + 1) + (b + 1) + 1 + c + (v1.length + 1) := by
    rw [hLine]; simp; omega
  have hKey : string_substr Line a (k1.length + 1) = some (k0 :: k1) := by
    have h := string_substr_mid (List.replicate a ' ') (k0 :: k1)
      (List.replicate (b + 1) ' ' ++ '=' :: (List.replicate c ' ' ++ (v0 :: v1)))
    rw [← hLine] at h
    simp only [List.length_replicate, List.length_cons] at h
    exact h
  have hValue : string_substr Line (a + (k1.length + 1) + (b + 1) + 1 + c) (v1.length + 1)
      = some (v0 :: v1) := by
    have h := string_substr_mid
      (List.replicate a ' ' ++ (k0 :: k1) ++ List.replicate (b + 1) ' ' ++ ['=']
        ++ List.replicate c ' ') (v0 :: v1) []
    have e : List.replicate a ' ' ++ (k0 :: k1) ++ List.replicate (b + 1) ' ' ++ ['=']
        ++ List.replicate c ' ' ++ ((v0 :: v1) ++ []) = Line := by
      rw [hLine]; simp
    rw [e] at h
    simp only [List.length_nil, List.length_append, List.length_replicate,
      List.length_cons] at h
    have e2 : a + (k1.length + 1) + (b + 1) + 1 + c
        = a + (k1.length + 1) + (b + 1) + (0 + 1) + c := by
      omega
    rw [e2]
    exact h
  simp only [List.length_cons] at hlen
  have hs1 : size_sub (a + (k1.length + 1)) a = k1.length + 1 := by
    rw [size_sub_eq _ _ (by omega) (by omega)]; omega
  have hs2 : size_sub (a + (k1.length + 1) + (b + 1) + 1 + c + (v1.length + 1))
      (a + (k1.length + 1) + (b + 1) + 1 + c) = v1.length + 1 := by
    rw [size_sub_eq _ _ (by omega) (by omega)]; omega
  have hnp1 : a + (k1.length + 1) + (b + 1) ≠ npos := by
    unfold npos; omega
  have hnp2 : a + (k1.length + 1) + (b + 1) + 1 + c ≠ npos := by
    unfold npos; omega
  unfold CConfig.processLine
  simp only [hhead, if_false, hf1, hf2, hSplit, hnp1, hKeyStart, hKeyEnd, hValueStart, hnp2,
    ne_eq, not_false_eq_true, if_true, hLineLen, hs1, hs2, hKey, hValue]

theorem firstIndex_isSome_of_mem (p : Char → Bool) : ∀ (xs : Str) (c : Char),
    c ∈ xs → p c = true → ∃ i, firstIndex p xs = some i := by
  intro xs
  induction xs with
  | nil => intro c hc; simp at hc
  | cons a xs ih =>
    intro c hc hp
    by_cases ha : p a = true
    · exact ⟨0, by simp [firstIndex, ha]⟩
    · rcases List.mem_cons.mp hc with hc | hc
      · exact absurd (hc ▸ hp) ha
      · obtain ⟨i, hi⟩ := ih c hc hp
        exact ⟨i + 1, by simp [firstIndex, ha, hi]⟩

theorem firstIndex_some_mem (p : Char → Bool) : ∀ (xs : Str) (i : Nat),
    firstIndex p xs = some i → ∃ c ∈ xs, p c = true := by
  intro xs
  induction xs with
  | nil => intro i h; simp [firstIndex] at h
  | cons a xs ih =>
    intro i h
    by_cases ha : p a = true
    · exact ⟨a, List.mem_cons_self a xs, ha⟩
    · simp only [firstIndex, ha, if_false] at h
      cases hq : firstIndex p xs with
      | none => simp [hq] at h
      | some j =>
        obtain ⟨c, hc, hpc⟩ := ih j hq
        exact ⟨c, List.mem_cons_of_mem a hc, hpc⟩

/-- The loop body never lets `std::out_of_range` escape: when a line holds
`=`, the key start is a position of the line, and a value start other than
`npos` is one too. -/
theorem processLine_ok (Line : Str) (m : List (Str × Str)) :
    ∃ Line1 m1, CConfig.processLine Line m = .ok (Line1, m1) := by
  unfold CConfig.processLine
  by_cases h1 : Line = [] ∨ Line.head? = some '#' ∨ Line = ['\n']
  · exact ⟨_, _, by rw [if_pos h1]⟩
  · rw [if_neg h1]
    obtain ⟨s, hs⟩ : ∃ s : Str, s = (Line.filter (fun c => c ≠ '\r')).filter
        (fun c => c ≠ '\n') := ⟨_, rfl⟩
    simp only [← hs]
    by_cases h2 : string_find s '=' 0 = npos
    · exact ⟨_, _, by rw [if_pos h2]⟩
    · rw [if_neg h2]
      by_cases h3 : string_find_first_not_of s ' ' (string_find s '=' 0 + 1) ≠ npos
      · rw [if_pos h3]
        -- the key start is a position of the line
        have hsplit : ∃ i, firstIndex (fun c => decide (c = '=')) s = some i := by
          cases hq : firstIndex (fun c => decide (c = '=')) s with
          | none => simp [string_find, hq] at h2
          | some i => exact ⟨i, rfl⟩
        obtain ⟨i, hi⟩ := hsplit
        obtain ⟨ce, hce, hpe⟩ := firstIndex_some_mem _ s i hi
        have hce2 : ce = '=' := by simpa using hpe
        obtain ⟨j, hj⟩ := firstIndex_isSome_of_mem (fun c => decide (c ≠ ' ')) s ce hce
          (by rw [hce2]; decide)
        have hjlt := (firstIndex_lt _ s j hj).1
        have hks : string_find_first_not_of s ' ' 0 = j := by
          unfold string_find_first_not_of
          rw [List.drop_zero, hj]
          exact Nat.zero_add j
        -- the value start is a position of the line
        have hvs : string_find_first_not_of s ' ' (string_find s '=' 0 + 1) ≤ s.length := by
          unfold string_find_first_not_of at h3 ⊢
          cases hq : firstIndex (fun c => decide (c ≠ ' ')) (s.drop (string_find s '=' 0 + 1)) with
          | none =>
            rw [hq] at h3
            exact absurd rfl h3
          | some i2 =>
            have := (firstIndex_lt _ _ i2 hq).1
            simp only [List.length_drop] at this
            show string_find s '=' 0 + 1 + i2 ≤ s.length
            omega
        have e1 : ∀ n, string_substr s (string_find_first_not_of s ' ' 0) n
            = some ((s.drop j).take n) := by
          intro n
          rw [hks]
          unfold string_substr
          rw [if_neg (by omega)]
        have e2 : ∀ n,
            string_substr s (string_find_first_not_of s ' ' (string_find s '=' 0 + 1)) n
            = some ((s.drop (string_find_first_not_of s ' '
                (string_find s '=' 0 + 1))).take n) := by
          intro n
          unfold string_substr
          rw [if_neg (by omega)]
        rw [e1, e2]
        exact ⟨_, _, rfl⟩
      · exact ⟨_, _, by rw [if_neg h3]⟩

/-- A skipped line leaves the map as it is. -/
theorem processLine_skipped (l : Str) (m : List (Str × Str)) (hl : SkippedLine l) :
    ∃ Line1, CConfig.processLine l m = .ok (Line1, m) := by
  unfold CConfig.processLine
  by_cases h1 : l = [] ∨ l.head? = some '#' ∨ l = ['\n']
  · exact ⟨_, by rw [if_pos h1]⟩
  · rw [if_neg h1]
    have hno : '=' ∉ l := by
      rcases hl with h | h | h | h
      · exact absurd (Or.inl h) h1
      · rw [h]; decide
      · exact absurd (Or.inr (Or.inl h)) h1
      · exact h
    have hno2 : '=' ∉ (l.filter (fun c => c ≠ '\r')).filter (fun c => c ≠ '\n') := by
      intro hmem
      exact hno (List.mem_of_mem_filter (List.mem_of_mem_filter hmem))
    have := string_find_none _ '=' hno2
    simp only [this, if_true]
    exact ⟨_, rfl⟩

/-! ### The reading loop and the lines of the file -/

theorem span_until (p : Char → Bool) (l rest : Str) (x : Char) (hl : ∀ c ∈ l, p c = true)
    (hx : p x = false) :
    (l ++ x :: rest).takeWhile p = l ∧ (l ++ x :: rest).dropWhile p = x :: rest := by
  induction l with
  | nil => simp [List.takeWhile, List.dropWhile, hx]
  | cons a l ih =>
    have ha := hl a (List.mem_cons_self a l)
    have := ih (fun c hc => hl c (List.mem_cons_of_mem a hc))
    simp [List.takeWhile, List.dropWhile, ha, this]

theorem span_all (p : Char → Bool) (l : Str) (hl : ∀ c ∈ l, p c = true) :
    l.takeWhile p = l ∧ l.dropWhile p = [] := by
  induction l with
  | nil => simp
  | cons a l ih =>
    have ha := hl a (List.mem_cons_self a l)
    have := ih (fun c hc => hl c (List.mem_cons_of_mem a hc))
    simp [List.takeWhile, List.dropWhile, ha, this]

theorem not_newline_of_not_mem (l : Str) (hl : '\n' ∉ l) :
    ∀ c ∈ l, (fun c : Char => decide (c ≠ '\n')) c = true := by
  intro c hc
  have : c ≠ '\n' := fun e => hl (e ▸ hc)
  simpa using this

/-- Reading a line that a `\n` ends, from a good stream. -/
theorem getline_line (l rest Line : Str) (hl : '\n' ∉ l) :
    getline ⟨l ++ '\n' :: rest, false, false⟩ Line = (⟨rest, false, false⟩, l) := by
  obtain ⟨h1, h2⟩ := span_until (fun c : Char => decide (c ≠ '\n')) l rest '\n'
    (not_newline_of_not_mem l hl) (by decide)
  unfold getline
  simp only [Bool.or_self, Bool.false_eq_true, if_false]
  rw [h2, h1]

/-- Reading the last line, which the end of the file ends, from a good
stream. -/
theorem getline_last_line (l Line : Str) (hl : '\n' ∉ l) :
    getline ⟨l, false, false⟩ Line = (⟨[], true, l.isEmpty⟩, l) := by
  obtain ⟨h1, h2⟩ := span_all (fun c : Char => decide (c ≠ '\n')) l
    (not_newline_of_not_mem l hl)
  unfold getline
  simp only [Bool.or_self, Bool.false_eq_true, if_false]
  rw [h2, h1]

theorem joinLines_cons_cons (l l1 : Str) (ls : List Str) :
    joinLines (l :: l1 :: ls) = l ++ '\n' :: joinLines (l1 :: ls) := by
  simp [joinLines, List.intercalate, List.intersperse]

theorem joinLines_singleton (l : Str) : joinLines [l] = l := by
  simp [joinLines, List.intercalate]

/-- The reading loop, started on a good stream that holds the lines `ls`, runs
the loop body over these lines in order and ends; the iteration bound is not
reached when it exceeds the number of characters by two. -/
theorem loadLoop_lines : ∀ ls : List Str, ls ≠ [] → (∀ l ∈ ls, '\n' ∉ l) →
    ∀ (fuel : Nat) (Line : Str) (m : List (Str × Str)),
      (joinLines ls).length + 2 ≤ fuel →
      CConfig.loadLoop fuel ⟨joinLines ls, false, false⟩ Line m = runLines ls m := by
  intro ls
  induction ls with
  | nil => intro h; exact absurd rfl h
  | cons l rest ih =>
    intro _ hls fuel Line m hfuel
    have hl := hls l (List.mem_cons_self l rest)
    obtain ⟨f, rfl⟩ : ∃ f, fuel = f + 1 := ⟨fuel - 1, by omega⟩
    cases rest with
    | nil =>
      rw [joinLines_singleton] at hfuel ⊢
      obtain ⟨f1, rfl⟩ : ∃ f1, f = f1 + 1 := ⟨f - 1, by omega⟩
      simp only [CConfig.loadLoop, Bool.false_eq_true, if_false, getline_last_line l Line hl,
        runLines]
      cases CConfig.processLine l m with
      | error e => rfl
      | ok r => simp [CConfig.loadLoop]
    | cons l1 ls =>
      rw [joinLines_cons_cons] at hfuel ⊢
      have hrec := ih (by simp) (fun x hx => hls x (List.mem_cons_of_mem l hx))
      simp only [List.length_append, List.length_cons] at hfuel
      rw [CConfig.loadLoop]
      simp only [Bool.false_eq_true, if_false, getline_line l _ Line hl]
      rw [runLines]
      cases CConfig.processLine l m with
      | error e => rfl
      | ok r =>
        obtain ⟨Line1, m1⟩ := r
        exact hrec f Line1 m1 (by omega)

/-- The constructor on a file given by its lines. -/
theorem new_joinLines (ls : List Str) (hls : ∀ l ∈ ls, '\n' ∉ l) :
    CConfig.new (some (joinLines ls)) =
      match runLines ls [] with
      | .error e => .error e
      | .ok m => .ok ⟨m⟩ := by
  cases ls with
  | nil =>
    simp [CConfig.new, joinLines, List.intercalate, CConfig.loadLoop, getline, runLines,
      CConfig.processLine]
  | cons l rest =>
    unfold CConfig.new
    simp only
    rw [loadLoop_lines (l :: rest) (by simp) hls _ [] [] (Nat.le_refl _)]

theorem runLines_append (pre post : List Str) (m : List (Str × Str)) :
    runLines (pre ++ post) m =
      match runLines pre m with
      | .error e => .error e
      | .ok m1 => runLines post m1 := by
  induction pre generalizing m with
  | nil => simp [runLines]
  | cons l pre ih =>
    simp only [List.cons_append, runLines]
    cases CConfig.processLine l m with
    | error e => rfl
    | ok r => exact ih r.2

/-- No sequence of lines makes the loop body throw. -/
theorem runLines_ok (ls : List Str) : ∀ m, ∃ m1, runLines ls m = .ok m1 := by
  induction ls with
  | nil => intro m; exact ⟨m, rfl⟩
  | cons l ls ih =>
    intro m
    obtain ⟨Line1, m1, h⟩ := processLine_ok l m
    obtain ⟨m2, h2⟩ := ih m1
    exact ⟨m2, by simp [runLines, h, h2]⟩

theorem runLines_skipped (ls : List Str) (hls : ∀ l ∈ ls, SkippedLine l) :
    ∀ m, runLines ls m = .ok m := by
  induction ls with
  | nil => intro m; rfl
  | cons l ls ih =>
    intro m
    obtain ⟨Line1, h⟩ := processLine_skipped l m (hls l (List.mem_cons_self l ls))
    simp [runLines, h, ih (fun x hx => hls x (List.mem_cons_of_mem l hx)) m]

/-! ### Lookups -/

theorem map_find_assign (m : List (Str × Str)) (k v : Str) :
    map_find (map_assign m k v) k = some v := by
  induction m with
  | nil => simp [map_assign, map_find]
  | cons e m ih =>
    obtain ⟨k1, v1⟩ := e
    by_cases h : k1 = k
    · simp [map_assign, map_find, h]
    · simp [map_assign, map_find, h, ih]

theorem map_index_of_find (m : List (Str × Str)) (k v : Str) (h : map_find m k = some v) :
    map_index m k = (v, m) := by
  induction m with
  | nil => simp [map_find] at h
  | cons e m ih =>
    obtain ⟨k1, v1⟩ := e
    by_cases hk : k1 = k
    · simp [map_find, hk] at h
      simp [map_index, hk, h]
    · simp [map_find, hk] at h
      simp [map_index, hk, ih h]

theorem GetString_of_find (self : CConfig) (k v d : Str) (h : map_find self.m_CFG k = some v) :
    self.GetString k d = (v, self) := by
  simp [CConfig.GetString, h, map_index_of_find self.m_CFG k v h]

/-! ### The configuration file: claims -/

/-- C6, refuted as stated: in the spec's seed scenario the value of `game_name`
keeps its trailing space, and the line `latency=80`, which has no space before
`=`, is stored under the key `latency=80`, so `GetString("game_name", d)` is not
`Test` and `GetInt("latency", 100)` is the default 100, not 80. -/
theorem C6_seed_scenario_counterexample :
    CConfig.new (some "game_name = Test \n# comment\nlatency=80\n".toList)
      = .ok ⟨[("game_name".toList, "Test ".toList), ("latency=80".toList, "80".toList)]⟩ ∧
    ((⟨[("game_name".toList, "Test ".toList), ("latency=80".toList, "80".toList)]⟩ : CConfig)
        |>.GetString "game_name".toList []).1 ≠ "Test".toList ∧
    ((⟨[("game_name".toList, "Test ".toList), ("latency=80".toList, "80".toList)]⟩ : CConfig)
        |>.GetInt "latency".toList 100).1 ≠ 80 := by
  decide

/-- C6, amended: spaces before the key, one or more spaces between the key and
`=`, and spaces between `=` and the value are ignored, while the value runs to
the end of the line, trailing spaces included. For every well-formed key `k`
and every value `v` (which may end in spaces), the one-line file made of `a`
spaces, `k`, `b + 1` spaces, `=`, `c` spaces and `v` loads into the single
entry `k -> v`, and `GetString(k, d)` returns `v`. In the seed scenario
`GetString("game_name", d)` returns `Test` followed by a space, for every
default `d`. -/
theorem C6_spaces_around_equals (a b c : Nat) (k v d : Str)
    (hk : KeyOK k) (hv : ValueOK v)
    (hlen : a + k.length + b + c + v.length + 2 < 2 ^ 64) :
    CConfig.new (some (List.replicate a ' ' ++ (k ++ (List.replicate (b + 1) ' '
        ++ '=' :: (List.replicate c ' ' ++ v))))) = .ok ⟨[(k, v)]⟩ ∧
    (⟨[(k, v)]⟩ : CConfig).GetString k d = (v, ⟨[(k, v)]⟩) ∧
    ∃ cfg : CConfig,
      CConfig.new (some "game_name = Test \n# comment\nlatency=80\n".toList) = .ok cfg ∧
      cfg.GetString "game_name".toList d = ("Test ".toList, cfg) := by
  have hA : ∀ n : Nat, '\n' ∉ List.replicate n ' ' := by
    intro n hmem
    exact absurd (List.mem_replicate.mp hmem).2 (by decide)
  have hline : ∀ l ∈ [List.replicate a ' ' ++ (k ++ (List.replicate (b + 1) ' '
      ++ '=' :: (List.replicate c ' ' ++ v)))], '\n' ∉ l := by
    intro l hl
    rw [List.mem_singleton] at hl
    rw [hl]
    intro hmem
    simp only [List.mem_append, List.mem_cons] at hmem
    rcases hmem with h | h | h | h | h | h
    · exact hA a h
    · exact (hk.2.1 _ h).2.2.2 rfl
    · exact hA (b + 1) h
    · exact absurd h (by decide)
    · exact hA c h
    · exact (hv.2.1 _ h).2 rfl
  have hentry := processLine_entry a b c k v [] hk hv hlen
  refine ⟨?_, ?_, ?_⟩
  · have := new_joinLines _ hline
    rw [joinLines_singleton] at this
    rw [this]
    simp only [runLines, hentry, map_assign]
  · exact GetString_of_find _ k v d (by simp [map_find])
  · refine ⟨⟨[("game_name".toList, "Test ".toList), ("latency=80".toList, "80".toList)]⟩,
      by decide, ?_⟩
    exact GetString_of_find _ _ _ d (by decide)

/-- C6 amended, at a line with two spaces before the key, none after `=` and a
value that ends in a space. -/
theorem C6_spaces_around_equals_witness :
    CConfig.new (some "  latency  =80 ".toList) = .ok ⟨[("latency".toList, "80 ".toList)]⟩ ∧
    (⟨[("latency".toList, "80 ".toList)]⟩ : CConfig).GetString "latency".toList []
      = ("80 ".toList, ⟨[("latency".toList, "80 ".toList)]⟩) ∧
    ∃ cfg : CConfig,
      CConfig.new (some "game_name = Test \n# comment\nlatency=80\n".toList) = .ok cfg ∧
      cfg.GetString "game_name".toList [] = ("Test ".toList, cfg) :=
  C6_spaces_around_equals 2 1 0 "latency".toList "80 ".toList []
    (by unfold KeyOK; decide) (by unfold ValueOK; decide) (by decide)

/-- C7: a skipped line (empty, a lone carriage return, starting with `#`, or
without `=`) contributes nothing: the file with such a line inserted at any
position, first, last or between two lines, loads into the same result as the
file without it. -/
theorem C7_skipped_lines (pre post : List Str) (l : Str)
    (hpre : ∀ x ∈ pre, '\n' ∉ x) (hpost : ∀ x ∈ post, '\n' ∉ x)
    (hl : '\n' ∉ l) (hskip : SkippedLine l) :
    CConfig.new (some (joinLines (pre ++ l :: post)))
      = CConfig.new (some (joinLines (pre ++ post))) := by
  have h1 : ∀ x ∈ pre ++ l :: post, '\n' ∉ x := by
    intro x hx
    rcases List.mem_append.mp hx with h | h
    · exact hpre x h
    · rcases List.mem_cons.mp h with h | h
      · rw [h]; exact hl
      · exact hpost x h
  have h2 : ∀ x ∈ pre ++ post, '\n' ∉ x := by
    intro x hx
    rcases List.mem_append.mp hx with h | h
    · exact hpre x h
    · exact hpost x h
  rw [new_joinLines _ h1, new_joinLines _ h2, runLines_append, runLines_append]
  cases runLines pre [] with
  | error e => rfl
  | ok m1 =>
    obtain ⟨Line1, h⟩ := processLine_skipped l m1 hskip
    simp only [runLines, h]

/-- C7 on a file of two assignments with a comment line put between them. -/
theorem C7_skipped_lines_witness :
    CConfig.new (some "a = 1\n# b = 3\nb = 2".toList)
      = CConfig.new (some "a = 1\nb = 2".toList) :=
  C7_skipped_lines ["a = 1".toList] ["b = 2".toList] "# b = 3".toList
    (by decide) (by decide) (by decide) (by unfold SkippedLine; decide)

/-! ### `atoi` and the lookups -/

theorem dropWhile_isspace_stop (ws rest : Str) (hws : ∀ c ∈ ws, isspace c = true)
    (hrest : ∀ c, rest.head? = some c → isspace c = false) :
    (ws ++ rest).dropWhile isspace = rest := by
  induction ws with
  | nil =>
    cases rest with
    | nil => rfl
    | cons a r =>
      have := hrest a rfl
      simp [List.dropWhile, this]
  | cons b ws ih =>
    have hb := hws b (List.mem_cons_self b ws)
    have := ih (fun c hc => hws c (List.mem_cons_of_mem b hc))
    simp [List.dropWhile, hb, this]

theorem toInt32_of_range (z : Int) (h1 : -(2 ^ 31) ≤ z) (h2 : z < 2 ^ 31) : toInt32 z = z := by
  unfold toInt32
  omega

/-- The value of `atoi` once the text after the leading whitespace is known to
be `s1`: the sign taken from the first character of `s1` and the digit run
after it. -/
theorem atoi_after_space (s s1 : Str) (hs : s.dropWhile isspace = s1) :
    atoi s = toInt32
      (if s1.head? = some '-' then
        max (-((digitsValue ((if s1.head? = some '-' ∨ s1.head? = some '+' then s1.tail
          else s1).takeWhile isdigit) : Nat) : Int)) (-(2 ^ 63))
      else
        min ((digitsValue ((if s1.head? = some '-' ∨ s1.head? = some '+' then s1.tail
          else s1).takeWhile isdigit) : Nat) : Int) (2 ^ 63 - 1)) := by
  unfold atoi
  simp only [hs, decide_eq_true_eq]

theorem clamp_small (v : Nat) (hv : v < 2 ^ 31) :
    toInt32 (min (v : Int) (2 ^ 63 - 1)) = v ∧ toInt32 (max (-(v : Int)) (-(2 ^ 63))) = -(v : Int) := by
  have hv2 : (v : Int) < 2 ^ 31 := by exact_mod_cast hv
  have hv0 : (0 : Int) ≤ (v : Int) := Int.ofNat_nonneg _
  have e1 : min (v : Int) (2 ^ 63 - 1) = v := min_eq_left (by omega)
  have e2 : max (-(v : Int)) (-(2 ^ 63)) = -(v : Int) := max_eq_left (by omega)
  rw [e1, e2]
  exact ⟨toInt32_of_range _ (by omega) (by omega), toInt32_of_range _ (by omega) (by omega)⟩

/-- The value `atoi` gives a text that holds, after whitespace, an optional
sign and a digit run whose value fits an `int`. -/
theorem atoi_digits (ws ds more : Str) (hws : ∀ c ∈ ws, isspace c = true) (hne : ds ≠ [])
    (hds : ∀ c ∈ ds, isdigit c = true) (hm : EndsToken more)
    (hv : digitsValue ds < 2 ^ 31) :
    atoi (ws ++ (ds ++ more)) = (digitsValue ds : Int) ∧
    atoi (ws ++ '+' :: (ds ++ more)) = (digitsValue ds : Int) ∧
    atoi (ws ++ '-' :: (ds ++ more)) = -(digitsValue ds : Int) := by
  obtain ⟨htake, _⟩ := takeWhile_token ds more hds hm
  obtain ⟨c1, c2⟩ := clamp_small (digitsValue ds) hv
  obtain ⟨a, t1, rfl⟩ := List.exists_cons_of_ne_nil hne
  obtain ⟨hsp, hminus, hplus⟩ := isdigit_not_special a (hds a (List.mem_cons_self a t1))
  refine ⟨?_, ?_, ?_⟩
  · have hd := dropWhile_isspace_stop ws ((a :: t1) ++ more) hws
      (by intro c hc; simp at hc; rw [← hc]; exact hsp)
    have h1 : ((a :: t1) ++ more).head? ≠ some '-' := by simpa using hminus
    have h2 : ¬ (((a :: t1) ++ more).head? = some '-' ∨ ((a :: t1) ++ more).head? = some '+') := by
      simpa using ⟨hminus, hplus⟩
    rw [atoi_after_space _ _ hd, if_neg h1, if_neg h2, htake]
    exact c1
  · have hd := dropWhile_isspace_stop ws ('+' :: ((a :: t1) ++ more)) hws
      (by intro c hc; simp at hc; rw [← hc]; decide)
    have h1 : ('+' :: ((a :: t1) ++ more)).head? ≠ some '-' := by simp
    have h2 : ('+' :: ((a :: t1) ++ more)).head? = some '-' ∨
        ('+' :: ((a :: t1) ++ more)).head? = some '+' := Or.inr rfl
    rw [atoi_after_space _ _ hd, if_neg h1, if_pos h2, List.tail_cons, htake]
    exact c1
  · have hd := dropWhile_isspace_stop ws ('-' :: ((a :: t1) ++ more)) hws
      (by intro c hc; simp at hc; rw [← hc]; decide)
    have h1 : ('-' :: ((a :: t1) ++ more)).head? = some '-' := rfl
    have h2 : ('-' :: ((a :: t1) ++ more)).head? = some '-' ∨
        ('-' :: ((a :: t1) ++ more)).head? = some '+' := Or.inl rfl
    rw [atoi_after_space _ _ hd, if_pos h1, if_pos h2, List.tail_cons, htake]
    exact c2

theorem takeWhile_isdigit_stop (more : Str) (hm : EndsToken more) :
    more.takeWhile isdigit = [] := by
  cases more with
  | nil => rfl
  | cons a r =>
    have := hm a rfl
    simp [List.takeWhile, this]

/-- The value `atoi` gives a text that holds no digit after its whitespace and
optional sign: zero. -/
theorem atoi_no_digits (ws more : Str) (hws : ∀ c ∈ ws, isspace c = true)
    (hm : EndsToken more) :
    atoi (ws ++ '+' :: more) = 0 ∧ atoi (ws ++ '-' :: more) = 0 ∧
    ((∀ c, more.head? = some c → isspace c = false ∧ c ≠ '+' ∧ c ≠ '-') →
      atoi (ws ++ more) = 0) := by
  have ht := takeWhile_isdigit_stop more hm
  obtain ⟨c1, c2⟩ := clamp_small 0 (by decide)
  have hz : digitsValue [] = 0 := rfl
  simp only [Nat.cast_zero, neg_zero] at c1 c2
  refine ⟨?_, ?_, ?_⟩
  · have hd := dropWhile_isspace_stop ws ('+' :: more) hws
      (by intro c hc; simp at hc; rw [← hc]; decide)
    have h1 : ('+' :: more).head? ≠ some '-' := by simp
    have h2 : ('+' :: more).head? = some '-' ∨ ('+' :: more).head? = some '+' := Or.inr rfl
    rw [atoi_after_space _ _ hd, if_neg h1, if_pos h2, List.tail_cons, ht, hz]
    exact c1
  · have hd := dropWhile_isspace_stop ws ('-' :: more) hws
      (by intro c hc; simp at hc; rw [← hc]; decide)
    have h1 : ('-' :: more).head? = some '-' := rfl
    have h2 : ('-' :: more).head? = some '-' ∨ ('-' :: more).head? = some '+' := Or.inl rfl
    rw [atoi_after_space _ _ hd, if_pos h1, if_pos h2, List.tail_cons, ht, hz]
    simpa using c2
  · intro hhead
    have hd := dropWhile_isspace_stop ws more hws (fun c hc => (hhead c hc).1)
    have h1 : more.head? ≠ some '-' := fun h => (hhead _ h).2.2 rfl
    have h2 : ¬ (more.head? = some '-' ∨ more.head? = some '+') := by
      intro h
      rcases h with h | h
      · exact (hhead _ h).2.2 rfl
      · exact (hhead _ h).2.1 rfl
    rw [atoi_after_space _ _ hd, if_neg h1, if_neg h2, ht, hz]
    exact c1

/-- C8: `GetString(key, def)` returns `def` for an absent key and the stored
string otherwise; `GetInt(key, def)` returns `def` for an absent key and
otherwise `atoi` of the stored string, never `def`: the value of its leading
optionally signed decimal integer when that fits an `int`, and 0 when the
stored string has no digit after its leading whitespace and optional sign.
Both lookups leave the configuration as it was. -/
theorem C8_lookups (self : CConfig) (key d : Str) (n : Int) :
    (map_find self.m_CFG key = none →
      self.GetString key d = (d, self) ∧ self.GetInt key n = (n, self)) ∧
    (∀ v, map_find self.m_CFG key = some v →
      self.GetString key d = (v, self) ∧ self.GetInt key n = (atoi v, self)) ∧
    (∀ ws ds more : Str, (∀ c ∈ ws, isspace c = true) → ds ≠ [] →
      (∀ c ∈ ds, isdigit c = true) → EndsToken more → digitsValue ds < 2 ^ 31 →
        (map_find self.m_CFG key = some (ws ++ (ds ++ more)) →
          (self.GetInt key n).1 = (digitsValue ds : Int)) ∧
        (map_find self.m_CFG key = some (ws ++ '+' :: (ds ++ more)) →
          (self.GetInt key n).1 = (digitsValue ds : Int)) ∧
        (map_find self.m_CFG key = some (ws ++ '-' :: (ds ++ more)) →
          (self.GetInt key n).1 = -(digitsValue ds : Int))) ∧
    (∀ ws more : Str, (∀ c ∈ ws, isspace c = true) → EndsToken more →
        (map_find self.m_CFG key = some (ws ++ '+' :: more) → (self.GetInt key n).1 = 0) ∧
        (map_find self.m_CFG key = some (ws ++ '-' :: more) → (self.GetInt key n).1 = 0) ∧
        ((∀ c, more.head? = some c → isspace c = false ∧ c ≠ '+' ∧ c ≠ '-') →
          map_find self.m_CFG key = some (ws ++ more) → (self.GetInt key n).1 = 0)) := by
  have hint : ∀ v, map_find self.m_CFG key = some v → self.GetInt key n = (atoi v, self) := by
    intro v hv
    simp [CConfig.GetInt, hv, map_index_of_find self.m_CFG key v hv]
  refine ⟨?_, ?_, ?_, ?_⟩
  · intro h
    simp [CConfig.GetString, CConfig.GetInt, h]
  · intro v hv
    exact ⟨GetString_of_find self key v d hv, hint v hv⟩
  · intro ws ds more hws hne hds hm hval
    obtain ⟨h1, h2, h3⟩ := atoi_digits ws ds more hws hne hds hm hval
    refine ⟨?_, ?_, ?_⟩
    · intro hf; rw [hint _ hf]; exact h1
    · intro hf; rw [hint _ hf]; exact h2
    · intro hf; rw [hint _ hf]; exact h3
  · intro ws more hws hm
    obtain ⟨h1, h2, h3⟩ := atoi_no_digits ws more hws hm
    refine ⟨?_, ?_, ?_⟩
    · intro hf; rw [hint _ hf]; exact h1
    · intro hf; rw [hint _ hf]; exact h2
    · intro hhead hf; rw [hint _ hf]; exact h3 hhead

/-! ### `CMap::Load` -/

theorem CheckValid_fields (self : CMap) :
    self.CheckValid.m_Slots = self.m_Slots ∧
    self.CheckValid.m_MapNumPlayers = self.m_MapNumPlayers ∧
    self.CheckValid.m_MapObservers = self.m_MapObservers :=
  ⟨rfl, rfl, rfl⟩

/-- The slot vector, the player count and the observer mode that `CMap::Load`
leaves when `map_sha1` parses, stage by stage. -/
theorem Load_fields (h : Header) (u : Indeterminate) (self : CMap) (MapPath : Str)
    (MAP : CConfig) (hsha : sha1Parses u self MAP = true) :
    (CMap.Load h u self MapPath MAP).m_MapNumPlayers = (CMap.readSlots u MAP 12 1 []).length ∧
    (CMap.Load h u self MapPath MAP).m_MapObservers =
      (if toUInt32 (MAP.GetInt "map_options".toList 0).1 &&& h.MAPOPT_MELEE ≠ 0
        then MAPOBS.ALLOWED else MAPOBS.NONE) ∧
    (CMap.Load h u self MapPath MAP).m_Slots =
      (fun s3 : List CGameSlot =>
        if toUInt32 (MAP.GetInt "map_options".toList 0).1 &&& h.MAPOPT_MELEE ≠ 0
          then CMap.addObserverSlots h 12 s3 else s3)
      ((fun s2 : List CGameSlot =>
        if (h.MAPFLAG_TEAMSTOGETHER ||| h.MAPFLAG_FIXEDTEAMS) &&& h.MAPFLAG_RANDOMRACES ≠ 0
          then s2.map (fun slot => slot.SetRace h.SLOTRACE_RANDOM) else s2)
      ((fun s1 : List CGameSlot =>
        if ¬ (toUInt32 (MAP.GetInt "map_options".toList 0).1
            &&& h.MAPOPT_FIXEDPLAYERSETTINGS ≠ 0)
          then s1.map (fun Slot => Slot.SetRace (Slot.GetRace ||| h.SLOTRACE_SELECTABLE))
          else s1)
      (if toUInt32 (MAP.GetInt "map_options".toList 0).1 &&& h.MAPOPT_MELEE ≠ 0
        then CMap.meleeSlots h (CMap.readSlots u MAP 12 1 []) 0
        else CMap.readSlots u MAP 12 1 []))) := by
  unfold sha1Parses at hsha
  unfold CMap.Load
  simp only [hsha, not_true_eq_false, if_false]
  rw [(CheckValid_fields _).1, (CheckValid_fields _).2.1, (CheckValid_fields _).2.2]
  generalize toUInt32 (MAP.GetInt "map_options".toList 0).1 = opts
  generalize CMap.readSlots u MAP 12 1 [] = parsed
  by_cases hm : opts &&& h.MAPOPT_MELEE ≠ 0 <;>
  by_cases hf : opts &&& h.MAPOPT_FIXEDPLAYERSETTINGS ≠ 0 <;>
  by_cases hr : (h.MAPFLAG_TEAMSTOGETHER ||| h.MAPFLAG_FIXEDTEAMS) &&& h.MAPFLAG_RANDOMRACES ≠ 0 <;>
  simp [hm, hf, hr]

/-- The slot loop only appends, and at most once for each iteration. -/
theorem readSlots_spec (u : Indeterminate) (MAP : CConfig) : ∀ (k Slot : Nat)
    (acc : List CGameSlot),
    ∃ added, CMap.readSlots u MAP k Slot acc = acc ++ added ∧ added.length ≤ k := by
  intro k
  induction k with
  | zero => intro Slot acc; exact ⟨[], by simp [CMap.readSlots]⟩
  | succ k ih =>
    intro Slot acc
    unfold CMap.readSlots
    by_cases h1 : (MAP.GetString (slotKey Slot) []).1 = []
    · exact ⟨[], by simp [h1]⟩
    · by_cases h2 : (ExtractNumbers 8 9 (MAP.GetString (slotKey Slot) []).1 (u.c Slot)
          ((List.range 9).map (u.SlotData Slot))).1 = true
      · obtain ⟨added, hadd, hlen⟩ := ih (Slot + 1) (acc ++ [CGameSlot.ofSlotData
          (ExtractNumbers 8 9 (MAP.GetString (slotKey Slot) []).1 (u.c Slot)
            ((List.range 9).map (u.SlotData Slot))).2])
        refine ⟨CGameSlot.ofSlotData
          (ExtractNumbers 8 9 (MAP.GetString (slotKey Slot) []).1 (u.c Slot)
            ((List.range 9).map (u.SlotData Slot))).2 :: added, ?_, by simp; omega⟩
        simp only [h1, h2, if_false, not_true_eq_false, hadd]
        simp
      · exact ⟨[], by simp [h1, h2]⟩

theorem readSlots_length_le (u : Indeterminate) (MAP : CConfig) :
    (CMap.readSlots u MAP 12 1 []).length ≤ 12 := by
  obtain ⟨added, hadd, hlen⟩ := readSlots_spec u MAP 12 1 []
  rw [hadd]
  simpa using hlen

theorem meleeSlots_spec (h : Header) : ∀ (l : List CGameSlot) (Team : Nat),
    (CMap.meleeSlots h l Team).length = l.length ∧
    (CMap.meleeSlots h l Team).map CGameSlot.configured = l.map CGameSlot.configured := by
  intro l
  induction l with
  | nil => intro Team; exact ⟨rfl, rfl⟩
  | cons s l ih =>
    intro Team
    obtain ⟨h1, h2⟩ := ih ((Team + 1) % 256)
    refine ⟨by simp [CMap.meleeSlots, h1], ?_⟩
    simp only [CMap.meleeSlots, List.map_cons, h2]
    rfl

theorem map_SetRace_configured (f : CGameSlot → Nat) (l : List CGameSlot) :
    (l.map (fun s => s.SetRace (f s))).map CGameSlot.configured = l.map CGameSlot.configured := by
  induction l with
  | nil => rfl
  | cons s l ih =>
    simp only [List.map_cons, ih]
    rfl

/-- The observer loop fills the vector up to twelve slots when its bound
allows that many iterations, which the bound 12 always does. -/
theorem addObserverSlots_spec (h : Header) : ∀ (k : Nat) (s : List CGameSlot),
    12 ≤ s.length + k →
    CMap.addObserverSlots h k s = s ++ List.replicate (12 - s.length) (observerSlot h) := by
  intro k
  induction k with
  | zero =>
    intro s hs
    have : 12 - s.length = 0 := by omega
    simp [CMap.addObserverSlots, this]
  | succ k ih =>
    intro s hs
    unfold CMap.addObserverSlots
    split_ifs with hlt
    · rw [ih (s ++ [observerSlot h]) (by simp; omega)]
      have : 12 - s.length = (12 - (s ++ [observerSlot h]).length) + 1 := by
        simp; omega
      rw [this, List.replicate_succ]
      simp
    · have : 12 - s.length = 0 := by omega
      simp [this]

/-- The shape of the slot vector after `CMap::Load` when `map_sha1` parses: the
slots read from the configuration, in order and with all members but team and
race as read, followed on a melee map by observer slots up to twelve. -/
theorem Load_slots_shape (h : Header) (u : Indeterminate) (self : CMap) (MapPath : Str)
    (MAP : CConfig) (hsha : sha1Parses u self MAP = true) :
    ∃ front : List CGameSlot,
      front.length = (CMap.readSlots u MAP 12 1 []).length ∧
      front.map CGameSlot.configured = (CMap.readSlots u MAP 12 1 []).map CGameSlot.configured ∧
      (CMap.Load h u self MapPath MAP).m_MapNumPlayers = (CMap.readSlots u MAP 12 1 []).length ∧
      (toUInt32 (MAP.GetInt "map_options".toList 0).1 &&& h.MAPOPT_MELEE ≠ 0 →
        (CMap.Load h u self MapPath MAP).m_MapObservers = MAPOBS.ALLOWED ∧
        (CMap.Load h u self MapPath MAP).m_Slots = front ++
          List.replicate (12 - (CMap.readSlots u MAP 12 1 []).length) (observerSlot h)) ∧
      (¬ (toUInt32 (MAP.GetInt "map_options".toList 0).1 &&& h.MAPOPT_MELEE ≠ 0) →
        (CMap.Load h u self MapPath MAP).m_MapObservers = MAPOBS.NONE ∧
        (CMap.Load h u self MapPath MAP).m_Slots = front) := by
  obtain ⟨hnum, hobs, hslots⟩ := Load_fields h u self MapPath MAP hsha
  have hle := readSlots_length_le u MAP
  generalize toUInt32 (MAP.GetInt "map_options".toList 0).1 = opts at *
  generalize CMap.readSlots u MAP 12 1 [] = parsed at *
  -- the slots after the melee block
  obtain ⟨s1, hs1, hs1len, hs1conf⟩ : ∃ s1 : List CGameSlot,
      s1 = (if opts &&& h.MAPOPT_MELEE ≠ 0 then CMap.meleeSlots h parsed 0 else parsed) ∧
      s1.length = parsed.length ∧
      s1.map CGameSlot.configured = parsed.map CGameSlot.configured := by
    refine ⟨_, rfl, ?_, ?_⟩
    · split_ifs
      · exact (meleeSlots_spec h parsed 0).1
      · rfl
    · split_ifs
      · exact (meleeSlots_spec h parsed 0).2
      · rfl
  rw [← hs1] at hslots
  -- the slots after the race may have been made selectable
  obtain ⟨s2, hs2, hs2len, hs2conf⟩ : ∃ s2 : List CGameSlot,
      s2 = (if ¬ (opts &&& h.MAPOPT_FIXEDPLAYERSETTINGS ≠ 0)
        then s1.map (fun Slot => Slot.SetRace (Slot.GetRace ||| h.SLOTRACE_SELECTABLE))
        else s1) ∧
      s2.length = parsed.length ∧
      s2.map CGameSlot.configured = parsed.map CGameSlot.configured := by
    refine ⟨_, rfl, ?_, ?_⟩
    · split_ifs
      · exact hs1len
      · rw [List.length_map]; exact hs1len
    · split_ifs
      · exact hs1conf
      · rw [map_SetRace_configured (fun s => s.GetRace ||| h.SLOTRACE_SELECTABLE)]
        exact hs1conf
  simp only [] at hslots
  rw [← hs2] at hslots
  -- the slots after the random-races block
  obtain ⟨s3, hs3, hs3len, hs3conf⟩ : ∃ s3 : List CGameSlot,
      s3 = (if (h.MAPFLAG_TEAMSTOGETHER ||| h.MAPFLAG_FIXEDTEAMS) &&& h.MAPFLAG_RANDOMRACES ≠ 0
        then s2.map (fun slot => slot.SetRace h.SLOTRACE_RANDOM) else s2) ∧
      s3.length = parsed.length ∧
      s3.map CGameSlot.configured = parsed.map CGameSlot.configured := by
    refine ⟨_, rfl, ?_, ?_⟩
    · split_ifs
      · rw [List.length_map]; exact hs2len
      · exact hs2len
    · split_ifs
      · rw [map_SetRace_configured (fun _ => h.SLOTRACE_RANDOM)]
        exact hs2conf
      · exact hs2conf
  rw [← hs3] at hslots
  refine ⟨s3, hs3len, hs3conf, hnum, ?_, ?_⟩
  · intro hm
    rw [hobs, hslots, if_pos hm, if_pos hm,
      addObserverSlots_spec h 12 s3 (by omega), hs3len]
    exact ⟨rfl, rfl⟩
  · intro hm
    rw [hobs, hslots, if_neg hm, if_neg hm]
    exact ⟨rfl, rfl⟩

/-- C9: when `map_sha1` parses, the slot vector after `CMap::Load` has exactly
12 entries if the observer mode is ALLOWED or REFEREES, and otherwise as many
entries as `m_MapNumPlayers`. -/
theorem C9_slot_count (h : Header) (u : Indeterminate) (self : CMap) (MapPath : Str)
    (MAP : CConfig) (hsha : sha1Parses u self MAP = true) :
    ((CMap.Load h u self MapPath MAP).m_MapObservers = MAPOBS.ALLOWED ∨
      (CMap.Load h u self MapPath MAP).m_MapObservers = MAPOBS.REFEREES →
        (CMap.Load h u self MapPath MAP).m_Slots.length = 12) ∧
    (¬ ((CMap.Load h u self MapPath MAP).m_MapObservers = MAPOBS.ALLOWED ∨
      (CMap.Load h u self MapPath MAP).m_MapObservers = MAPOBS.REFEREES) →
        (CMap.Load h u self MapPath MAP).m_Slots.length
          = (CMap.Load h u self MapPath MAP).m_MapNumPlayers) := by
  obtain ⟨front, hlen, _, hnum, hmelee, hplain⟩ := Load_slots_shape h u self MapPath MAP hsha
  have hle := readSlots_length_le u MAP
  by_cases hm : toUInt32 (MAP.GetInt "map_options".toList 0).1 &&& h.MAPOPT_MELEE ≠ 0
  · obtain ⟨hobs, hslots⟩ := hmelee hm
    refine ⟨?_, ?_⟩
    · intro _
      rw [hslots, List.length_append, List.length_replicate, hlen]
      omega
    · intro hno
      exact absurd (Or.inl hobs) hno
  · obtain ⟨hobs, hslots⟩ := hplain hm
    refine ⟨?_, ?_⟩
    · intro hyes
      rw [hobs] at hyes
      rcases hyes with hyes | hyes <;> exact absurd hyes (by decide)
    · intro _
      rw [hslots, hnum, hlen]

/-- C9 on a melee map with two configured slots (observers allowed, twelve
slots) under the constants of the original headers. -/
theorem C9_slot_count_witness :
    sha1Parses someIndeterminate someCMap meleeConfig = true ∧
    (CMap.Load ghostHeader someIndeterminate someCMap "m.w3x".toList meleeConfig).m_MapObservers
      = MAPOBS.ALLOWED ∧
    (CMap.Load ghostHeader someIndeterminate someCMap "m.w3x".toList meleeConfig).m_Slots.length
      = 12 :=
  ⟨by decide, by decide,
    (C9_slot_count ghostHeader someIndeterminate someCMap "m.w3x".toList meleeConfig
      (by decide)).1 (Or.inl (by decide))⟩

/-- C10: after `CMap::Load` on a configuration whose `map_sha1` parses, the
first `m_MapNumPlayers` slots are the slots built from the `map_slot` entries,
in their order and with every member but team and race as configured, and
every slot after them is the observer slot `{0, 255, OPEN, 0, 12, 12, RANDOM}`
(with the constructor's default computer type and handicap). When `map_sha1`
does not parse, `CMap::Load` leaves the slot vector as it was, appending
nothing. -/
theorem C10_observer_slots (h : Header) (u : Indeterminate) (self : CMap) (MapPath : Str)
    (MAP : CConfig) :
    (sha1Parses u self MAP = true →
      (CMap.Load h u self MapPath MAP).m_MapNumPlayers = (CMap.readSlots u MAP 12 1 []).length ∧
      (CMap.Load h u self MapPath MAP).m_MapNumPlayers
        ≤ (CMap.Load h u self MapPath MAP).m_Slots.length ∧
      ((CMap.Load h u self MapPath MAP).m_Slots.take
          (CMap.Load h u self MapPath MAP).m_MapNumPlayers).map CGameSlot.configured
        = (CMap.readSlots u MAP 12 1 []).map CGameSlot.configured ∧
      (CMap.Load h u self MapPath MAP).m_Slots.drop
          (CMap.Load h u self MapPath MAP).m_MapNumPlayers
        = List.replicate ((CMap.Load h u self MapPath MAP).m_Slots.length
            - (CMap.Load h u self MapPath MAP).m_MapNumPlayers)
          ⟨0, 255, h.SLOTSTATUS_OPEN, 0, 12, 12, h.SLOTRACE_RANDOM, h.defaultComputerType,
            h.defaultHandicap⟩) ∧
    (sha1Parses u self MAP = false →
      (CMap.Load h u self MapPath MAP).m_Slots = self.m_Slots) := by
  refine ⟨?_, ?_⟩
  · intro hsha
    obtain ⟨front, hlen, hconf, hnum, hmelee, hplain⟩ :=
      Load_slots_shape h u self MapPath MAP hsha
    by_cases hm : toUInt32 (MAP.GetInt "map_options".toList 0).1 &&& h.MAPOPT_MELEE ≠ 0
    · obtain ⟨_, hslots⟩ := hmelee hm
      rw [hslots, hnum, ← hlen]
      refine ⟨rfl, by simp, ?_, ?_⟩
      · rw [List.take_left, hconf]
      · rw [List.drop_left]
        simp [observerSlot]
    · obtain ⟨_, hslots⟩ := hplain hm
      rw [hslots, hnum, ← hlen]
      refine ⟨rfl, Nat.le_refl _, ?_, ?_⟩
      · rw [List.take_length, hconf]
      · simp
  · intro hsha
    unfold sha1Parses at hsha
    unfold CMap.Load
    simp only [hsha, Bool.false_eq_true, not_false_eq_true, if_true]

/-! ### `gameprotocol.h`: constants -/

/-- C13: the frame header constant is 0xF7; every packet name of the spec's
receive and send tables has in `CGameProtocol::Protocol` the type byte the
tables give; and the enumerators have pairwise distinct values, so a type byte
identifies at most one packet kind. -/
theorem C13_packet_type_bytes :
    W3GS_HEADER_CONSTANT = 0xF7 ∧
    (∀ e ∈ specPacketTypes, e.1.value = e.2) ∧
    specPacketTypes.length = 28 ∧
    ∀ a b : CGameProtocol.Protocol, a.value = b.value → a = b := by
  refine ⟨rfl, by decide, rfl, ?_⟩
  intro a b hab
  cases a <;> cases b <;> first | rfl | exact absurd hab (by decide)

/-- C14: the join-rejection reason codes are 9 (full), 10 (started) and 27
(wrong password, the reason for a wrong entry key); they are pairwise distinct
and are, in this order, the three values the spec's table allows in a
`REJECTJOIN` packet. -/
theorem C14_reject_reasons :
    REJECTJOIN_FULL = 9 ∧ REJECTJOIN_STARTED = 10 ∧ REJECTJOIN_WRONGPASSWORD = 27 ∧
    REJECTJOIN_FULL ≠ REJECTJOIN_STARTED ∧ REJECTJOIN_FULL ≠ REJECTJOIN_WRONGPASSWORD ∧
    REJECTJOIN_STARTED ≠ REJECTJOIN_WRONGPASSWORD ∧
    [REJECTJOIN_FULL, REJECTJOIN_STARTED, REJECTJOIN_WRONGPASSWORD] = specRejectReasons := by
  decide

/-- C15: for an incoming action whose byte count plus 3 fits the `uint32_t`
that `GetLength` returns (an action travels in a frame whose length field has
16 bits), `GetLength` is the number of action bytes plus 3; so the lengths of
the actions of a list add up to the sum of `len_i + 3`, and an action of 8
bytes has length 11. -/
theorem C15_action_length (a : CIncomingAction) (actions : List CIncomingAction)
    (ha : a.m_Action.length + 3 < 2 ^ 32)
    (hall : ∀ x ∈ actions, x.m_Action.length + 3 < 2 ^ 32) :
    a.GetLength = a.m_Action.length + 3 ∧
    (actions.map CIncomingAction.GetLength).sum
      = (actions.map (fun x => x.m_Action.length + 3)).sum ∧
    (a.m_Action.length = 8 → a.GetLength = 11) := by
  have hone : ∀ x : CIncomingAction, x.m_Action.length + 3 < 2 ^ 32 →
      x.GetLength = x.m_Action.length + 3 := by
    intro x hx
    unfold CIncomingAction.GetLength
    exact Nat.mod_eq_of_lt hx
  refine ⟨hone a ha, ?_, ?_⟩
  · induction actions with
    | nil => rfl
    | cons x rest ih =>
      rw [List.map_cons, List.map_cons, List.sum_cons, List.sum_cons,
        hone x (hall x (List.mem_cons_self x rest)),
        ih (fun y hy => hall y (List.mem_cons_of_mem x hy))]
  · intro h8
    rw [hone a ha, h8]

/-- C15 on an action of 8 bytes and a batch of two actions of 8 and 2
bytes. -/
theorem C15_action_length_witness :
    (⟨[1, 2, 3, 4], [0, 1, 2, 3, 4, 5, 6, 7], 2⟩ : CIncomingAction).GetLength = 8 + 3 ∧
    ([⟨[], [0, 1, 2, 3, 4, 5, 6, 7], 2⟩, ⟨[], [9, 9], 3⟩].map CIncomingAction.GetLength).sum
      = (8 + 3) + ((2 + 3) + 0) :=
  ⟨(C15_action_length ⟨[1, 2, 3, 4], [0, 1, 2, 3, 4, 5, 6, 7], 2⟩ [] (by decide)
      (by decide)).1,
    (C15_action_length ⟨[1, 2, 3, 4], [0, 1, 2, 3, 4, 5, 6, 7], 2⟩
      [⟨[], [0, 1, 2, 3, 4, 5, 6, 7], 2⟩, ⟨[], [9, 9], 3⟩] (by decide) (by decide)).2.1⟩

/-! ### `CTimer` -/

/-- The unsigned 32-bit sum `m_Ticks + Timeout` of `CTimer::update` is the
integer sum reduced modulo `2 ^ 32`. -/
theorem timer_sum_eq (t : Nat) (T : Int) :
    (((t + toUInt32 T) % 2 ^ 32 : Nat) : Int) = ((t : Int) + T) % 2 ^ 32 := by
  unfold toUInt32
  omega

/-- C17: `CTimer::update(c, T)` returns true exactly when `c` is at least
`(t + T) mod 2 ^ 32`, `t` being the stored tick; when it returns true the
stored tick becomes `(t + T) mod 2 ^ 32`, which is then at most `c`; when it
returns false the timer is unchanged. -/
theorem C17_timer_update (self : CTimer) (c : Nat) (T : Int) :
    ((self.update c T).1 = true ↔ ((self.m_Ticks : Int) + T) % 2 ^ 32 ≤ (c : Int)) ∧
    ((self.update c T).1 = true →
      (((self.update c T).2.m_Ticks : Nat) : Int) = ((self.m_Ticks : Int) + T) % 2 ^ 32 ∧
      (self.update c T).2.m_Ticks ≤ c) ∧
    ((self.update c T).1 = false → (self.update c T).2 = self) := by
  have hs := timer_sum_eq self.m_Ticks T
  unfold CTimer.update CTimer.reset
  by_cases hlt : c < (self.m_Ticks + toUInt32 T) % 2 ^ 32
  · simp only [hlt, if_true]
    refine ⟨?_, ?_, ?_⟩
    · constructor
      · intro h; exact absurd h (by decide)
      · intro h
        rw [← hs] at h
        omega
    · intro h; exact absurd h (by decide)
    · intro _; trivial
  · simp only [hlt, if_false]
    refine ⟨?_, ?_, ?_⟩
    · constructor
      · intro _
        rw [← hs]
        omega
      · intro _; trivial
    · intro _
      exact ⟨hs, by omega⟩
    · intro h; exact absurd h (by decide)

/-- C18: for a stored tick `t`, a timeout `T > 0` and a current tick `c` with
`t ≤ c` and `c + T < 2 ^ 32`, repeated calls `update(c, T)` return true exactly
`(c - t) / T` times and then false, as soon as more than that many calls are
allowed; the stored tick is then `t + T * ((c - t) / T)`, less than `T` behind
`c`. -/
theorem C18_timer_catch_up (fuel : Nat) : ∀ (t T c : Nat), 0 < T → t ≤ c → c + T < 2 ^ 32 →
    (c - t) / T < fuel →
    CTimer.updateUntilFalse fuel ⟨t⟩ c (T : Int)
      = some ((c - t) / T, ⟨t + T * ((c - t) / T)⟩) ∧
    c - (t + T * ((c - t) / T)) < T := by
  induction fuel with
  | zero => intro t T c _ _ _ hf; exact absurd hf (Nat.not_lt_zero _)
  | succ fuel ih =>
    intro t T c hT htc hc hf
    have hsum : (t + toUInt32 (T : Int)) % 2 ^ 32 = t + T := by
      have := timer_sum_eq t (T : Int)
      omega
    have hmod : c - (t + T * ((c - t) / T)) < T := by
      have h1 := Nat.mod_lt (c - t) hT
      have h2 := Nat.div_add_mod (c - t) T
      omega
    have hupd : CTimer.update ⟨t⟩ c (T : Int)
        = if c < t + T then (false, ⟨t⟩) else (true, ⟨t + T⟩) := by
      unfold CTimer.update CTimer.reset
      rw [hsum]
    refine ⟨?_, hmod⟩
    rw [CTimer.updateUntilFalse, hupd]
    by_cases hlt : c < t + T
    · have hdiv : (c - t) / T = 0 := Nat.div_eq_of_lt (by omega)
      rw [if_pos hlt, hdiv]
      rfl
    · have hdiv : (c - t) / T = (c - (t + T)) / T + 1 := by
        rw [Nat.div_eq_sub_div hT (by omega), Nat.sub_sub]
      obtain ⟨hrec, _⟩ := ih (t + T) T c hT (by omega) hc (by omega)
      rw [if_neg hlt]
      simp only [if_true, hrec, Option.map_some', hdiv]
      simp only [Option.some.injEq, Prod.mk.injEq, CTimer.mk.injEq, true_and]
      rw [Nat.mul_add]
      omega

/-- C18 at stored tick 100, timeout 50 and current tick 275: three calls
return true, the fourth returns false and leaves the tick at 250. -/
theorem C18_timer_catch_up_witness :
    CTimer.updateUntilFalse 4 ⟨100⟩ 275 50 = some (3, ⟨250⟩) ∧ 275 - 250 < 50 :=
  C18_timer_catch_up 4 100 50 275 (by decide) (by decide) (by decide) (by decide)

/-! ### `CMap::Load`: validity, flags and the slot entries -/

/-- When `map_sha1` parses, `CMap::Load` ends in `CheckValid`, called on an
object that is marked valid and holds the path given, the map data it had, and
the fixed speed, visibility and flags. -/
theorem Load_of_sha1 (h : Header) (u : Indeterminate) (self : CMap) (MapPath : Str)
    (MAP : CConfig) (hsha : sha1Parses u self MAP = true) :
    ∃ X : CMap, CMap.Load h u self MapPath MAP = X.CheckValid ∧ X.m_Valid = true ∧
      X.m_MapPath = MapPath ∧ X.m_MapData = self.m_MapData ∧
      X.m_MapSize = h.bytesToUInt32 (MAP.GetString "map_size".toList []).1 ∧
      X.m_MapOptions = toUInt32 (MAP.GetInt "map_options".toList 0).1 ∧
      X.m_MapSpeed = MAPSPEED.FAST ∧ X.m_MapVisibility = MAPVIS.DEFAULT ∧
      X.m_MapFlags = h.MAPFLAG_TEAMSTOGETHER ||| h.MAPFLAG_FIXEDTEAMS := by
  unfold sha1Parses at hsha
  unfold CMap.Load
  simp only [hsha, not_true_eq_false, if_false]
  exact ⟨_, rfl, rfl, rfl, rfl, rfl, rfl, rfl, rfl, rfl⟩

/-- When `map_sha1` does not parse, `CMap::Load` returns with the map marked
invalid. -/
theorem Load_of_not_sha1 (h : Header) (u : Indeterminate) (self : CMap) (MapPath : Str)
    (MAP : CConfig) (hsha : sha1Parses u self MAP = false) :
    (CMap.Load h u self MapPath MAP).m_Valid = false := by
  unfold sha1Parses at hsha
  unfold CMap.Load
  simp only [hsha, Bool.false_eq_true, not_false_eq_true, if_true]

/-- The map is valid after `CheckValid` exactly when it was valid before and
none of the four tests fires. -/
theorem CheckValid_valid (X : CMap) :
    X.CheckValid.m_Valid = true ↔
      X.m_Valid = true ∧ ¬ (X.m_MapPath = [] ∨ 53 < X.m_MapPath.length) ∧
      ¬ (X.m_MapData ≠ [] ∧ X.m_MapData.length ≠ X.m_MapSize) ∧
      ¬ (X.m_MapNumPlayers = 0 ∨ 12 < X.m_MapNumPlayers) ∧
      ¬ (X.m_Slots = [] ∨ 12 < X.m_Slots.length) := by
  unfold CMap.CheckValid
  simp only
  by_cases h1 : X.m_MapPath = [] ∨ 53 < X.m_MapPath.length <;>
  by_cases h2 : X.m_MapData ≠ [] ∧ X.m_MapData.length ≠ X.m_MapSize <;>
  by_cases h3 : X.m_MapNumPlayers = 0 ∨ 12 < X.m_MapNumPlayers <;>
  by_cases h4 : X.m_Slots = [] ∨ 12 < X.m_Slots.length <;>
  simp [h1, h2, h3, h4]

/-- C12: for every path and configuration, on an object with no map data, the
map is valid after `CMap::Load` if and only if `map_sha1` was accepted as 20
bytes, the path is not empty and at most 53 characters long, and at least one
(and at most 12) `map_slot` entries were read. Forward slashes play no part: a
path and the same path with every `/` replaced by a backslash give the same
validity. -/
theorem C12_valid_iff (h : Header) (u : Indeterminate) (self : CMap) (MapPath : Str)
    (MAP : CConfig) (hdata : self.m_MapData = []) :
    ((CMap.Load h u self MapPath MAP).m_Valid = true ↔
      sha1Parses u self MAP = true ∧ MapPath ≠ [] ∧ MapPath.length ≤ 53 ∧
      1 ≤ (CMap.readSlots u MAP 12 1 []).length ∧
      (CMap.readSlots u MAP 12 1 []).length ≤ 12) ∧
    (CMap.Load h u self (MapPath.map (fun c => if c = '/' then '\\' else c)) MAP).m_Valid
      = (CMap.Load h u self MapPath MAP).m_Valid := by
  have key : ∀ P : Str, ((CMap.Load h u self P MAP).m_Valid = true ↔
      sha1Parses u self MAP = true ∧ P ≠ [] ∧ P.length ≤ 53 ∧
      1 ≤ (CMap.readSlots u MAP 12 1 []).length ∧
      (CMap.readSlots u MAP 12 1 []).length ≤ 12) := by
    intro P
    have hle := readSlots_length_le u MAP
    cases hsha : sha1Parses u self MAP with
    | false =>
      rw [Load_of_not_sha1 h u self P MAP hsha]
      simp
    | true =>
      obtain ⟨X, hX, hv, hp, hd, _⟩ := Load_of_sha1 h u self P MAP hsha
      obtain ⟨front, hlen, _, hnum, hmelee, hplain⟩ := Load_slots_shape h u self P MAP hsha
      have hXn : X.m_MapNumPlayers = (CMap.readSlots u MAP 12 1 []).length := by
        have := hnum
        rw [hX] at this
        exact this
      have hXs : X.m_Slots = (CMap.Load h u self P MAP).m_Slots := by
        rw [hX]; rfl
      have hslots : ((CMap.Load h u self P MAP).m_Slots = [] ∨
          12 < (CMap.Load h u self P MAP).m_Slots.length) →
          (CMap.readSlots u MAP 12 1 []).length = 0 := by
        by_cases hm : toUInt32 (MAP.GetInt "map_options".toList 0).1 &&& h.MAPOPT_MELEE ≠ 0
        · rw [(hmelee hm).2]
          have hL : (front ++ List.replicate (12 - (CMap.readSlots u MAP 12 1 []).length)
              (observerSlot h)).length = 12 := by
            rw [List.length_append, List.length_replicate, hlen]
            omega
          intro hor
          rcases hor with hor | hor
          · rw [hor] at hL
            exact absurd hL (by decide)
          · rw [hL] at hor
            exact absurd hor (by decide)
        · rw [(hplain hm).2]
          intro hor
          rcases hor with hor | hor
          · rw [← hlen, hor]; rfl
          · omega
      rw [hX, CheckValid_valid, hv, hp, hd, hdata, hXn, hXs]
      constructor
      · rintro ⟨_, h1, _, h3, _⟩
        refine ⟨rfl, fun e => h1 (Or.inl e), Nat.le_of_not_lt (fun e => h1 (Or.inr e)),
          by omega, hle⟩
      · rintro ⟨_, h1, h2, h3, _⟩
        refine ⟨rfl, ?_, ?_, ?_, ?_⟩
        · rintro (e | e)
          · exact h1 e
          · omega
        · rintro ⟨e, _⟩
          exact e rfl
        · omega
        · intro hor
          have := hslots hor
          omega
  refine ⟨key MapPath, ?_⟩
  have h1 := key MapPath
  have h2 := key (MapPath.map (fun c => if c = '/' then '\\' else c))
  have hne : MapPath.map (fun c => if c = '/' then '\\' else c) ≠ [] ↔ MapPath ≠ [] := by
    simp
  rw [List.length_map, hne] at h2
  cases hA : (CMap.Load h u self MapPath MAP).m_Valid <;>
  cases hB : (CMap.Load h u self (MapPath.map (fun c => if c = '/' then '\\' else c))
      MAP).m_Valid
  · rfl
  · exact absurd (h1.mpr (h2.mp hB)) (by rw [hA]; decide)
  · exact absurd (h2.mpr (h1.mp hA)) (by rw [hB]; decide)
  · rfl

/-- C12 on a melee map with two slots and a path that holds a forward
slash: the map is valid. -/
theorem C12_valid_iff_witness :
    someCMap.m_MapData = [] ∧
    (CMap.Load ghostHeader someIndeterminate someCMap "maps/m.w3x".toList meleeConfig).m_Valid
      = true :=
  ⟨rfl, (C12_valid_iff ghostHeader someIndeterminate someCMap "maps/m.w3x".toList meleeConfig
    rfl).1.mpr (by decide)⟩

theorem GetString_fst (self : CConfig) (key d : Str) :
    (self.GetString key d).1 = (map_find self.m_CFG key).getD d := by
  cases hf : map_find self.m_CFG key with
  | none => simp [CConfig.GetString, hf]
  | some v => rw [GetString_of_find self key v d hf]; rfl

theorem GetInt_fst (self : CConfig) (key : Str) (n : Int) :
    (self.GetInt key n).1 = ((map_find self.m_CFG key).map atoi).getD n := by
  cases hf : map_find self.m_CFG key with
  | none => simp [CConfig.GetInt, hf]
  | some v => simp [CConfig.GetInt, hf, map_index_of_find self.m_CFG key v hf]

theorem slotKey_ne_numplayers (Slot : Nat) : slotKey Slot ≠ "map_numplayers".toList := by
  intro heq
  have h4 := congrArg (fun l : Str => l.get? 4) heq
  unfold slotKey at h4
  have e1 : ("map_slot".toList ++ Nat.toDigits 10 Slot).get? 4 = some 's' := rfl
  have e2 : "map_numplayers".toList.get? 4 = some 'n' := rfl
  simp only [e1, e2] at h4
  exact absurd h4 (by decide)

/-- The slot loop reads the configuration only through the `map_slot`
entries. -/
theorem readSlots_congr (u : Indeterminate) (MAP1 MAP2 : CConfig)
    (hagree : ∀ Slot, map_find MAP1.m_CFG (slotKey Slot) = map_find MAP2.m_CFG (slotKey Slot)) :
    ∀ (k Slot : Nat) (acc : List CGameSlot),
      CMap.readSlots u MAP1 k Slot acc = CMap.readSlots u MAP2 k Slot acc := by
  intro k
  induction k with
  | zero => intro Slot acc; rfl
  | succ k ih =>
    intro Slot acc
    have hs : (MAP1.GetString (slotKey Slot) []).1 = (MAP2.GetString (slotKey Slot) []).1 := by
      rw [GetString_fst, GetString_fst, hagree Slot]
    unfold CMap.readSlots
    simp only [hs, ih]

/-- C16: two map configurations that agree on every key but `map_numplayers`
(its value, or whether it is present at all) load into identical maps, from
any object state and for any path; and when `map_sha1` parses, the player count
of the loaded map is the number of `map_slot` entries read. -/
theorem C16_numplayers_ignored (h : Header) (u : Indeterminate) (self : CMap) (MapPath : Str)
    (MAP1 MAP2 : CConfig)
    (hagree : ∀ key, key ≠ "map_numplayers".toList →
      map_find MAP1.m_CFG key = map_find MAP2.m_CFG key) :
    CMap.Load h u self MapPath MAP1 = CMap.Load h u self MapPath MAP2 ∧
    (sha1Parses u self MAP1 = true →
      (CMap.Load h u self MapPath MAP1).m_MapNumPlayers
        = (CMap.readSlots u MAP1 12 1 []).length) := by
  have hstr : ∀ key, key ≠ "map_numplayers".toList → ∀ d,
      (MAP1.GetString key d).1 = (MAP2.GetString key d).1 := by
    intro key hne d
    rw [GetString_fst, GetString_fst, hagree key hne]
  have hint : ∀ key, key ≠ "map_numplayers".toList → ∀ n,
      (MAP1.GetInt key n).1 = (MAP2.GetInt key n).1 := by
    intro key hne n
    rw [GetInt_fst, GetInt_fst, hagree key hne]
  have hslots := readSlots_congr u MAP1 MAP2 (fun Slot => hagree _ (slotKey_ne_numplayers Slot))
  refine ⟨?_, fun hsha => (Load_fields h u self MapPath MAP1 hsha).1⟩
  unfold CMap.Load
  simp only [hstr "map_size".toList (by decide), hstr "map_info".toList (by decide),
    hstr "map_crc".toList (by decide), hstr "map_sha1".toList (by decide),
    hstr "map_width".toList (by decide), hstr "map_height".toList (by decide),
    hint "map_options".toList (by decide), hslots]

/-- C16 on `meleeConfig` and on the same configuration with a `map_numplayers`
entry in front. -/
theorem C16_numplayers_ignored_witness :
    CMap.Load ghostHeader someIndeterminate someCMap "m.w3x".toList
        ⟨("map_numplayers".toList, "7".toList) :: meleeConfig.m_CFG⟩
      = CMap.Load ghostHeader someIndeterminate someCMap "m.w3x".toList meleeConfig :=
  (C16_numplayers_ignored ghostHeader someIndeterminate someCMap "m.w3x".toList
    ⟨("map_numplayers".toList, "7".toList) :: meleeConfig.m_CFG⟩ meleeConfig
    (by
      intro key hne
      show map_find (("map_numplayers".toList, "7".toList) :: meleeConfig.m_CFG) key = _
      rw [map_find, if_neg (Ne.symm hne)])).1

/-- The map flags `TEAMSTOGETHER | FIXEDTEAMS` that `CMap::Load` sets hold the
first two masks and none of the other three, when the masks are distinct
flags. -/
theorem load_flags_tests (h : Header) (hmasks : h.MapFlagsDistinct) :
    (h.MAPFLAG_TEAMSTOGETHER ||| h.MAPFLAG_FIXEDTEAMS) &&& h.MAPFLAG_TEAMSTOGETHER ≠ 0 ∧
    (h.MAPFLAG_TEAMSTOGETHER ||| h.MAPFLAG_FIXEDTEAMS) &&& h.MAPFLAG_FIXEDTEAMS ≠ 0 ∧
    (h.MAPFLAG_TEAMSTOGETHER ||| h.MAPFLAG_FIXEDTEAMS) &&& h.MAPFLAG_UNITSHARE = 0 ∧
    (h.MAPFLAG_TEAMSTOGETHER ||| h.MAPFLAG_FIXEDTEAMS) &&& h.MAPFLAG_RANDOMHERO = 0 ∧
    (h.MAPFLAG_TEAMSTOGETHER ||| h.MAPFLAG_FIXEDTEAMS) &&& h.MAPFLAG_RANDOMRACES = 0 := by
  obtain ⟨hTT, hFT, _, _, _, hTF, hTU, hTH, hTR, hFU, hFH, hFR, _, _, _⟩ := hmasks
  have hFTT : h.MAPFLAG_FIXEDTEAMS &&& h.MAPFLAG_TEAMSTOGETHER = 0 := by
    rw [Nat.and_comm]; exact hTF
  refine ⟨?_, ?_, ?_, ?_, ?_⟩
  · rw [Nat.and_distrib_right, Nat.and_self, hFTT, Nat.or_zero]; exact hTT
  · rw [Nat.and_distrib_right, Nat.and_self, hTF, Nat.zero_or]; exact hFT
  · rw [Nat.and_distrib_right, hTU, hFU]; rfl
  · rw [Nat.and_distrib_right, hTH, hFH]; rfl
  · rw [Nat.and_distrib_right, hTR, hFR]; rfl

/-- C19: when `map_sha1` parses and the `MAPFLAG` masks of the header are
distinct flags, the game flags of the loaded map are 0x00067802 if the MELEE
option is set in `map_options` and 0x00064802 if it is not, whatever else the
configuration holds. -/
theorem C19_game_flags_after_load (h : Header) (u : Indeterminate) (self : CMap)
    (MapPath : Str) (MAP : CConfig) (hsha : sha1Parses u self MAP = true)
    (hmasks : h.MapFlagsDistinct) :
    (toUInt32 (MAP.GetInt "map_options".toList 0).1 &&& h.MAPOPT_MELEE ≠ 0 →
      (CMap.Load h u self MapPath MAP).GetMapGameFlags h = 0x00067802) ∧
    (toUInt32 (MAP.GetInt "map_options".toList 0).1 &&& h.MAPOPT_MELEE = 0 →
      (CMap.Load h u self MapPath MAP).GetMapGameFlags h = 0x00064802) := by
  obtain ⟨X, hX, _, _, _, _, _, hspeed, hvis, hflags⟩ := Load_of_sha1 h u self MapPath MAP hsha
  obtain ⟨_, hobs, _⟩ := Load_fields h u self MapPath MAP hsha
  obtain ⟨b1, b2, b3, b4, b5⟩ := load_flags_tests h hmasks
  have e1 : (CMap.Load h u self MapPath MAP).m_MapSpeed = MAPSPEED.FAST := by
    rw [hX]; exact hspeed
  have e2 : (CMap.Load h u self MapPath MAP).m_MapVisibility = MAPVIS.DEFAULT := by
    rw [hX]; exact hvis
  have e3 : (CMap.Load h u self MapPath MAP).m_MapFlags
      = h.MAPFLAG_TEAMSTOGETHER ||| h.MAPFLAG_FIXEDTEAMS := by
    rw [hX]; exact hflags
  refine ⟨?_, ?_⟩
  · intro hm
    rw [if_pos hm] at hobs
    unfold CMap.GetMapGameFlags
    simp only [e1, e2, e3, hobs, b1, b2, b3, b4, b5, reduceCtorEq, if_false, if_true, ne_eq,
      not_true_eq_false, not_false_eq_true]
    decide
  · intro hm
    rw [if_neg (by rw [hm]; exact fun hne => hne rfl)] at hobs
    unfold CMap.GetMapGameFlags
    simp only [e1, e2, e3, hobs, b1, b2, b3, b4, b5, reduceCtorEq, if_false, if_true, ne_eq,
      not_true_eq_false, not_false_eq_true]
    decide

/-- C19 on a melee map and on a map with custom forces, under the constants of
the original headers. -/
theorem C19_game_flags_after_load_witness :
    sha1Parses someIndeterminate someCMap meleeConfig = true ∧
    ghostHeader.MapFlagsDistinct ∧
    (CMap.Load ghostHeader someIndeterminate someCMap "m.w3x".toList
      meleeConfig).GetMapGameFlags ghostHeader = 0x00067802 :=
  ⟨by decide, by unfold Header.MapFlagsDistinct; decide,
    (C19_game_flags_after_load ghostHeader someIndeterminate someCMap "m.w3x".toList
      meleeConfig (by decide) (by unfold Header.MapFlagsDistinct; decide)).1 (by decide)⟩

theorem acceptedRun_le (ok : Nat → Bool) : ∀ k Slot, acceptedRun ok k Slot ≤ k := by
  intro k
  induction k with
  | zero => intro Slot; exact Nat.le_refl 0
  | succ k ih =>
    intro Slot
    unfold acceptedRun
    split_ifs
    · exact Nat.succ_le_succ (ih (Slot + 1))
    · exact Nat.zero_le _

theorem acceptedRun_ok (ok : Nat → Bool) : ∀ k Slot j, j < acceptedRun ok k Slot →
    ok (Slot + j) = true := by
  intro k
  induction k with
  | zero => intro Slot j hj; exact absurd hj (Nat.not_lt_zero _)
  | succ k ih =>
    intro Slot j hj
    unfold acceptedRun at hj
    by_cases hok : ok Slot = true
    · rw [if_pos hok] at hj
      cases j with
      | zero => exact hok
      | succ j =>
        have := ih (Slot + 1) j (by omega)
        rw [← this]
        congr 1
        omega
    · rw [if_neg hok] at hj
      exact absurd hj (Nat.not_lt_zero _)

theorem acceptedRun_max (ok : Nat → Bool) : ∀ k Slot n, n ≤ k →
    (∀ j, j < n → ok (Slot + j) = true) → n ≤ acceptedRun ok k Slot := by
  intro k
  induction k with
  | zero => intro Slot n hn _; exact hn
  | succ k ih =>
    intro Slot n hn hall
    cases n with
    | zero => exact Nat.zero_le _
    | succ n =>
      have h0 : ok Slot = true := hall 0 (Nat.succ_pos n)
      unfold acceptedRun
      rw [if_pos h0]
      have := ih (Slot + 1) n (by omega) (fun j hj => by
        have := hall (j + 1) (by omega)
        rw [← this]
        congr 1
        omega)
      omega

theorem acceptedRun_congr (ok1 ok2 : Nat → Bool) : ∀ k Slot,
    (∀ j, j ≤ acceptedRun ok1 k Slot → ok2 (Slot + j) = ok1 (Slot + j)) →
    acceptedRun ok2 k Slot = acceptedRun ok1 k Slot := by
  intro k
  induction k with
  | zero => intro Slot _; rfl
  | succ k ih =>
    intro Slot hag
    have h0 : ok2 Slot = ok1 Slot := hag 0 (Nat.zero_le _)
    simp only [acceptedRun] at hag ⊢
    rw [h0]
    by_cases hok : ok1 Slot = true
    · simp only [hok, if_true] at hag ⊢
      rw [ih (Slot + 1) (fun j hj => by
        have := hag (j + 1) (by omega)
        have e : Slot + (j + 1) = Slot + 1 + j := by omega
        rw [e] at this
        exact this)]
    · simp only [hok, Bool.false_eq_true, if_false]

theorem slotOfEntry_eq (u : Indeterminate) (MAP : CConfig) (Slot : Nat) :
    slotOfEntry u MAP Slot = CGameSlot.ofSlotData (slotEntryNumbers u MAP Slot) := rfl

/-- The slot loop yields the slots of the longest run of accepted entries
starting at `Slot`, each built from the numbers of its entry. -/
theorem readSlots_run (u : Indeterminate) (MAP : CConfig) : ∀ (k Slot : Nat)
    (acc : List CGameSlot),
    CMap.readSlots u MAP k Slot acc = acc ++
      (List.range (acceptedRun (slotEntryAccepted u MAP) k Slot)).map
        (fun i => slotOfEntry u MAP (Slot + i)) := by
  intro k
  induction k with
  | zero => intro Slot acc; simp [CMap.readSlots, acceptedRun]
  | succ k ih =>
    intro Slot acc
    have hs : (MAP.GetString (slotKey Slot) []).1
        = (map_find MAP.m_CFG (slotKey Slot)).getD [] := GetString_fst MAP _ _
    unfold CMap.readSlots acceptedRun
    simp only [hs]
    cases hf : map_find MAP.m_CFG (slotKey Slot) with
    | none =>
      have hacc : slotEntryAccepted u MAP Slot = false := by
        simp [slotEntryAccepted, hf]
      simp [hacc]
    | some v =>
      simp only [Option.getD_some]
      by_cases hv : v = []
      · have hacc : slotEntryAccepted u MAP Slot = false := by
          simp [slotEntryAccepted, hf, hv]
        simp [hacc, hv]
      · by_cases hr : (ExtractNumbers 8 9 v (u.c Slot)
            ((List.range 9).map (u.SlotData Slot))).1 = true
        · have hacc : slotEntryAccepted u MAP Slot = true := by
            simp [slotEntryAccepted, hf, hv, hr]
          have hslot : slotOfEntry u MAP Slot = CGameSlot.ofSlotData
              (ExtractNumbers 8 9 v (u.c Slot) ((List.range 9).map (u.SlotData Slot))).2 := by
            rw [slotOfEntry_eq]
            unfold slotEntryNumbers
            rw [hf]
            rfl
          have hrange := List.range_succ_eq_map
            (acceptedRun (slotEntryAccepted u MAP) k (Slot + 1))
          simp only [hv, hr, hacc, if_false, if_true, not_true_eq_false, ih]
          rw [hrange, List.map_cons, List.map_map, ← hslot]
          simp only [List.append_assoc, List.singleton_append, Nat.add_zero]
          congr 2
          apply List.map_congr_left
          intro i _
          simp only [Function.comp]
          congr 1
          omega
        · have hacc : slotEntryAccepted u MAP Slot = false := by
            simp [slotEntryAccepted, hf, hr]
          simp [hacc, hv, hr]

/-- C20: the `map_slot` entries are read as a gap-free prefix. Let `k` be the
length of the longest run `map_slot1, map_slot2, ...` of at most 12 entries
that are each present, not empty and accepted by `ExtractNumbers` as 9
numbers: `k` is the largest number up to 12 with all of `map_slot1 ..
map_slotk` accepted. The slot loop yields exactly `k` slots, slot `i` built
from the 9 numbers of `map_slot(i+1)` in the order pid, download status,
status, computer, team, colour, race, computer type, handicap. After
`CMap::Load` on a configuration whose `map_sha1` parses, the player count is
`k` and the first `k` slots are these, up to the team and race that `Load`
may rewrite. Entries after `map_slot(k+1)` are ignored: a configuration that
agrees on `map_slot1 .. map_slot(k+1)` yields the same slots. -/
theorem C20_slot_entries (h : Header) (u : Indeterminate) (self : CMap) (MapPath : Str)
    (MAP : CConfig) :
    acceptedRun (slotEntryAccepted u MAP) 12 1 ≤ 12 ∧
    (∀ j, 1 ≤ j → j ≤ acceptedRun (slotEntryAccepted u MAP) 12 1 →
      slotEntryAccepted u MAP j = true) ∧
    (∀ n, n ≤ 12 → (∀ j, 1 ≤ j → j ≤ n → slotEntryAccepted u MAP j = true) →
      n ≤ acceptedRun (slotEntryAccepted u MAP) 12 1) ∧
    CMap.readSlots u MAP 12 1 [] =
      (List.range (acceptedRun (slotEntryAccepted u MAP) 12 1)).map
        (fun i => slotOfEntry u MAP (i + 1)) ∧
    (sha1Parses u self MAP = true →
      (CMap.Load h u self MapPath MAP).m_MapNumPlayers
        = acceptedRun (slotEntryAccepted u MAP) 12 1 ∧
      ((CMap.Load h u self MapPath MAP).m_Slots.take
          (acceptedRun (slotEntryAccepted u MAP) 12 1)).map CGameSlot.configured
        = ((List.range (acceptedRun (slotEntryAccepted u MAP) 12 1)).map
            (fun i => slotOfEntry u MAP (i + 1))).map CGameSlot.configured) ∧
    (∀ MAP2 : CConfig,
      (∀ j, 1 ≤ j → j ≤ acceptedRun (slotEntryAccepted u MAP) 12 1 + 1 →
        map_find MAP2.m_CFG (slotKey j) = map_find MAP.m_CFG (slotKey j)) →
      CMap.readSlots u MAP2 12 1 [] = CMap.readSlots u MAP 12 1 []) := by
  have hread : ∀ M : CConfig, CMap.readSlots u M 12 1 [] =
      (List.range (acceptedRun (slotEntryAccepted u M) 12 1)).map
        (fun i => slotOfEntry u M (i + 1)) := by
    intro M
    rw [readSlots_run u M 12 1 [], List.nil_append]
    apply List.map_congr_left
    intro i _
    rw [Nat.add_comm]
  have hlenread : (CMap.readSlots u MAP 12 1 []).length
      = acceptedRun (slotEntryAccepted u MAP) 12 1 := by
    rw [hread MAP, List.length_map, List.length_range]
  refine ⟨acceptedRun_le _ 12 1, ?_, ?_, hread MAP, ?_, ?_⟩
  · intro j h1 hj
    have := acceptedRun_ok (slotEntryAccepted u MAP) 12 1 (j - 1) (by omega)
    have e : 1 + (j - 1) = j := by omega
    rw [e] at this
    exact this
  · intro n hn hall
    apply acceptedRun_max _ 12 1 n hn
    intro j hj
    exact hall (1 + j) (by omega) (by omega)
  · intro hsha
    obtain ⟨front, hlen, hconf, hnum, hmelee, hplain⟩ :=
      Load_slots_shape h u self MapPath MAP hsha
    refine ⟨by rw [hnum, hlenread], ?_⟩
    rw [← hread MAP, ← hlenread, ← hconf, ← hlen]
    by_cases hm : toUInt32 (MAP.GetInt "map_options".toList 0).1 &&& h.MAPOPT_MELEE ≠ 0
    · rw [(hmelee hm).2, List.take_left]
    · rw [(hplain hm).2, List.take_length]
  · intro MAP2 hag
    have hokeq : ∀ j, j ≤ acceptedRun (slotEntryAccepted u MAP) 12 1 →
        slotEntryAccepted u MAP2 (1 + j) = slotEntryAccepted u MAP (1 + j) := by
      intro j hj
      unfold slotEntryAccepted
      rw [hag (1 + j) (by omega) (by omega)]
    have hrun := acceptedRun_congr (slotEntryAccepted u MAP) (slotEntryAccepted u MAP2) 12 1
      hokeq
    rw [hread MAP2, hread MAP, hrun]
    apply List.map_congr_left
    intro i hi
    have hi2 : i < acceptedRun (slotEntryAccepted u MAP) 12 1 := List.mem_range.mp hi
    unfold slotOfEntry slotEntryNumbers
    rw [hag (i + 1) (by omega) (by omega)]

/-! ### `CMap::Load`: teams -/

/-- The melee loop numbers the teams from its counter on, as long as the
counter stays a byte. -/
theorem meleeSlots_teams (h : Header) : ∀ (l : List CGameSlot) (Team : Nat),
    Team + l.length ≤ 256 →
    (CMap.meleeSlots h l Team).map (fun s => s.m_Team) = List.range' Team l.length := by
  intro l
  induction l with
  | nil => intro Team _; rfl
  | cons s rest ih =>
    intro Team hT
    cases rest with
    | nil => simp [CMap.meleeSlots, CGameSlot.SetTeam, CGameSlot.SetRace, List.range']
    | cons s1 rest1 =>
      simp only [List.length_cons] at hT
      have hmod : (Team + 1) % 256 = Team + 1 := Nat.mod_eq_of_lt (by omega)
      have := ih (Team + 1) (by simp only [List.length_cons]; omega)
      rw [CMap.meleeSlots, hmod, List.map_cons, this]
      simp [CGameSlot.SetTeam, CGameSlot.SetRace, List.range']

theorem map_SetRace_teams (f : CGameSlot → Nat) (l : List CGameSlot) :
    (l.map (fun s => s.SetRace (f s))).map (fun s => s.m_Team) = l.map (fun s => s.m_Team) := by
  induction l with
  | nil => rfl
  | cons s l ih =>
    simp only [List.map_cons, ih]
    rfl

/-- The teams of the slots in front of the observer slots after `CMap::Load`,
when `map_sha1` parses: 0, 1, 2, ... on a melee map, and the teams read from
the configuration otherwise. -/
theorem Load_front_teams (h : Header) (u : Indeterminate) (self : CMap) (MapPath : Str)
    (MAP : CConfig) (hsha : sha1Parses u self MAP = true) :
    (toUInt32 (MAP.GetInt "map_options".toList 0).1 &&& h.MAPOPT_MELEE ≠ 0 →
      ((CMap.Load h u self MapPath MAP).m_Slots.take
          (CMap.readSlots u MAP 12 1 []).length).map (fun s => s.m_Team)
        = List.range (CMap.readSlots u MAP 12 1 []).length) ∧
    (¬ (toUInt32 (MAP.GetInt "map_options".toList 0).1 &&& h.MAPOPT_MELEE ≠ 0) →
      (CMap.Load h u self MapPath MAP).m_Slots.map (fun s => s.m_Team)
        = (CMap.readSlots u MAP 12 1 []).map (fun s => s.m_Team)) := by
  obtain ⟨_, _, hslots⟩ := Load_fields h u self MapPath MAP hsha
  have hle := readSlots_length_le u MAP
  generalize toUInt32 (MAP.GetInt "map_options".toList 0).1 = opts at *
  generalize CMap.readSlots u MAP 12 1 [] = parsed at *
  -- the slots after the melee block
  obtain ⟨s1, hs1⟩ : ∃ s1 : List CGameSlot,
      s1 = (if opts &&& h.MAPOPT_MELEE ≠ 0 then CMap.meleeSlots h parsed 0 else parsed) :=
    ⟨_, rfl⟩
  rw [← hs1] at hslots
  -- the slots after the race may have been made selectable
  obtain ⟨s2, hs2, hs2len, hs2team⟩ : ∃ s2 : List CGameSlot,
      s2 = (if ¬ (opts &&& h.MAPOPT_FIXEDPLAYERSETTINGS ≠ 0)
        then s1.map (fun Slot => Slot.SetRace (Slot.GetRace ||| h.SLOTRACE_SELECTABLE))
        else s1) ∧
      s2.length = s1.length ∧
      s2.map (fun s => s.m_Team) = s1.map (fun s => s.m_Team) := by
    refine ⟨_, rfl, ?_, ?_⟩
    · split_ifs
      · rfl
      · rw [List.length_map]
    · split_ifs
      · rfl
      · exact map_SetRace_teams (fun s => s.GetRace ||| h.SLOTRACE_SELECTABLE) s1
  simp only [] at hslots
  rw [← hs2] at hslots
  -- the slots after the random-races block
  obtain ⟨s3, hs3, hs3len, hs3team⟩ : ∃ s3 : List CGameSlot,
      s3 = (if (h.MAPFLAG_TEAMSTOGETHER ||| h.MAPFLAG_FIXEDTEAMS) &&& h.MAPFLAG_RANDOMRACES ≠ 0
        then s2.map (fun slot => slot.SetRace h.SLOTRACE_RANDOM) else s2) ∧
      s3.length = s1.length ∧
      s3.map (fun s => s.m_Team) = s1.map (fun s => s.m_Team) := by
    refine ⟨_, rfl, ?_, ?_⟩
    · split_ifs
      · rw [List.length_map]; exact hs2len
      · exact hs2len
    · split_ifs
      · rw [map_SetRace_teams (fun _ => h.SLOTRACE_RANDOM)]
        exact hs2team
      · exact hs2team
  rw [← hs3] at hslots
  refine ⟨?_, ?_⟩
  · intro hm
    rw [if_pos hm] at hs1 hslots
    have hl1 : s1.length = parsed.length := by
      rw [hs1]; exact (meleeSlots_spec h parsed 0).1
    rw [hslots, addObserverSlots_spec h 12 s3 (by omega)]
    have e : parsed.length = s3.length := by omega
    rw [e, List.take_left, hs3team, hs1, meleeSlots_teams h parsed 0 (by omega),
      List.range_eq_range', ← e]
  · intro hm
    rw [if_neg hm] at hs1 hslots
    rw [hslots, hs3team, hs1]

/-- C11, refuted as stated: a configuration whose single slot is written with
team 12 loads, under the constants of the original headers, into a map with
one player and no slot whose team differs from 12. -/
theorem C11_team_twelve_counterexample :
    sha1Parses someIndeterminate someCMap observerTeamConfig = true ∧
    (CMap.Load ghostHeader someIndeterminate someCMap "m.w3x".toList
      observerTeamConfig).m_MapNumPlayers = 1 ∧
    ((CMap.Load ghostHeader someIndeterminate someCMap "m.w3x".toList
      observerTeamConfig).m_Slots.filter (fun s => decide (s.m_Team ≠ 12))).length = 0 := by
  decide

/-- C11, amended: when `map_sha1` parses, the player count after `CMap::Load`
is the number of `map_slot` entries read, that is the number of slots in front
of the appended observer slots. It is the number of slots of the final list
whose team is not 12 whenever none of these front slots has team 12, which is
the case on every melee map. -/
theorem C11_num_players (h : Header) (u : Indeterminate) (self : CMap) (MapPath : Str)
    (MAP : CConfig) (hsha : sha1Parses u self MAP = true) :
    (CMap.Load h u self MapPath MAP).m_MapNumPlayers = (CMap.readSlots u MAP 12 1 []).length ∧
    (CMap.Load h u self MapPath MAP).m_Slots.drop (CMap.Load h u self MapPath MAP).m_MapNumPlayers
      = List.replicate ((CMap.Load h u self MapPath MAP).m_Slots.length
          - (CMap.Load h u self MapPath MAP).m_MapNumPlayers) (observerSlot h) ∧
    ((∀ s ∈ (CMap.Load h u self MapPath MAP).m_Slots.take
        (CMap.Load h u self MapPath MAP).m_MapNumPlayers, s.m_Team ≠ 12) →
      (CMap.Load h u self MapPath MAP).m_MapNumPlayers
        = ((CMap.Load h u self MapPath MAP).m_Slots.filter
            (fun s => decide (s.m_Team ≠ 12))).length) ∧
    (toUInt32 (MAP.GetInt "map_options".toList 0).1 &&& h.MAPOPT_MELEE ≠ 0 →
      (CMap.Load h u self MapPath MAP).m_MapNumPlayers
        = ((CMap.Load h u self MapPath MAP).m_Slots.filter
            (fun s => decide (s.m_Team ≠ 12))).length) := by
  obtain ⟨front, hlen, _, hnum, hmelee, hplain⟩ := Load_slots_shape h u self MapPath MAP hsha
  obtain ⟨hteams, _⟩ := Load_front_teams h u self MapPath MAP hsha
  have hle := readSlots_length_le u MAP
  -- the final list is the front slots followed by observer slots
  obtain ⟨t, hshape⟩ : ∃ t, (CMap.Load h u self MapPath MAP).m_Slots
      = front ++ List.replicate t (observerSlot h) := by
    by_cases hm : toUInt32 (MAP.GetInt "map_options".toList 0).1 &&& h.MAPOPT_MELEE ≠ 0
    · exact ⟨_, (hmelee hm).2⟩
    · exact ⟨0, by rw [(hplain hm).2]; simp⟩
  have htake : (CMap.Load h u self MapPath MAP).m_Slots.take
      (CMap.Load h u self MapPath MAP).m_MapNumPlayers = front := by
    rw [hshape, hnum, ← hlen, List.take_left]
  have hdrop : (CMap.Load h u self MapPath MAP).m_Slots.drop
      (CMap.Load h u self MapPath MAP).m_MapNumPlayers
      = List.replicate t (observerSlot h) := by
    rw [hshape, hnum, ← hlen, List.drop_left]
  have hcount : (∀ s ∈ front, s.m_Team ≠ 12) →
      (CMap.Load h u self MapPath MAP).m_MapNumPlayers
        = ((CMap.Load h u self MapPath MAP).m_Slots.filter
            (fun s => decide (s.m_Team ≠ 12))).length := by
    intro hall
    have hf1 : front.filter (fun s => decide (s.m_Team ≠ 12)) = front :=
      List.filter_eq_self.mpr (fun s hs => by simpa using hall s hs)
    have hf2 : (List.replicate t (observerSlot h)).filter (fun s => decide (s.m_Team ≠ 12))
        = [] := by
      apply List.filter_eq_nil_iff.mpr
      intro s hs
      rw [(List.mem_replicate.mp hs).2]
      simp [observerSlot]
    rw [hshape, List.filter_append, hf1, hf2, List.append_nil, hnum, hlen]
  refine ⟨hnum, ?_, ?_, ?_⟩
  · rw [hdrop, hshape, hnum, ← hlen]
    simp
  · intro hall
    rw [htake] at hall
    exact hcount hall
  · intro hm
    apply hcount
    intro s hs
    have hmem : s.m_Team ∈ front.map (fun s => s.m_Team) := List.mem_map_of_mem _ hs
    have := hteams hm
    rw [← hnum, htake] at this
    rw [this, List.mem_range] at hmem
    omega

/-- C11 amended, on a melee map with two configured slots: two players, and two
slots of the twelve whose team is not 12. -/
theorem C11_num_players_witness :
    sha1Parses someIndeterminate someCMap meleeConfig = true ∧
    (CMap.Load ghostHeader someIndeterminate someCMap "m.w3x".toList
      meleeConfig).m_MapNumPlayers
      = ((CMap.Load ghostHeader someIndeterminate someCMap "m.w3x".toList
          meleeConfig).m_Slots.filter (fun s => decide (s.m_Team ≠ 12))).length :=
  ⟨by decide,
    (C11_num_players ghostHeader someIndeterminate someCMap "m.w3x".toList meleeConfig
      (by decide)).2.2.2 (by decide)⟩

/-! ### Recovering the settings from the game-flag mask -/

theorem GetMapGameFlags_or (h : Header) (self : CMap) :
    self.GetMapGameFlags h =
      specGameFlags h self.m_MapSpeed self.m_MapVisibility self.m_MapObservers
        self.m_MapFlags := by
  have flag : ∀ g p b : Nat,
      (if p ≠ 0 then g ||| b else g) = g ||| (if p = 0 then 0 else b) := by
    intro g p b
    by_cases hp : p = 0 <;> simp [hp]
  unfold CMap.GetMapGameFlags specGameFlags specFlagBits
  simp only [flag]
  cases self.m_MapSpeed <;> cases self.m_MapVisibility <;> cases self.m_MapObservers <;>
    simp [specSpeedBits, specVisibilityBits, specObserverBits]

theorem or8_and (m a b c d1 d2 d3 d4 d5 : Nat) :
    (a ||| b ||| c ||| d1 ||| d2 ||| d3 ||| d4 ||| d5) &&& m =
      (a &&& m) ||| (b &&& m) ||| (c &&& m) ||| (d1 &&& m) ||| (d2 &&& m) |||
        (d3 &&& m) ||| (d4 &&& m) ||| (d5 &&& m) := by
  simp only [Nat.and_distrib_right]

theorem specFlagBits_and_other (flags flag bits m : Nat) (hm : bits &&& m = 0) :
    specFlagBits flags flag bits &&& m = 0 := by
  unfold specFlagBits
  split
  · exact Nat.zero_and m
  · exact hm

theorem specFlagBits_and_own (flags flag bits m : Nat) (hm : bits &&& m = bits) :
    specFlagBits flags flag bits &&& m = specFlagBits flags flag bits := by
  unfold specFlagBits
  split
  · exact Nat.zero_and m
  · exact hm

theorem specGameFlags_speed (h : Header) (speed : MAPSPEED) (vis : MAPVIS) (obs : MAPOBS)
    (flags : Nat) :
    specGameFlags h speed vis obs flags &&& 0x3 = specSpeedBits speed := by
  have hs : specSpeedBits speed &&& 0x3 = specSpeedBits speed := by cases speed <;> rfl
  have hv : specVisibilityBits vis &&& 0x3 = 0 := by cases vis <;> rfl
  have ho : specObserverBits obs &&& 0x3 = 0 := by cases obs <;> rfl
  unfold specGameFlags
  rw [or8_and, hs, hv, ho, specFlagBits_and_other _ _ _ _ (by rfl),
    specFlagBits_and_other _ _ _ _ (by rfl), specFlagBits_and_other _ _ _ _ (by rfl),
    specFlagBits_and_other _ _ _ _ (by rfl), specFlagBits_and_other _ _ _ _ (by rfl)]
  simp

theorem specGameFlags_visibility (h : Header) (speed : MAPSPEED) (vis : MAPVIS)
    (obs : MAPOBS) (flags : Nat) :
    specGameFlags h speed vis obs flags &&& 0xF00 = specVisibilityBits vis := by
  have hs : specSpeedBits speed &&& 0xF00 = 0 := by cases speed <;> rfl
  have hv : specVisibilityBits vis &&& 0xF00 = specVisibilityBits vis := by cases vis <;> rfl
  have ho : specObserverBits obs &&& 0xF00 = 0 := by cases obs <;> rfl
  unfold specGameFlags
  rw [or8_and, hs, hv, ho, specFlagBits_and_other _ _ _ _ (by rfl),
    specFlagBits_and_other _ _ _ _ (by rfl), specFlagBits_and_other _ _ _ _ (by rfl),
    specFlagBits_and_other _ _ _ _ (by rfl), specFlagBits_and_other _ _ _ _ (by rfl)]
  simp

theorem specGameFlags_observers (h : Header) (speed : MAPSPEED) (vis : MAPVIS)
    (obs : MAPOBS) (flags : Nat) :
    specGameFlags h speed vis obs flags &&& 0x40003000 = specObserverBits obs := by
  have hs : specSpeedBits speed &&& 0x40003000 = 0 := by cases speed <;> rfl
  have hv : specVisibilityBits vis &&& 0x40003000 = 0 := by cases vis <;> rfl
  have ho : specObserverBits obs &&& 0x40003000 = specObserverBits obs := by
    cases obs <;> rfl
  unfold specGameFlags
  rw [or8_and, hs, hv, ho, specFlagBits_and_other _ _ _ _ (by rfl),
    specFlagBits_and_other _ _ _ _ (by rfl), specFlagBits_and_other _ _ _ _ (by rfl),
    specFlagBits_and_other _ _ _ _ (by rfl), specFlagBits_and_other _ _ _ _ (by rfl)]
  simp

theorem specGameFlags_teamsTogether (h : Header) (speed : MAPSPEED) (vis : MAPVIS)
    (obs : MAPOBS) (flags : Nat) :
    specGameFlags h speed vis obs flags &&& 0x4000 =
      specFlagBits flags h.MAPFLAG_TEAMSTOGETHER 0x4000 := by
  have hs : specSpeedBits speed &&& 0x4000 = 0 := by cases speed <;> rfl
  have hv : specVisibilityBits vis &&& 0x4000 = 0 := by cases vis <;> rfl
  have ho : specObserverBits obs &&& 0x4000 = 0 := by cases obs <;> rfl
  unfold specGameFlags
  rw [or8_and, hs, hv, ho, specFlagBits_and_own _ _ _ _ (by rfl),
    specFlagBits_and_other _ _ _ _ (by rfl), specFlagBits_and_other _ _ _ _ (by rfl),
    specFlagBits_and_other _ _ _ _ (by rfl), specFlagBits_and_other _ _ _ _ (by rfl)]
  simp

theorem specGameFlags_fixedTeams (h : Header) (speed : MAPSPEED) (vis : MAPVIS)
    (obs : MAPOBS) (flags : Nat) :
    specGameFlags h speed vis obs flags &&& 0x60000 =
      specFlagBits flags h.MAPFLAG_FIXEDTEAMS 0x60000 := by
  have hs : specSpeedBits speed &&& 0x60000 = 0 := by cases speed <;> rfl
  have hv : specVisibilityBits vis &&& 0x60000 = 0 := by cases vis <;> rfl
  have ho : specObserverBits obs &&& 0x60000 = 0 := by cases obs <;> rfl
  unfold specGameFlags
  rw [or8_and, hs, hv, ho, specFlagBits_and_other _ _ _ _ (by rfl),
    specFlagBits_and_own _ _ _ _ (by rfl), specFlagBits_and_other _ _ _ _ (by rfl),
    specFlagBits_and_other _ _ _ _ (by rfl), specFlagBits_and_other _ _ _ _ (by rfl)]
  simp

theorem specGameFlags_unitShare (h : Header) (speed : MAPSPEED) (vis : MAPVIS)
    (obs : MAPOBS) (flags : Nat) :
    specGameFlags h speed vis obs flags &&& 0x1000000 =
      specFlagBits flags h.MAPFLAG_UNITSHARE 0x1000000 := by
  have hs : specSpeedBits speed &&& 0x1000000 = 0 := by cases speed <;> rfl
  have hv : specVisibilityBits vis &&& 0x1000000 = 0 := by cases vis <;> rfl
  have ho : specObserverBits obs &&& 0x1000000 = 0 := by cases obs <;> rfl
  unfold specGameFlags
  rw [or8_and, hs, hv, ho, specFlagBits_and_other _ _ _ _ (by rfl),
    specFlagBits_and_other _ _ _ _ (by rfl), specFlagBits_and_own _ _ _ _ (by rfl),
    specFlagBits_and_other _ _ _ _ (by rfl), specFlagBits_and_other _ _ _ _ (by rfl)]
  simp

theorem specGameFlags_randomHero (h : Header) (speed : MAPSPEED) (vis : MAPVIS)
    (obs : MAPOBS) (flags : Nat) :
    specGameFlags h speed vis obs flags &&& 0x2000000 =
      specFlagBits flags h.MAPFLAG_RANDOMHERO 0x2000000 := by
  have hs : specSpeedBits speed &&& 0x2000000 = 0 := by cases speed <;> rfl
  have hv : specVisibilityBits vis &&& 0x2000000 = 0 := by cases vis <;> rfl
  have ho : specObserverBits obs &&& 0x2000000 = 0 := by cases obs <;> rfl
  unfold specGameFlags
  rw [or8_and, hs, hv, ho, specFlagBits_and_other _ _ _ _ (by rfl),
    specFlagBits_and_other _ _ _ _ (by rfl), specFlagBits_and_other _ _ _ _ (by rfl),
    specFlagBits_and_own _ _ _ _ (by rfl), specFlagBits_and_other _ _ _ _ (by rfl)]
  simp

theorem specGameFlags_randomRaces (h : Header) (speed : MAPSPEED) (vis : MAPVIS)
    (obs : MAPOBS) (flags : Nat) :
    specGameFlags h speed vis obs flags &&& 0x4000000 =
      specFlagBits flags h.MAPFLAG_RANDOMRACES 0x4000000 := by
  have hs : specSpeedBits speed &&& 0x4000000 = 0 := by cases speed <;> rfl
  have hv : specVisibilityBits vis &&& 0x4000000 = 0 := by cases vis <;> rfl
  have ho : specObserverBits obs &&& 0x4000000 = 0 := by cases obs <;> rfl
  unfold specGameFlags
  rw [or8_and, hs, hv, ho, specFlagBits_and_other _ _ _ _ (by rfl),
    specFlagBits_and_other _ _ _ _ (by rfl), specFlagBits_and_other _ _ _ _ (by rfl),
    specFlagBits_and_other _ _ _ _ (by rfl), specFlagBits_and_own _ _ _ _ (by rfl)]
  simp

theorem specSpeedBits_injective (a b : MAPSPEED) (hab : specSpeedBits a = specSpeedBits b) :
    a = b := by
  cases a <;> cases b <;> first | rfl | exact absurd hab (by decide)

theorem specVisibilityBits_injective (a b : MAPVIS)
    (hab : specVisibilityBits a = specVisibilityBits b) : a = b := by
  cases a <;> cases b <;> first | rfl | exact absurd hab (by decide)

theorem specObserverBits_injective (a b : MAPOBS)
    (hab : specObserverBits a = specObserverBits b) : a = b := by
  cases a <;> cases b <;> first | rfl | exact absurd hab (by decide)

theorem specFlagBits_test (f1 f2 flag bits : Nat) (hbits : bits ≠ 0)
    (hab : specFlagBits f1 flag bits = specFlagBits f2 flag bits) :
    (f1 &&& flag ≠ 0 ↔ f2 &&& flag ≠ 0) := by
  unfold specFlagBits at hab
  by_cases h1 : f1 &&& flag = 0 <;> by_cases h2 : f2 &&& flag = 0
  · simp [h1, h2]
  · rw [if_pos h1, if_neg h2] at hab
    exact absurd hab.symm hbits
  · rw [if_neg h1, if_pos h2] at hab
    exact absurd hab hbits
  · simp [h1, h2]

/-- C22: `CMap::GetMapGameFlags` is injective on the settings: two maps whose
game-flag values are equal have the same speed, the same visibility, the same
observer setting and agree on each of the five boolean settings (teams
together, fixed teams, unit share, random hero, random races), the booleans
being the mask tests the method makes on the map flags. -/
theorem C22_game_flags_injective (h : Header) (self1 self2 : CMap)
    (heq : self1.GetMapGameFlags h = self2.GetMapGameFlags h) :
    self1.m_MapSpeed = self2.m_MapSpeed ∧
    self1.m_MapVisibility = self2.m_MapVisibility ∧
    self1.m_MapObservers = self2.m_MapObservers ∧
    (self1.m_MapFlags &&& h.MAPFLAG_TEAMSTOGETHER ≠ 0 ↔
      self2.m_MapFlags &&& h.MAPFLAG_TEAMSTOGETHER ≠ 0) ∧
    (self1.m_MapFlags &&& h.MAPFLAG_FIXEDTEAMS ≠ 0 ↔
      self2.m_MapFlags &&& h.MAPFLAG_FIXEDTEAMS ≠ 0) ∧
    (self1.m_MapFlags &&& h.MAPFLAG_UNITSHARE ≠ 0 ↔
      self2.m_MapFlags &&& h.MAPFLAG_UNITSHARE ≠ 0) ∧
    (self1.m_MapFlags &&& h.MAPFLAG_RANDOMHERO ≠ 0 ↔
      self2.m_MapFlags &&& h.MAPFLAG_RANDOMHERO ≠ 0) ∧
    (self1.m_MapFlags &&& h.MAPFLAG_RANDOMRACES ≠ 0 ↔
      self2.m_MapFlags &&& h.MAPFLAG_RANDOMRACES ≠ 0) := by
  rw [GetMapGameFlags_or, GetMapGameFlags_or] at heq
  refine ⟨?_, ?_, ?_, ?_, ?_, ?_, ?_, ?_⟩
  · apply specSpeedBits_injective
    rw [← specGameFlags_speed h _ self1.m_MapVisibility self1.m_MapObservers
      self1.m_MapFlags, heq, specGameFlags_speed]
  · apply specVisibilityBits_injective
    rw [← specGameFlags_visibility h self1.m_MapSpeed _ self1.m_MapObservers
      self1.m_MapFlags, heq, specGameFlags_visibility]
  · apply specObserverBits_injective
    rw [← specGameFlags_observers h self1.m_MapSpeed self1.m_MapVisibility _
      self1.m_MapFlags, heq, specGameFlags_observers]
  · apply specFlagBits_test _ _ _ 0x4000 (by decide)
    rw [← specGameFlags_teamsTogether h self1.m_MapSpeed self1.m_MapVisibility
      self1.m_MapObservers, heq, specGameFlags_teamsTogether]
  · apply specFlagBits_test _ _ _ 0x60000 (by decide)
    rw [← specGameFlags_fixedTeams h self1.m_MapSpeed self1.m_MapVisibility
      self1.m_MapObservers, heq, specGameFlags_fixedTeams]
  · apply specFlagBits_test _ _ _ 0x1000000 (by decide)
    rw [← specGameFlags_unitShare h self1.m_MapSpeed self1.m_MapVisibility
      self1.m_MapObservers, heq, specGameFlags_unitShare]
  · apply specFlagBits_test _ _ _ 0x2000000 (by decide)
    rw [← specGameFlags_randomHero h self1.m_MapSpeed self1.m_MapVisibility
      self1.m_MapObservers, heq, specGameFlags_randomHero]
  · apply specFlagBits_test _ _ _ 0x4000000 (by decide)
    rw [← specGameFlags_randomRaces h self1.m_MapSpeed self1.m_MapVisibility
      self1.m_MapObservers, heq, specGameFlags_randomRaces]

/-- C22 on two maps whose map flags differ in a bit that no mask tests, under
the constants of the original headers. -/
theorem C22_game_flags_injective_witness :
    flagsMapA.GetMapGameFlags ghostHeader = flagsMapB.GetMapGameFlags ghostHeader ∧
    flagsMapA.m_MapFlags ≠ flagsMapB.m_MapFlags ∧
    flagsMapA.m_MapSpeed = flagsMapB.m_MapSpeed ∧
    (flagsMapA.m_MapFlags &&& ghostHeader.MAPFLAG_TEAMSTOGETHER ≠ 0 ↔
      flagsMapB.m_MapFlags &&& ghostHeader.MAPFLAG_TEAMSTOGETHER ≠ 0) :=
  ⟨by decide, by decide,
    (C22_game_flags_injective ghostHeader flagsMapA flagsMapB (by decide)).1,
    (C22_game_flags_injective ghostHeader flagsMapA flagsMapB (by decide)).2.2.2.1⟩

/-! ### `CMap::Load`: melee maps -/

/-- The melee loop leaves every slot with the random race. -/
theorem meleeSlots_race (h : Header) : ∀ (l : List CGameSlot) (Team : Nat),
    ∀ s ∈ CMap.meleeSlots h l Team, s.m_Race = h.SLOTRACE_RANDOM := by
  intro l
  induction l with
  | nil => intro Team s hs; simp [CMap.meleeSlots] at hs
  | cons s0 rest ih =>
    intro Team s hs
    rw [CMap.meleeSlots, List.mem_cons] at hs
    rcases hs with rfl | hs
    · rfl
    · exact ih _ s hs

/-- The slot vector after `CMap::Load` on a melee map, when `map_sha1` parses
and the random-races mask is no part of the flags that `Load` sets: the slots
read, renumbered 0, 1, 2, ... and with the race the two option blocks leave,
followed by observer slots up to twelve. -/
theorem Load_melee_slots (h : Header) (u : Indeterminate) (self : CMap) (MapPath : Str)
    (MAP : CConfig) (hsha : sha1Parses u self MAP = true)
    (hmelee : toUInt32 (MAP.GetInt "map_options".toList 0).1 &&& h.MAPOPT_MELEE ≠ 0)
    (hRR : (h.MAPFLAG_TEAMSTOGETHER ||| h.MAPFLAG_FIXEDTEAMS) &&& h.MAPFLAG_RANDOMRACES = 0) :
    ∃ front : List CGameSlot,
      (CMap.Load h u self MapPath MAP).m_Slots = front ++
        List.replicate (12 - (CMap.readSlots u MAP 12 1 []).length) (observerSlot h) ∧
      front.length = (CMap.readSlots u MAP 12 1 []).length ∧
      front.map (fun s => s.m_Team) = List.range (CMap.readSlots u MAP 12 1 []).length ∧
      ∀ s ∈ front, s.m_Race =
        (if toUInt32 (MAP.GetInt "map_options".toList 0).1 &&& h.MAPOPT_FIXEDPLAYERSETTINGS ≠ 0
          then h.SLOTRACE_RANDOM else h.SLOTRACE_RANDOM ||| h.SLOTRACE_SELECTABLE) := by
  obtain ⟨_, _, hslots⟩ := Load_fields h u self MapPath MAP hsha
  have hle := readSlots_length_le u MAP
  generalize toUInt32 (MAP.GetInt "map_options".toList 0).1 = opts at *
  generalize CMap.readSlots u MAP 12 1 [] = parsed at *
  simp only [if_pos hmelee] at hslots
  have hl1 := (meleeSlots_spec h parsed 0).1
  have ht1 := meleeSlots_teams h parsed 0 (by omega)
  have hr1 := meleeSlots_race h parsed 0
  generalize CMap.meleeSlots h parsed 0 = s1 at *
  -- the slots after the race may have been made selectable
  obtain ⟨s2, hs2, hs2len, hs2team, hs2race⟩ : ∃ s2 : List CGameSlot,
      s2 = (if ¬ (opts &&& h.MAPOPT_FIXEDPLAYERSETTINGS ≠ 0)
        then s1.map (fun Slot => Slot.SetRace (Slot.GetRace ||| h.SLOTRACE_SELECTABLE))
        else s1) ∧
      s2.length = parsed.length ∧
      s2.map (fun s => s.m_Team) = List.range parsed.length ∧
      ∀ s ∈ s2, s.m_Race = (if opts &&& h.MAPOPT_FIXEDPLAYERSETTINGS ≠ 0
          then h.SLOTRACE_RANDOM else h.SLOTRACE_RANDOM ||| h.SLOTRACE_SELECTABLE) := by
    refine ⟨_, rfl, ?_, ?_, ?_⟩
    · split_ifs
      · exact hl1
      · rw [List.length_map]; exact hl1
    · split_ifs
      · rw [ht1, List.range_eq_range']
      · rw [map_SetRace_teams (fun s => s.GetRace ||| h.SLOTRACE_SELECTABLE) s1, ht1,
          List.range_eq_range']
    · intro s hs
      by_cases hf : opts &&& h.MAPOPT_FIXEDPLAYERSETTINGS ≠ 0
      · rw [if_neg (not_not.mpr hf)] at hs
        rw [if_pos hf]
        exact hr1 s hs
      · rw [if_pos hf, List.mem_map] at hs
        obtain ⟨s0, hs0, rfl⟩ := hs
        rw [if_neg hf]
        show s0.GetRace ||| h.SLOTRACE_SELECTABLE = _
        rw [CGameSlot.GetRace, hr1 s0 hs0]
  rw [← hs2, if_neg (not_not.mpr hRR)] at hslots
  refine ⟨s2, ?_, hs2len, hs2team, hs2race⟩
  rw [hslots, addObserverSlots_spec h 12 s2 (by omega), hs2len]

/-- C21: on a map configuration which has the MELEE option set, under header
constants that are flags in the usual sense, `CMap::Load` normalises the
configured slots. When `map_sha1` parses, the slot at every index `i` below
`m_MapNumPlayers` exists, has team `i` (so these teams are below 12 and
pairwise distinct) and has the race RANDOM, with the SELECTABLE bit exactly
when FIXEDPLAYERSETTINGS is not set in `map_options`, whatever team and race
the configuration wrote; every slot from index `m_MapNumPlayers` on is the
observer slot, without the SELECTABLE bit. When `map_sha1` does not parse,
`CMap::Load` configures and appends no slot. -/
theorem C21_melee_normalisation (h : Header) (u : Indeterminate) (self : CMap)
    (MapPath : Str) (MAP : CConfig)
    (hmelee : toUInt32 (MAP.GetInt "map_options".toList 0).1 &&& h.MAPOPT_MELEE ≠ 0)
    (hmasks : h.MapFlagsDistinct) (hrace : h.SlotRaceFlags) :
    (sha1Parses u self MAP = true →
      (∀ i, i < (CMap.Load h u self MapPath MAP).m_MapNumPlayers →
        ∃ s, (CMap.Load h u self MapPath MAP).m_Slots[i]? = some s ∧
          s.m_Team = i ∧ i < 12 ∧
          s.m_Race =
            (if toUInt32 (MAP.GetInt "map_options".toList 0).1
                &&& h.MAPOPT_FIXEDPLAYERSETTINGS ≠ 0
              then h.SLOTRACE_RANDOM else h.SLOTRACE_RANDOM ||| h.SLOTRACE_SELECTABLE) ∧
          (s.m_Race &&& h.SLOTRACE_SELECTABLE ≠ 0 ↔
            ¬ (toUInt32 (MAP.GetInt "map_options".toList 0).1
                &&& h.MAPOPT_FIXEDPLAYERSETTINGS ≠ 0))) ∧
      (((CMap.Load h u self MapPath MAP).m_Slots.take
          (CMap.Load h u self MapPath MAP).m_MapNumPlayers).map (fun s => s.m_Team)).Nodup ∧
      (∀ i s, (CMap.Load h u self MapPath MAP).m_MapNumPlayers ≤ i →
        (CMap.Load h u self MapPath MAP).m_Slots[i]? = some s →
        s = observerSlot h ∧ s.m_Race &&& h.SLOTRACE_SELECTABLE = 0)) ∧
    (sha1Parses u self MAP = false →
      (CMap.Load h u self MapPath MAP).m_Slots = self.m_Slots) := by
  refine ⟨?_, ?_⟩
  · intro hsha
    obtain ⟨hnum, _, _⟩ := Load_fields h u self MapPath MAP hsha
    obtain ⟨front, hslots, hlen, hteams, hraces⟩ :=
      Load_melee_slots h u self MapPath MAP hsha hmelee (load_flags_tests h hmasks).2.2.2.2
    have hle := readSlots_length_le u MAP
    obtain ⟨hsel, hdisj⟩ := hrace
    rw [hnum, hslots]
    generalize toUInt32 (MAP.GetInt "map_options".toList 0).1 = opts at *
    generalize (CMap.readSlots u MAP 12 1 []).length = n at *
    refine ⟨?_, ?_, ?_⟩
    · intro i hi
      have hif : i < front.length := by omega
      refine ⟨front[i], ?_, ?_, by omega, hraces _ (List.getElem_mem hif), ?_⟩
      · rw [List.getElem?_append_left hif, List.getElem?_eq_getElem hif]
      · have e : (front.map (fun s => s.m_Team))[i]? = (List.range n)[i]? := by rw [hteams]
        rw [List.getElem?_map, List.getElem?_eq_getElem hif, List.getElem?_range hi] at e
        simpa using e
      · rw [hraces _ (List.getElem_mem hif)]
        by_cases hf : opts &&& h.MAPOPT_FIXEDPLAYERSETTINGS ≠ 0
        · rw [if_pos hf, hdisj]
          simp [hf]
        · rw [if_neg hf, Nat.and_distrib_right, hdisj, Nat.and_self, Nat.zero_or]
          simp [hf, hsel]
    · rw [← hlen, List.take_left, hteams]
      exact List.nodup_range n
    · intro i s hi hs
      rw [List.getElem?_append_right (by omega)] at hs
      have hmem : s ∈ List.replicate (12 - n) (observerSlot h) := List.getElem?_mem hs
      have hobs : s = observerSlot h := List.eq_of_mem_replicate hmem
      refine ⟨hobs, ?_⟩
      rw [hobs]
      exact hdisj
  · intro hsha
    unfold sha1Parses at hsha
    unfold CMap.Load
    simp only [hsha, Bool.false_eq_true, not_false_eq_true, if_true]

/-- C21 on a melee map whose two slots are written with the same team, under
the constants of the original headers: the second slot ends up with team 1 and
the selectable random race. -/
theorem C21_melee_normalisation_witness :
    sha1Parses someIndeterminate someCMap meleeSameTeamConfig = true ∧
    toUInt32 (meleeSameTeamConfig.GetInt "map_options".toList 0).1
      &&& ghostHeader.MAPOPT_MELEE ≠ 0 ∧
    ghostHeader.MapFlagsDistinct ∧ ghostHeader.SlotRaceFlags ∧
    ∃ s, (CMap.Load ghostHeader someIndeterminate someCMap "m.w3x".toList
        meleeSameTeamConfig).m_Slots[1]? = some s ∧ s.m_Team = 1 ∧ s.m_Race = 96 := by
  refine ⟨by decide, by decide, by unfold Header.MapFlagsDistinct; decide,
    by unfold Header.SlotRaceFlags; decide, ?_⟩
  obtain ⟨s, h1, h2, _, h4, _⟩ :=
    ((C21_melee_normalisation ghostHeader someIndeterminate someCMap "m.w3x".toList
      meleeSameTeamConfig (by decide)
      (by unfold Header.MapFlagsDistinct; decide)
      (by unfold Header.SlotRaceFlags; decide)).1 (by decide)).1 1 (by decide)
  exact ⟨s, h1, h2, by rw [h4]; decide⟩

/-! ### The entries that the configuration parser stores -/

theorem firstIndex_drop (p : Char → Bool) : ∀ (xs : Str) (i : Nat),
    firstIndex p xs = some i → ∃ c rest, xs.drop i = c :: rest ∧ p c = true := by
  intro xs
  induction xs with
  | nil => intro i h; simp [firstIndex] at h
  | cons a xs ih =>
    intro i h
    by_cases ha : p a = true
    · simp [firstIndex, ha] at h
      subst h
      exact ⟨a, xs, rfl, ha⟩
    · simp only [firstIndex, ha, if_false] at h
      cases hq : firstIndex p xs with
      | none => simp [hq] at h
      | some j =>
        simp [hq] at h
        subst h
        obtain ⟨c, rest, h1, h2⟩ := ih j hq
        exact ⟨c, rest, by simpa using h1, h2⟩

theorem firstIndex_none_all (p : Char → Bool) (xs : Str) (h : firstIndex p xs = none) :
    ∀ c ∈ xs, p c = false := by
  intro c hc
  cases hp : p c with
  | false => rfl
  | true =>
    obtain ⟨i, hi⟩ := firstIndex_isSome_of_mem p xs c hc hp
    rw [h] at hi
    cases hi

theorem map_assign_mem (m : List (Str × Str)) (key value : Str) :
    ∀ e ∈ map_assign m key value, e ∈ m ∨ e = (key, value) := by
  induction m with
  | nil =>
    intro e he
    simp only [map_assign, List.mem_singleton] at he
    exact Or.inr he
  | cons e0 m ih =>
    obtain ⟨k, v⟩ := e0
    intro e he
    by_cases hk : k = key
    · rw [map_assign, if_pos hk] at he
      rcases List.mem_cons.mp he with h | h
      · exact Or.inr (by rw [h, hk])
      · exact Or.inl (List.mem_cons_of_mem _ h)
    · rw [map_assign, if_neg hk] at he
      rcases List.mem_cons.mp he with h | h
      · exact Or.inl (h ▸ List.mem_cons_self _ _)
      · rcases ih e h with h | h
        · exact Or.inl (List.mem_cons_of_mem _ h)
        · exact Or.inr h

/-- The loop body on a line shorter than `2 ^ 64`: the map stays as it is, or
gains one assignment whose key and value have the stored form. -/
theorem processLine_stored (Line : Str) (m : List (Str × Str))
    (hlen : Line.length < 2 ^ 64) :
    ∃ Line1 m1, CConfig.processLine Line m = .ok (Line1, m1) ∧
      (m1 = m ∨ ∃ key value, m1 = map_assign m key value ∧ StoredKeyOK key ∧ ValueOK value) := by
  unfold CConfig.processLine
  by_cases h1 : Line = [] ∨ Line.head? = some '#' ∨ Line = ['\n']
  · exact ⟨_, _, by rw [if_pos h1], Or.inl rfl⟩
  · rw [if_neg h1]
    obtain ⟨s, hs⟩ : ∃ s : Str, s = (Line.filter (fun c => c ≠ '\r')).filter
        (fun c => c ≠ '\n') := ⟨_, rfl⟩
    simp only [← hs]
    have hsmem : ∀ c ∈ s, c ≠ '\r' ∧ c ≠ '\n' := by
      intro c hc
      rw [hs] at hc
      have g2 := List.of_mem_filter hc
      have g3 := List.of_mem_filter (List.mem_of_mem_filter hc)
      exact ⟨by simpa using g3, by simpa using g2⟩
    have hslen : s.length < 2 ^ 64 := by
      rw [hs]
      exact lt_of_le_of_lt
        ((List.length_filter_le _ _).trans (List.length_filter_le _ _)) hlen
    by_cases h2 : string_find s '=' 0 = npos
    · exact ⟨_, _, by rw [if_pos h2], Or.inl rfl⟩
    · rw [if_neg h2]
      by_cases h3 : string_find_first_not_of s ' ' (string_find s '=' 0 + 1) ≠ npos
      · rw [if_pos h3]
        -- the position of `=`
        obtain ⟨i, hi⟩ : ∃ i, firstIndex (fun c => decide (c = '=')) s = some i := by
          cases hq : firstIndex (fun c => decide (c = '=')) s with
          | none => simp [string_find, hq] at h2
          | some i => exact ⟨i, rfl⟩
        have hsplit : string_find s '=' 0 = i := by
          unfold string_find
          rw [List.drop_zero, hi]
          exact Nat.zero_add i
        -- the key start
        obtain ⟨ce, hce, hpe⟩ := firstIndex_some_mem _ s i hi
        have hce2 : ce = '=' := by simpa using hpe
        obtain ⟨j, hj⟩ := firstIndex_isSome_of_mem (fun c => decide (c ≠ ' ')) s ce hce
          (by rw [hce2]; decide)
        have hjlt := (firstIndex_lt _ s j hj).1
        have hks : string_find_first_not_of s ' ' 0 = j := by
          unfold string_find_first_not_of
          rw [List.drop_zero, hj]
          exact Nat.zero_add j
        obtain ⟨cj, restj, hdropj, hcj⟩ := firstIndex_drop _ s j hj
        have hcj2 : cj ≠ ' ' := by simpa using hcj
        -- the value start
        rw [hsplit] at h3
        obtain ⟨i3, hi3⟩ : ∃ i3,
            firstIndex (fun c => decide (c ≠ ' ')) (s.drop (i + 1)) = some i3 := by
          cases hq : firstIndex (fun c => decide (c ≠ ' ')) (s.drop (i + 1)) with
          | none =>
            unfold string_find_first_not_of at h3
            rw [hq] at h3
            exact absurd rfl h3
          | some i3 => exact ⟨i3, rfl⟩
        have hvs : string_find_first_not_of s ' ' (i + 1) = i + 1 + i3 := by
          unfold string_find_first_not_of
          rw [hi3]
        obtain ⟨c3, rest3, hdrop3, hc3⟩ := firstIndex_drop _ _ i3 hi3
        have hc32 : c3 ≠ ' ' := by simpa using hc3
        have hdropv : s.drop (i + 1 + i3) = c3 :: rest3 := by
          rw [← hdrop3, List.drop_drop]
        have hvlen : rest3.length + 1 = s.length - (i + 1 + i3) := by
          have := congrArg List.length hdropv
          simp only [List.length_drop, List.length_cons] at this
          omega
        -- the key
        have hkey : ∃ key, string_substr s j (size_sub (string_find s ' ' j) j) = some key ∧
            StoredKeyOK key := by
          unfold string_substr
          rw [if_neg (by omega)]
          cases hq : firstIndex (fun c => decide (c = ' ')) (s.drop j) with
          | none =>
            have hfind : string_find s ' ' j = npos := by
              unfold string_find
              rw [hq]
            have hall := firstIndex_none_all _ _ hq
            rw [hfind, size_sub_eq npos j (by unfold npos; omega) (by unfold npos; omega),
              List.take_of_length_le (by rw [List.length_drop]; unfold npos; omega)]
            refine ⟨_, rfl, ?_, ?_⟩
            · rw [hdropj]; exact List.cons_ne_nil _ _
            · intro c hc
              have hcs := hsmem c (List.mem_of_mem_drop hc)
              have := hall c hc
              exact ⟨by simpa using this, hcs.1, hcs.2⟩
          | some i2 =>
            have hfind : string_find s ' ' j = j + i2 := by
              unfold string_find
              rw [hq]
            obtain ⟨hi2lt, hi2all⟩ := firstIndex_lt _ _ i2 hq
            rw [List.length_drop] at hi2lt
            obtain ⟨c2, rest2, hdrop2, hc2⟩ := firstIndex_drop _ _ i2 hq
            have hi2pos : i2 ≠ 0 := by
              intro h0
              rw [h0, List.drop_zero, hdropj] at hdrop2
              have : cj = c2 := (List.cons.inj hdrop2).1
              rw [← this] at hc2
              exact hcj2 (by simpa using hc2)
            rw [hfind, size_sub_eq (j + i2) j (by omega) (by omega), Nat.add_sub_cancel_left]
            refine ⟨_, rfl, ?_, ?_⟩
            · rw [hdropj]
              obtain ⟨k, rfl⟩ : ∃ k, i2 = k + 1 := ⟨i2 - 1, by omega⟩
              exact List.cons_ne_nil _ _
            · intro c hc
              have hcs := hsmem c (List.mem_of_mem_drop (List.mem_of_mem_take hc))
              have := hi2all c hc
              exact ⟨by simpa using this, hcs.1, hcs.2⟩
        -- the value
        have hval : ∃ value,
            string_substr s (i + 1 + i3) (size_sub s.length (i + 1 + i3)) = some value ∧
            ValueOK value := by
          unfold string_substr
          rw [if_neg (by omega), size_sub_eq s.length (i + 1 + i3) (by omega) hslen, hdropv,
            List.take_of_length_le (by rw [List.length_cons]; omega)]
          refine ⟨_, rfl, List.cons_ne_nil _ _, ?_, ?_⟩
          · intro c hc
            rw [← hdropv] at hc
            exact hsmem c (List.mem_of_mem_drop hc)
          · intro hh
            exact hc32 (Option.some.inj hh)
        obtain ⟨key, ek, hk⟩ := hkey
        obtain ⟨value, ev, hv⟩ := hval
        rw [hsplit, hks, hvs, ek, ev]
        exact ⟨_, _, rfl, Or.inr ⟨key, value, rfl, hk, hv⟩⟩
      · exact ⟨_, _, by rw [if_neg h3], Or.inl rfl⟩

theorem filter_no_value_line (p : Char → Bool) (a : Str) (n : Nat) (hp1 : p '=' = true)
    (hp2 : p ' ' = true) :
    (a ++ '=' :: List.replicate n ' ').filter p = a.filter p ++ '=' :: List.replicate n ' ' := by
  rw [List.filter_append, List.filter_cons_of_pos hp1]
  congr 2
  rw [List.filter_eq_self]
  intro c hc
  rw [List.eq_of_mem_replicate hc]
  exact hp2

/-- The loop body on a line whose text after the first `=` is empty or only
spaces: the map stays as it is. -/
theorem processLine_no_value (a : Str) (n : Nat) (m : List (Str × Str)) (ha : '=' ∉ a) :
    ∃ Line1, CConfig.processLine (a ++ '=' :: List.replicate n ' ') m = .ok (Line1, m) := by
  unfold CConfig.processLine
  by_cases h1 : (a ++ '=' :: List.replicate n ' ') = [] ∨
      (a ++ '=' :: List.replicate n ' ').head? = some '#' ∨
      (a ++ '=' :: List.replicate n ' ') = ['\n']
  · exact ⟨_, by rw [if_pos h1]⟩
  · rw [if_neg h1]
    have e1 := filter_no_value_line (fun c : Char => decide (c ≠ '\r')) a n
      (by decide) (by decide)
    have e2 := filter_no_value_line (fun c : Char => decide (c ≠ '\n'))
      (a.filter (fun c => decide (c ≠ '\r'))) n (by decide) (by decide)
    simp only [e1, e2]
    obtain ⟨a2, ha2, hmem⟩ : ∃ a2 : Str,
        a2 = (a.filter (fun c => c ≠ '\r')).filter (fun c => c ≠ '\n') ∧ '=' ∉ a2 := by
      refine ⟨_, rfl, ?_⟩
      intro hmem
      exact ha (List.mem_of_mem_filter (List.mem_of_mem_filter hmem))
    simp only [← ha2]
    by_cases h2 : string_find (a2 ++ '=' :: List.replicate n ' ') '=' 0 = npos
    · exact ⟨_, by rw [if_pos h2]⟩
    · rw [if_neg h2]
      have hsplit : string_find (a2 ++ '=' :: List.replicate n ' ') '=' 0 = a2.length := by
        have := string_find_at [] a2 (List.replicate n ' ') '='
          (fun c hc e => hmem (e ▸ hc))
        simpa using this
      have hvs : string_find_first_not_of (a2 ++ '=' :: List.replicate n ' ') ' '
          (a2.length + 1) = npos := by
        unfold string_find_first_not_of
        have hdrop : (a2 ++ '=' :: List.replicate n ' ').drop (a2.length + 1)
            = List.replicate n ' ' := by
          rw [List.drop_append_eq_append_drop]
          simp
        rw [hdrop, firstIndex_eq_none]
        intro c hc
        rw [List.eq_of_mem_replicate hc]
        decide
      rw [hsplit, hvs]
      exact ⟨_, by rw [if_neg (fun hne => hne rfl)]⟩

/-- The loop body over lines shorter than `2 ^ 64` keeps the entries of the
map in the stored form. -/
theorem runLines_entries (ls : List Str) : ∀ m, (∀ l ∈ ls, l.length < 2 ^ 64) →
    EntriesOK m → ∃ m1, runLines ls m = .ok m1 ∧ EntriesOK m1 := by
  induction ls with
  | nil => intro m _ hm; exact ⟨m, rfl, hm⟩
  | cons l ls ih =>
    intro m hls hm
    obtain ⟨Line1, m1, h, hm1⟩ := processLine_stored l m (hls l (List.mem_cons_self l ls))
    have hok : EntriesOK m1 := by
      rcases hm1 with rfl | ⟨key, value, rfl, hk, hv⟩
      · exact hm
      · intro e he
        rcases map_assign_mem m key value e he with h0 | h0
        · exact hm e h0
        · rw [h0]; exact ⟨hk, hv⟩
    obtain ⟨m2, h2, hm2⟩ := ih m1 (fun x hx => hls x (List.mem_cons_of_mem l hx)) hok
    exact ⟨m2, by simp [runLines, h, h2], hm2⟩

/-- Every text is the content of a file of lines, none longer than the
text. -/
theorem exists_lines : ∀ content : Str, ∃ ls : List Str,
    ls ≠ [] ∧ (∀ l ∈ ls, '\n' ∉ l) ∧ (∀ l ∈ ls, l.length ≤ content.length) ∧
    joinLines ls = content := by
  intro content
  induction content with
  | nil =>
    refine ⟨[[]], by simp, ?_, ?_, joinLines_singleton []⟩
    · intro l hl
      rw [List.mem_singleton.mp hl]
      exact List.not_mem_nil _
    · intro l hl
      rw [List.mem_singleton.mp hl]
  | cons c cs ih =>
    obtain ⟨ls, hne, hnl, hlen, hjoin⟩ := ih
    cases ls with
    | nil => exact absurd rfl hne
    | cons l0 rest =>
      by_cases hc : c = '\n'
      · refine ⟨[] :: l0 :: rest, by simp, ?_, ?_, ?_⟩
        · intro l hl
          rcases List.mem_cons.mp hl with h | h
          · rw [h]; exact List.not_mem_nil _
          · exact hnl l h
        · intro l hl
          rcases List.mem_cons.mp hl with h | h
          · rw [h]; exact Nat.zero_le _
          · exact Nat.le_succ_of_le (hlen l h)
        · rw [joinLines_cons_cons, hjoin, hc]
          rfl
      · refine ⟨(c :: l0) :: rest, by simp, ?_, ?_, ?_⟩
        · intro l hl
          rcases List.mem_cons.mp hl with h | h
          · rw [h]
            intro hmem
            rcases List.mem_cons.mp hmem with h2 | h2
            · exact hc h2.symm
            · exact hnl l0 (List.mem_cons_self l0 rest) h2
          · exact hnl l (List.mem_cons_of_mem l0 h)
        · intro l hl
          rcases List.mem_cons.mp hl with h | h
          · rw [h]
            exact Nat.succ_le_succ (hlen l0 (List.mem_cons_self l0 rest))
          · exact Nat.le_succ_of_le (hlen l (List.mem_cons_of_mem l0 h))
        · cases rest with
          | nil =>
            rw [joinLines_singleton] at hjoin ⊢
            rw [hjoin]
          | cons l1 ls1 =>
            rw [joinLines_cons_cons] at hjoin ⊢
            rw [List.cons_append, hjoin]

/-- C23: for every content of a configuration file the constructor returns,
so that no `substr` is taken out of range, and, the content being shorter than
`2 ^ 64` characters, every stored key is non-empty and free of spaces, CR and
LF, and every stored value is non-empty, free of CR and LF and does not start
with a space. In a line that holds `=` the key start is a position of the
line. A line of the file whose text after its first `=` is empty or only
spaces stores nothing: the file loads into the same result as the file without
that line. -/
theorem C23_stored_entries (content : Str) :
    (∃ cfg : CConfig, CConfig.new (some content) = .ok cfg ∧
      (content.length < 2 ^ 64 → ∀ e ∈ cfg.m_CFG, StoredKeyOK e.1 ∧ ValueOK e.2)) ∧
    (∀ line : Str, '=' ∈ line → string_find_first_not_of line ' ' 0 < line.length) ∧
    (∀ (pre post : List Str) (a : Str) (n : Nat),
      content = joinLines (pre ++ (a ++ '=' :: List.replicate n ' ') :: post) →
      (∀ x ∈ pre, '\n' ∉ x) → (∀ x ∈ post, '\n' ∉ x) → '\n' ∉ a → '=' ∉ a →
      CConfig.new (some content) = CConfig.new (some (joinLines (pre ++ post)))) := by
  refine ⟨?_, ?_, ?_⟩
  · obtain ⟨ls, _, hnl, hlen, hjoin⟩ := exists_lines content
    rw [← hjoin, new_joinLines ls hnl]
    by_cases hc : (joinLines ls).length < 2 ^ 64
    · obtain ⟨m1, h1, hm1⟩ := runLines_entries ls []
        (fun l hl => lt_of_le_of_lt (hjoin ▸ hlen l hl) hc)
        (fun e he => absurd he (List.not_mem_nil e))
      rw [h1]
      exact ⟨⟨m1⟩, rfl, fun _ => hm1⟩
    · obtain ⟨m1, h1⟩ := runLines_ok ls []
      rw [h1]
      exact ⟨⟨m1⟩, rfl, fun h => absurd h hc⟩
  · intro line hmem
    obtain ⟨j, hj⟩ := firstIndex_isSome_of_mem (fun c => decide (c ≠ ' ')) line '=' hmem
      (by decide)
    unfold string_find_first_not_of
    rw [List.drop_zero, hj]
    show 0 + j < line.length
    rw [Nat.zero_add]
    exact (firstIndex_lt _ line j hj).1
  · intro pre post a n hcontent hpre hpost hnl ha
    have hl : '\n' ∉ a ++ '=' :: List.replicate n ' ' := by
      intro hmem
      rcases List.mem_append.mp hmem with h | h
      · exact hnl h
      · rcases List.mem_cons.mp h with h | h
        · exact absurd h (by decide)
        · exact absurd (List.eq_of_mem_replicate h) (by decide)
    have h1 : ∀ x ∈ pre ++ (a ++ '=' :: List.replicate n ' ') :: post, '\n' ∉ x := by
      intro x hx
      rcases List.mem_append.mp hx with h | h
      · exact hpre x h
      · rcases List.mem_cons.mp h with h | h
        · rw [h]; exact hl
        · exact hpost x h
    have h2 : ∀ x ∈ pre ++ post, '\n' ∉ x := by
      intro x hx
      rcases List.mem_append.mp hx with h | h
      · exact hpre x h
      · exact hpost x h
    rw [hcontent, new_joinLines _ h1, new_joinLines _ h2, runLines_append, runLines_append]
    cases runLines pre [] with
    | error e => rfl
    | ok m1 =>
      obtain ⟨Line1, h⟩ := processLine_no_value a n m1 ha
      simp only [runLines, h]

/-- C23 on a file with an assignment, a line without a value and an assignment
with spaces around the key. -/
theorem C23_stored_entries_witness :
    CConfig.new (some "a = 1\nb =  \n c  = x y".toList)
      = .ok ⟨[("a".toList, "1".toList), ("c".toList, "x y".toList)]⟩ ∧
    (∃ cfg : CConfig, CConfig.new (some "a = 1\nb =  \n c  = x y".toList) = .ok cfg ∧
      ∀ e ∈ cfg.m_CFG, StoredKeyOK e.1 ∧ ValueOK e.2) ∧
    CConfig.new (some "a = 1\nb =  \n c  = x y".toList)
      = CConfig.new (some "a = 1\n c  = x y".toList) := by
  refine ⟨by decide, ?_, ?_⟩
  · obtain ⟨cfg, h1, h2⟩ := (C23_stored_entries "a = 1\nb =  \n c  = x y".toList).1
    exact ⟨cfg, h1, h2 (by decide)⟩
  · exact (C23_stored_entries "a = 1\nb =  \n c  = x y".toList).2.2 ["a = 1".toList]
      [" c  = x y".toList] "b ".toList 2 (by decide) (by decide) (by decide) (by decide)
      (by decide)

/-! ### Later lines that store under other keys -/

theorem firstIndex_span (p q : Char → Bool) (hpq : ∀ c, q c = !p c) : ∀ (xs : Str) (i : Nat),
    firstIndex p xs = some i → xs.dropWhile q = xs.drop i ∧ xs.takeWhile q = xs.take i := by
  intro xs
  induction xs with
  | nil => intro i h; simp [firstIndex] at h
  | cons a xs ih =>
    intro i h
    by_cases ha : p a = true
    · simp [firstIndex, ha] at h
      subst h
      have hq : q a = false := by rw [hpq, ha]; rfl
      simp [List.dropWhile, List.takeWhile, hq]
    · simp only [firstIndex, ha, if_false] at h
      cases hq : firstIndex p xs with
      | none => simp [hq] at h
      | some j =>
        simp [hq] at h
        subst h
        have hqa : q a = true := by rw [hpq]; simpa using ha
        obtain ⟨h1, h2⟩ := ih j hq
        simp [List.dropWhile, List.takeWhile, hqa, h1, h2]

theorem firstIndex_none_takeWhile (p q : Char → Bool) (hpq : ∀ c, q c = !p c) (xs : Str)
    (h : firstIndex p xs = none) : xs.takeWhile q = xs := by
  have hall := firstIndex_none_all p xs h
  exact (span_all q xs (fun c hc => by rw [hpq, hall c hc]; rfl)).1

theorem map_find_assign_ne (m : List (Str × Str)) (k k1 v : Str) (hne : k1 ≠ k) :
    map_find (map_assign m k1 v) k = map_find m k := by
  induction m with
  | nil => simp [map_assign, map_find, hne]
  | cons e m ih =>
    obtain ⟨k0, v0⟩ := e
    by_cases h : k0 = k1
    · have h0 : k0 ≠ k := by rw [h]; exact hne
      simp [map_assign, map_find, h, hne]
    · by_cases h0 : k0 = k
      · subst h0
        simp [map_assign, map_find, h]
      · simp [map_assign, map_find, h, h0, ih]

/-- The loop body on a line shorter than `2 ^ 64`: the map stays as it is, or
gains one assignment, and then the key is the first word of the line. -/
theorem processLine_first_word (Line : Str) (m : List (Str × Str))
    (hlen : Line.length < 2 ^ 64) :
    ∃ Line1 m1, CConfig.processLine Line m = .ok (Line1, m1) ∧
      (m1 = m ∨ ∃ value, m1 = map_assign m (firstWord Line) value) := by
  unfold CConfig.processLine
  by_cases h1 : Line = [] ∨ Line.head? = some '#' ∨ Line = ['\n']
  · exact ⟨_, _, by rw [if_pos h1], Or.inl rfl⟩
  · rw [if_neg h1]
    obtain ⟨s, hs⟩ : ∃ s : Str, s = (Line.filter (fun c => c ≠ '\r')).filter
        (fun c => c ≠ '\n') := ⟨_, rfl⟩
    have hfw : firstWord Line = (s.dropWhile (fun c => decide (c = ' '))).takeWhile
        (fun c => decide (c ≠ ' ')) := by
      rw [hs]; rfl
    simp only [← hs]
    have hslen : s.length < 2 ^ 64 := by
      rw [hs]
      exact lt_of_le_of_lt
        ((List.length_filter_le _ _).trans (List.length_filter_le _ _)) hlen
    by_cases h2 : string_find s '=' 0 = npos
    · exact ⟨_, _, by rw [if_pos h2], Or.inl rfl⟩
    · rw [if_neg h2]
      by_cases h3 : string_find_first_not_of s ' ' (string_find s '=' 0 + 1) ≠ npos
      · rw [if_pos h3]
        -- the position of `=`
        obtain ⟨i, hi⟩ : ∃ i, firstIndex (fun c => decide (c = '=')) s = some i := by
          cases hq : firstIndex (fun c => decide (c = '=')) s with
          | none => simp [string_find, hq] at h2
          | some i => exact ⟨i, rfl⟩
        -- the key start
        obtain ⟨ce, hce, hpe⟩ := firstIndex_some_mem _ s i hi
        have hce2 : ce = '=' := by simpa using hpe
        obtain ⟨j, hj⟩ := firstIndex_isSome_of_mem (fun c => decide (c ≠ ' ')) s ce hce
          (by rw [hce2]; decide)
        have hjlt := (firstIndex_lt _ s j hj).1
        have hks : string_find_first_not_of s ' ' 0 = j := by
          unfold string_find_first_not_of
          rw [List.drop_zero, hj]
          exact Nat.zero_add j
        have hdw : s.dropWhile (fun c => decide (c = ' ')) = s.drop j :=
          (firstIndex_span (fun c => decide (c ≠ ' ')) (fun c => decide (c = ' '))
            (by intro c; simp) s j hj).1
        -- the value start is a position of the line
        have hvs : string_find_first_not_of s ' ' (string_find s '=' 0 + 1) ≤ s.length := by
          unfold string_find_first_not_of at h3 ⊢
          cases hq : firstIndex (fun c => decide (c ≠ ' ')) (s.drop (string_find s '=' 0 + 1)) with
          | none =>
            rw [hq] at h3
            exact absurd rfl h3
          | some i2 =>
            have := (firstIndex_lt _ _ i2 hq).1
            simp only [List.length_drop] at this
            show string_find s '=' 0 + 1 + i2 ≤ s.length
            omega
        -- the key
        have hkey : string_substr s j (size_sub (string_find s ' ' j) j)
            = some (firstWord Line) := by
          unfold string_substr
          rw [if_neg (by omega), hfw, hdw]
          cases hq : firstIndex (fun c => decide (c = ' ')) (s.drop j) with
          | none =>
            have hfind : string_find s ' ' j = npos := by
              unfold string_find
              rw [hq]
            rw [hfind, size_sub_eq npos j (by unfold npos; omega) (by unfold npos; omega),
              List.take_of_length_le (by rw [List.length_drop]; unfold npos; omega),
              firstIndex_none_takeWhile (fun c => decide (c = ' '))
                (fun c => decide (c ≠ ' ')) (by intro c; simp) _ hq]
          | some i2 =>
            have hfind : string_find s ' ' j = j + i2 := by
              unfold string_find
              rw [hq]
            have hi2lt := (firstIndex_lt _ _ i2 hq).1
            rw [List.length_drop] at hi2lt
            rw [hfind, size_sub_eq (j + i2) j (by omega) (by omega), Nat.add_sub_cancel_left,
              (firstIndex_span (fun c => decide (c = ' ')) (fun c => decide (c ≠ ' '))
                (by intro c; simp) _ i2 hq).2]
        -- the value
        have e2 : ∀ n,
            string_substr s (string_find_first_not_of s ' ' (string_find s '=' 0 + 1)) n
            = some ((s.drop (string_find_first_not_of s ' '
                (string_find s '=' 0 + 1))).take n) := by
          intro n
          unfold string_substr
          rw [if_neg (by omega)]
        rw [hks, hkey, e2]
        exact ⟨_, _, rfl, Or.inr ⟨_, rfl⟩⟩
      · exact ⟨_, _, by rw [if_neg h3], Or.inl rfl⟩

/-- Lines that are skipped or whose first word is not `k` leave the entry of
`k` as it is. -/
theorem runLines_other_keys (k : Str) (ls : List Str) : ∀ m,
    (∀ l ∈ ls, SkippedLine l ∨ (l.length < 2 ^ 64 ∧ firstWord l ≠ k)) →
    ∃ m1, runLines ls m = .ok m1 ∧ map_find m1 k = map_find m k := by
  induction ls with
  | nil => intro m _; exact ⟨m, rfl, rfl⟩
  | cons l ls ih =>
    intro m hls
    have hstep : ∃ Line1 m1, CConfig.processLine l m = .ok (Line1, m1) ∧
        map_find m1 k = map_find m k := by
      rcases hls l (List.mem_cons_self l ls) with hskip | ⟨hlen, hw⟩
      · obtain ⟨Line1, h⟩ := processLine_skipped l m hskip
        exact ⟨Line1, m, h, rfl⟩
      · obtain ⟨Line1, m1, h, hm1⟩ := processLine_first_word l m hlen
        refine ⟨Line1, m1, h, ?_⟩
        rcases hm1 with rfl | ⟨value, rfl⟩
        · rfl
        · exact map_find_assign_ne m k (firstWord l) value hw
    obtain ⟨Line1, m1, h, hfind⟩ := hstep
    obtain ⟨m2, h2, hfind2⟩ := ih m1 (fun x hx => hls x (List.mem_cons_of_mem l hx))
    exact ⟨m2, by simp [runLines, h, h2], by rw [hfind2, hfind]⟩

/-- C5: for every well-formed key `k` and value `v`, a file that holds the line
`k = v` (one space on each side of `=`) loads without error into a
configuration that maps `k` to exactly `v`: `GetString(k, d)` returns `v` for
every default `d` and leaves the configuration as it is. The lines before that
line are arbitrary; a line after it may be any skipped line or any line whose
first word is not `k`, such as an assignment to another key, so that the line
`k = v` is the last one that stores under `k`. The code needs no condition on
the last character of `v`. -/
theorem C5_key_value_line (pre post : List Str) (k v d : Str)
    (hk : KeyOK k) (hv : ValueOK v)
    (hpre : ∀ l ∈ pre, '\n' ∉ l)
    (hpost : ∀ l ∈ post, '\n' ∉ l ∧
      (SkippedLine l ∨ (l.length < 2 ^ 64 ∧ firstWord l ≠ k)))
    (hlen : k.length + v.length + 3 < 2 ^ 64) :
    ∃ cfg : CConfig,
      CConfig.new (some (joinLines (pre ++ (k ++ ' ' :: '=' :: ' ' :: v) :: post))) = .ok cfg ∧
      map_find cfg.m_CFG k = some v ∧
      cfg.GetString k d = (v, cfg) := by
  have hline : '\n' ∉ k ++ ' ' :: '=' :: ' ' :: v := by
    intro hmem
    simp only [List.mem_append, List.mem_cons] at hmem
    rcases hmem with h | h | h | h | h
    · exact (hk.2.1 _ h).2.2.2 rfl
    · exact absurd h (by decide)
    · exact absurd h (by decide)
    · exact absurd h (by decide)
    · exact (hv.2.1 _ h).2 rfl
  have hall : ∀ l ∈ pre ++ (k ++ ' ' :: '=' :: ' ' :: v) :: post, '\n' ∉ l := by
    intro l hl
    rcases List.mem_append.mp hl with h | h
    · exact hpre l h
    · rcases List.mem_cons.mp h with h | h
      · rw [h]; exact hline
      · exact (hpost l h).1
  obtain ⟨m1, hm1⟩ := runLines_ok pre []
  have hentry := processLine_entry 0 0 1 k v m1 hk hv (by omega)
  have hentry2 : CConfig.processLine (k ++ ' ' :: '=' :: ' ' :: v) m1
      = .ok (k ++ ' ' :: '=' :: ' ' :: v, map_assign m1 k v) := hentry
  obtain ⟨m2, hm2, hfind⟩ := runLines_other_keys k post (map_assign m1 k v)
    (fun l hl => (hpost l hl).2)
  rw [map_find_assign] at hfind
  refine ⟨⟨m2⟩, ?_, hfind, ?_⟩
  · rw [new_joinLines _ hall, runLines_append, hm1]
    simp only [runLines, hentry2, hm2]
  · exact GetString_of_find _ k v d hfind

/-- C5 on a file of four lines: a comment, the assignment `game_name = Test`,
an assignment to another key, and the empty line after the final newline. -/
theorem C5_key_value_line_witness :
    ∃ cfg : CConfig,
      CConfig.new (some "# comment\ngame_name = Test\nlatency = 80\n".toList) = .ok cfg ∧
      map_find cfg.m_CFG "game_name".toList = some "Test".toList ∧
      cfg.GetString "game_name".toList "x".toList = ("Test".toList, cfg) :=
  C5_key_value_line ["# comment".toList] ["latency = 80".toList, []] "game_name".toList
    "Test".toList "x".toList
    (by unfold KeyOK; decide) (by unfold ValueOK; decide) (by decide)
    (by unfold SkippedLine firstWord; decide) (by decide)

end YDHost
